import Mathlib

/-!
# kingshard `sqlmonitor`: LRU cache and SQL statistics aggregator

A shallow embedding of `sqlmonitor/lru.go` and `sqlmonitor/sqlmonitor.go`, followed by
theorems about it.

Conventions of the embedding

* Go `int` / `int64` values are `Int`.  The only arithmetic on them is `+ 1` on event
  counters and `Len() - n` on list lengths, which cannot leave the 64-bit range on
  any run shorter than `2^63` calls, so no wrap-around is modelled.
* Go `float64` values are `Float64` below: NaN, the two infinities, or a finite number
  given as a rational (the two zeros are one value).  Comparisons follow IEEE-754 (every
  comparison with NaN is false).  Addition follows IEEE-754: the exact sum is rounded to
  the nearest float64, ties to even, and overflows to an infinity.
* A `*list.Element` stored in the lookup index is an element identifier (`Element.id`),
  fresh for every `PushFront`.  A `*list.Element` used to walk an unchanging list is a
  `Cursor` (the elements before it, the element, the elements after it).
  In every state reached through the methods an identifier held by the index names an
  element of the list (`LRUCache.WF`, proved to be preserved); where a definition needs
  that element and the list has none, it returns "not found" or leaves the cache as it is.
* A call that panics returns `none` (or an explicit flag where the panic is recovered).
* Library functions that are not part of the repository (`query.Fingerprint`, `query.Id`,
  `fmt.Sprintf("%.3f")`, `strconv.ParseInt`, `strconv.ParseFloat`, `bufio.Scanner`) are
  fields of `Lib`, a parameter of the definitions that call them.
-/

set_option autoImplicit false

/-! ## float64 -/

/-- Values of Go's `float64`: NaN, minus infinity, plus infinity, or a finite number. -/
inductive Float64 where
  | nan
  | negInf
  | posInf
  | fin (q : ℚ)
deriving DecidableEq

namespace Float64

/-- Go's `a < b` on float64. -/
def lt : Float64 → Float64 → Bool
  | fin a, fin b => decide (a < b)
  | negInf, fin _ => true
  | negInf, posInf => true
  | fin _, posInf => true
  | _, _ => false

/-- Go's `a <= b` on float64. -/
def le : Float64 → Float64 → Bool
  | nan, _ => false
  | _, nan => false
  | fin a, fin b => decide (a ≤ b)
  | negInf, _ => true
  | _, posInf => true
  | _, _ => false

/-- Go's `a > b` on float64. -/
def gt (a b : Float64) : Bool := lt b a

/-- Go's `a >= b` on float64. -/
def ge (a b : Float64) : Bool := le b a

/-- The float64 nearest to a number (IEEE-754 binary64, round to nearest, ties to even):
the number is scaled to 53 significant bits in its binade (exponent at least `-1022`, the
subnormal range), rounded to an integer, and scaled back; a result of `2^1024` or more is
an infinity. -/
def nearest (q : ℚ) : Float64 :=
  if q = 0 then fin 0
  else
    let e : Int := max (Int.log 2 |q|) (-1022)
    let quantum : ℚ := (2 : ℚ) ^ (e - 52)
    let scaled : ℚ := |q| / quantum
    let lower : Int := ⌊scaled⌋
    let n : Int :=
      if scaled - lower < 1 / 2 then lower
      else if 1 / 2 < scaled - lower then lower + 1
      else if lower % 2 = 0 then lower else lower + 1
    let r : ℚ := n * quantum
    if (2 : ℚ) ^ 1024 ≤ r then (if 0 < q then posInf else negInf)
    else fin (if 0 < q then r else -r)

/-- Go's `a + b` on float64: the exact sum of two finite values rounded to the nearest
float64. -/
def add : Float64 → Float64 → Float64
  | nan, _ => nan
  | _, nan => nan
  | posInf, negInf => nan
  | negInf, posInf => nan
  | posInf, _ => posInf
  | _, posInf => posInf
  | negInf, _ => negInf
  | _, negInf => negInf
  | fin a, fin b => nearest (a + b)

end Float64

/-! ## lru.go -/

/-- A `list.Element` holding an `*entry`: `id` stands for the address of the element. -/
structure Element (K V : Type) where
  id : Nat
  key : K
  value : V

/-- The struct `LRUCache`.

* `OnEvicted = none` is a nil callback; `some calls` is a callback that is set, together
  with the arguments of the calls made to it so far, oldest first.
* `ll` is the recency list, most recent first.  The nil list pointer is the empty list:
  the code only touches `ll` after it has checked `cache != nil`, and sets both
  fields together.
* `cache = none` is the nil map; `some m` maps a key to the identifier of its element.
* `nextId` is the identifier the next `PushFront` hands out. -/
structure LRUCache (K V : Type) where
  MaxEntries : Int
  OnEvicted : Option (List (K × V))
  OnValueUpdate : Option (K → Option V → V → V)
  ll : List (Element K V)
  cache : Option (List (K × Nat))
  nextId : Nat

section MapAndList

variable {K V : Type} [DecidableEq K]

/-- Go's `m[key]` on a map from keys to element identifiers. -/
def mapGet (m : List (K × Nat)) (key : K) : Option Nat :=
  (m.find? (fun p => decide (p.1 = key))).map (fun p => p.2)

/-- Go's `delete(m, key)`. -/
def mapDelete (m : List (K × Nat)) (key : K) : List (K × Nat) :=
  m.filter (fun p => decide (p.1 ≠ key))

/-- Go's `m[key] = id`. -/
def mapSet (m : List (K × Nat)) (key : K) (id : Nat) : List (K × Nat) :=
  (key, id) :: mapDelete m key

/-- The element with a given identifier, when it is linked in the list. -/
def listElem (l : List (Element K V)) (id : Nat) : Option (Element K V) :=
  l.find? (fun e => decide (e.id = id))

/-- `list.Remove(e)`: unlink the element. -/
def listRemove (l : List (Element K V)) (id : Nat) : List (Element K V) :=
  l.filter (fun e => decide (e.id ≠ id))

/-- `list.MoveToFront(e)`; no effect when `e` is not an element of the list. -/
def listMoveToFront (l : List (Element K V)) (id : Nat) : List (Element K V) :=
  match listElem l id with
  | some e => e :: listRemove l id
  | none => l

/-- The assignment `e.Value.(*entry).value = f (e.Value.(*entry).value)`. -/
def listSetValue (l : List (Element K V)) (id : Nat) (f : V → V) : List (Element K V) :=
  l.map (fun e => if e.id = id then { e with value := f e.value } else e)

end MapAndList

/-- The constructor `NewLRUCache(maxEntries)`. -/
def NewLRUCache (K V : Type) (maxEntries : Int) : LRUCache K V :=
  { MaxEntries := maxEntries, OnEvicted := none, OnValueUpdate := none,
    ll := [], cache := some [], nextId := 0 }

namespace LRUCache

variable {K V : Type} [DecidableEq K]

/-- The method `removeElement(e)`. -/
def removeElement (c : LRUCache K V) (e : Element K V) : LRUCache K V :=
  { c with
    ll := listRemove c.ll e.id
    cache := c.cache.map (fun m => mapDelete m e.key)
    OnEvicted := c.OnEvicted.map (fun calls => calls ++ [(e.key, e.value)]) }

/-- The method `Len()`. -/
def Len (c : LRUCache K V) : Int :=
  match c.cache with
  | none => 0
  | some _ => (c.ll.length : Int)

/-- The method `Add(key, value)`. -/
def Add (c : LRUCache K V) (key : K) (value : V) : LRUCache K V :=
  let c : LRUCache K V :=
    match c.cache with
    | none => { c with cache := some [], ll := [] }
    | some _ => c
  match mapGet (c.cache.getD []) key with
  | some ee =>
    let ll := listMoveToFront c.ll ee
    match c.OnValueUpdate with
    | none => { c with ll := listSetValue ll ee (fun _ => value) }
    | some f => { c with ll := listSetValue ll ee (fun old => f key (some old) value) }
  | none =>
    let value : V :=
      match c.OnValueUpdate with
      | none => value
      | some f => f key none value
    let ele : Element K V := { id := c.nextId, key := key, value := value }
    let c : LRUCache K V :=
      { c with ll := ele :: c.ll, cache := some (mapSet (c.cache.getD []) key ele.id),
               nextId := c.nextId + 1 }
    if c.MaxEntries ≠ 0 ∧ (c.ll.length : Int) > c.MaxEntries then
      match c.ll.getLast? with
      | some back => removeElement c back
      | none => c
    else c

/-- The method `Get(key)`: `none` is `ok = false`. -/
def Get (c : LRUCache K V) (key : K) : Option V :=
  match c.cache with
  | none => none
  | some m =>
    match mapGet m key with
    | some ele => (listElem c.ll ele).map (fun e => e.value)
    | none => none

/-- The method `Remove(key)`. -/
def Remove (c : LRUCache K V) (key : K) : LRUCache K V :=
  match c.cache with
  | none => c
  | some m =>
    match mapGet m key with
    | some ele =>
      match listElem c.ll ele with
      | some e => removeElement c e
      | none => c
    | none => c

/-- The method `RemoveOldest()`: the removed value (`none` is Go's nil) and the cache
afterwards. -/
def RemoveOldest (c : LRUCache K V) : Option V × LRUCache K V :=
  match c.cache with
  | none => (none, c)
  | some _ =>
    match c.ll.getLast? with
    | some ele => (some ele.value, removeElement c ele)
    | none => (none, c)

/-- The loop `for i := 0; i < cutSize; i++ { c.RemoveOldest() }`, by the number of
iterations left. -/
def removeOldestTimes : Nat → LRUCache K V → LRUCache K V
  | 0, c => c
  | n + 1, c => removeOldestTimes n (RemoveOldest c).2

/-- The method `SetMaxEntries(maxEntries)`. -/
def SetMaxEntries (c : LRUCache K V) (maxEntries : Int) : LRUCache K V :=
  let cutSize : Int := c.Len - maxEntries
  let c : LRUCache K V := { c with MaxEntries := maxEntries }
  if cutSize > 0 then removeOldestTimes cutSize.toNat c else c

/-- The method `Clear()`.  Go ranges over the map in an unspecified order; here the
callback is called in the order of the association list. -/
def Clear (c : LRUCache K V) : LRUCache K V :=
  { c with
    OnEvicted := c.OnEvicted.map (fun calls =>
      calls ++ ((c.cache.getD []).filterMap (fun p =>
        (listElem c.ll p.2).map (fun e => (e.key, e.value)))))
    ll := []
    cache := none }

/-- The cache seen as its list of (key, value) entries, most recent first. -/
def entries (c : LRUCache K V) : List (K × V) :=
  c.ll.map (fun e => (e.key, e.value))

/-- The keys of the cache, most recent first. -/
def keys (c : LRUCache K V) : List K :=
  c.ll.map (fun e => e.key)

/-- Consistency of the recency list and the lookup index: with a nil map the list is
empty; otherwise the keys in the list are distinct, the element identifiers are
distinct and older than `nextId`, and the index holds exactly the pairs
(key, identifier) of the elements of the list. -/
def WF (c : LRUCache K V) : Prop :=
  match c.cache with
  | none => c.ll.length = 0
  | some m =>
    (c.ll.map (fun e => e.key)).Nodup ∧ (c.ll.map (fun e => e.id)).Nodup ∧
    List.Perm m (c.ll.map (fun e => (e.key, e.id))) ∧ ∀ e ∈ c.ll, e.id < c.nextId

instance instDecidableWF (c : LRUCache K V) : Decidable c.WF := by
  unfold WF
  cases c.cache with
  | none => exact inferInstanceAs (Decidable (c.ll.length = 0))
  | some m => exact inferInstanceAs (Decidable (_ ∧ _ ∧ _ ∧ _))

/-- A `*list.Element` inside a list that is being walked, not changed: the elements
before it (nearest first), the element itself, and the elements after it. -/
structure Cursor (α : Type) where
  before : List α
  here : α
  after : List α

/-- The loop `for val := c.ll.Front(); nil != val; val = val.Next()` of `getElementAt`.
The loop variable `val` is the pair of the elements already passed (nearest first) and the
elements from `val` on; `val` is nil when the second list is empty.  `i` is the counter. -/
def walkNext {α : Type} (index : Int) : List α → List α → Int → Option (Cursor α)
  | _, [], _ => none
  | before, x :: rest, i =>
    if i + 1 ≤ index then walkNext index (x :: before) rest (i + 1)
    else some { before := before, here := x, after := rest }

/-- The loop `for val := c.ll.Back(); nil != val; val = val.Prev()` of `getElementAt`.
The loop variable `val` is the pair of the elements up to `val` (nearest first, `val`
leading) and the elements after it; `val` is nil when the first list is empty. -/
def walkPrev {α : Type} (reverseIndex : Int) : List α → List α → Int → Option (Cursor α)
  | [], _, _ => none
  | x :: before, after, i =>
    if i + 1 ≤ reverseIndex then walkPrev reverseIndex before (x :: after) (i + 1)
    else some { before := before, here := x, after := after }

/-- The method `getElementAt(index)`. -/
def getElementAt (c : LRUCache K V) (index : Int) : Option (Cursor (Element K V)) :=
  if index ≥ (c.ll.length : Int) then none
  else if index > (c.ll.length : Int) / 2 then
    walkPrev ((c.ll.length : Int) - index - 1) c.ll.reverse [] 0
  else
    walkNext index [] c.ll 0

/-- The loop `for i := 0; i < limit && nil != elem; i++` of `GetVals`: `elem` and the
elements after it, the counter `i`, and the values appended so far. -/
def collectVals (limit : Int) : List (Element K V) → Int → List V → List V
  | [], _, vals => vals
  | e :: rest, i, vals =>
    if i < limit then collectVals limit rest (i + 1) (vals ++ [e.value]) else vals

/-- The method `GetVals(limit, offset)`. -/
def GetVals (c : LRUCache K V) (limit offset : Int) : List V :=
  match c.cache with
  | none => []
  | some _ =>
    match getElementAt c offset with
    | none => []
    | some elem => collectVals limit (elem.here :: elem.after) 0 []

end LRUCache

/-! ## sqlmonitor.go -/

/-- The struct `SqlExecInfo`. -/
structure SqlExecInfo where
  Sql : String
  SuccessExec : Bool
  DBHost : String
  SchemaName : String
  UserName : String
  ExecTime : Float64
  SeenTime : Int
deriving DecidableEq

/-- The struct `SqlStats`. -/
structure SqlStats where
  hostAddr : String
  schemaName : String
  userName : String
  digest : String
  digestText : String
  countStar : Int
  countError : Int
  firstSeen : Int
  lastSeen : Int
  sumTime : Float64
  minTime : Float64
  maxTime : Float64
  count1ms : Int
  count10ms : Int
  count100ms : Int
  count1s : Int
  count5s : Int
  countOthers : Int
deriving DecidableEq

/-- The library functions called by `sqlmonitor.go`. -/
structure Lib where
  /-- The function `query.Fingerprint` of percona/go-mysql. -/
  Fingerprint : String → String
  /-- The function `query.Id` of percona/go-mysql. -/
  Id : String → String
  /-- The call `fmt.Sprintf("%.3f", x)`. -/
  FormatFloat : Float64 → String
  /-- The call `strconv.ParseInt(s, 10, 64)`; `none` is a non-nil error. -/
  ParseInt : String → Option Int
  /-- The call `strconv.ParseFloat(s, 64)`; `none` is a non-nil error. -/
  ParseFloat : String → Option Float64
  /-- The lines a `bufio.Scanner` yields on a file with the given content. -/
  ScanLines : String → List String

/-- The mode constant `fullAsyncMode`. -/
def fullAsyncMode : Int := 0
/-- The mode constant `asyncMode`. -/
def asyncMode : Int := 1
/-- The mode constant `syncMode`. -/
def syncMode : Int := 2

/-- The status constant `uninited`. -/
def uninited : Int := 0
/-- The status constant `inited`. -/
def inited : Int := 1
/-- The status constant `exiting`. -/
def exiting : Int := 2
/-- The status constant `exited`. -/
def exited : Int := 3
/-- The status constant `running`. -/
def running : Int := 4

/-- A buffered `chan SqlExecInfo`: the queued events (oldest first), the capacity, and
whether the channel has been closed. -/
structure Chan where
  buf : List SqlExecInfo
  cap : Nat
  closed : Bool

/-- Where a `statisticsThread` goroutine stands: started by `go` but not yet run, or
inside its receive loop. -/
inductive WorkerPc where
  | spawned
  | looping
deriving DecidableEq

/-- The struct `SqlMonitor`.  A nil channel or cache pointer is `none`.  `workers` is not
a field of the Go struct: it lists the `statisticsThread` goroutines that are alive. -/
structure SqlMonitor where
  sqlExecInfoChan : Option Chan
  sqlDigestCache : Option (LRUCache String SqlStats)
  sqlDigestResetCache : Option (LRUCache String SqlStats)
  mode : Int
  successOnly : Bool
  dataPath : String
  status : Int
  workers : List WorkerPc

/-- The zero value `var m SqlMonitor`. -/
def SqlMonitor.zero : SqlMonitor :=
  { sqlExecInfoChan := none, sqlDigestCache := none, sqlDigestResetCache := none,
    mode := 0, successOnly := false, dataPath := "", status := 0, workers := [] }

/-- The chain `if 1.0 >= t ... else if 5000.0 < t` of `addToCache`, adding `1` to the
counter of the first branch whose test succeeds. -/
def addBucket (stats : SqlStats) (t : Float64) : SqlStats :=
  if Float64.ge (Float64.fin 1) t then { stats with count1ms := stats.count1ms + 1 }
  else if Float64.ge (Float64.fin 10) t then { stats with count10ms := stats.count10ms + 1 }
  else if Float64.ge (Float64.fin 100) t then { stats with count100ms := stats.count100ms + 1 }
  else if Float64.ge (Float64.fin 1000) t then { stats with count1s := stats.count1s + 1 }
  else if Float64.ge (Float64.fin 5000) t then { stats with count5s := stats.count5s + 1 }
  else if Float64.lt (Float64.fin 5000) t then { stats with countOthers := stats.countOthers + 1 }
  else stats

/-- The record `addToCache` builds when the key is not in the cache (`!ok`). -/
def newStats (sqlExecInfo : SqlExecInfo) (sqlDigest sqlDigestText : String) : SqlStats :=
  let newStats : SqlStats :=
    { hostAddr := sqlExecInfo.DBHost, schemaName := sqlExecInfo.SchemaName,
      userName := sqlExecInfo.UserName, firstSeen := sqlExecInfo.SeenTime,
      lastSeen := sqlExecInfo.SeenTime, digest := sqlDigest, digestText := sqlDigestText,
      countStar := 0, countError := 0,
      sumTime := Float64.fin 0, minTime := Float64.fin 0, maxTime := Float64.fin 0,
      count1ms := 0, count10ms := 0, count100ms := 0, count1s := 0, count5s := 0,
      countOthers := 0 }
  let newStats := { newStats with countStar := 1 }
  let newStats := if !sqlExecInfo.SuccessExec then { newStats with countError := 1 } else newStats
  let newStats := { newStats with maxTime := sqlExecInfo.ExecTime }
  let newStats := { newStats with minTime := sqlExecInfo.ExecTime }
  let newStats := { newStats with sumTime := sqlExecInfo.ExecTime }
  addBucket newStats sqlExecInfo.ExecTime

/-- The record `addToCache` builds from the record `stats` found in the cache
(`case SqlStats`). -/
def updateStats (stats : SqlStats) (sqlExecInfo : SqlExecInfo) : SqlStats :=
  let stats :=
    if sqlExecInfo.SeenTime > stats.lastSeen then { stats with lastSeen := sqlExecInfo.SeenTime }
    else stats
  let stats := { stats with countStar := stats.countStar + 1 }
  let stats :=
    if !sqlExecInfo.SuccessExec then { stats with countError := stats.countError + 1 } else stats
  let stats :=
    if Float64.gt sqlExecInfo.ExecTime stats.maxTime then
      { stats with maxTime := sqlExecInfo.ExecTime }
    else if Float64.lt sqlExecInfo.ExecTime stats.minTime then
      { stats with minTime := sqlExecInfo.ExecTime }
    else stats
  let stats := { stats with sumTime := Float64.add stats.sumTime sqlExecInfo.ExecTime }
  addBucket stats sqlExecInfo.ExecTime

/-- The cache key built by `addToCache` and by `recoverCacheFormFile`. -/
def cacheKeyOf (host schema user digest : String) : String :=
  host ++ "," ++ schema ++ "," ++ user ++ "," ++ digest

/-- The function `addToCache`. -/
def addToCache (sqlDigestCache : LRUCache String SqlStats) (sqlExecInfo : SqlExecInfo)
    (sqlDigest sqlDigestText : String) : LRUCache String SqlStats :=
  let cacheKey := cacheKeyOf sqlExecInfo.DBHost sqlExecInfo.SchemaName sqlExecInfo.UserName sqlDigest
  match sqlDigestCache.Get cacheKey with
  | none => sqlDigestCache.Add cacheKey (newStats sqlExecInfo sqlDigest sqlDigestText)
  | some stats => sqlDigestCache.Add cacheKey (updateStats stats sqlExecInfo)

/-- The call `fmt.Sprintf("%d", n)` on an `int64`. -/
def formatInt (n : Int) : String := toString n

/-- The column names of `valListToSQLStats`. -/
def columnNames : List String :=
  ["host_addr", "schema_name", "user_name",
   "digest", "digest_text",
   "count_star", "count_err",
   "first_seen", "last_seen",
   "sum_time", "min_time", "max_time",
   "count_1ms", "count_10ms", "count_100ms", "count_1s", "count_5s", "count_others"]

/-- The row `valListToSQLStats` builds from one value. -/
def rowOf (L : Lib) (val : SqlStats) : List String :=
  [val.hostAddr, val.schemaName, val.userName, val.digest, val.digestText,
   formatInt val.countStar, formatInt val.countError,
   formatInt val.firstSeen, formatInt val.lastSeen,
   L.FormatFloat val.sumTime, L.FormatFloat val.minTime, L.FormatFloat val.maxTime,
   formatInt val.count1ms, formatInt val.count10ms, formatInt val.count100ms,
   formatInt val.count1s, formatInt val.count5s, formatInt val.countOthers]

/-- The function `valListToSQLStats`: each string row is copied into a row of
`len(names)` cells, cell by cell. -/
def valListToSQLStats (L : Lib) (valList : List SqlStats) : List String × List (List String) :=
  let names := columnNames
  let rows := valList.map (rowOf L)
  let values := rows.map (fun row =>
    (List.range names.length).map (fun j => row.getD j ""))
  (names, values)

namespace SqlMonitor

/-- The method `statistics`.  The flag is `false` when the call panics on a nil cache
pointer; the monitor returned is the one at that moment. -/
def statistics (L : Lib) (m : SqlMonitor) (sqlExecInfo : SqlExecInfo) : SqlMonitor × Bool :=
  let sqlDigestText := L.Fingerprint sqlExecInfo.Sql
  let sqlDigest := L.Id sqlDigestText
  match m.sqlDigestCache with
  | none => (m, false)
  | some c1 =>
    let m := { m with sqlDigestCache := some (addToCache c1 sqlExecInfo sqlDigest sqlDigestText) }
    match m.sqlDigestResetCache with
    | none => (m, false)
    | some c2 =>
      let c2 := addToCache c2 sqlExecInfo sqlDigest sqlDigestText
      ({ m with sqlDigestResetCache := some c2 }, true)

/-- The method `Record`.  `none`: the caller is suspended on the channel send.  A panic
(send on a closed channel, nil cache) is recovered and the result is the zero value
`false`.  A send on a nil channel is never ready. -/
def Record (L : Lib) (m : SqlMonitor) (sqlExecInfo : SqlExecInfo) : Option (SqlMonitor × Bool) :=
  if m.successOnly && !sqlExecInfo.SuccessExec then some (m, true)
  else if m.mode = fullAsyncMode then
    match m.sqlExecInfoChan with
    | none => some (m, false)
    | some ch =>
      if ch.closed then some (m, false)
      else if ch.buf.length < ch.cap then
        some ({ m with sqlExecInfoChan := some { ch with buf := ch.buf ++ [sqlExecInfo] } }, true)
      else some (m, false)
  else if m.mode = asyncMode then
    match m.sqlExecInfoChan with
    | none => none
    | some ch =>
      if ch.closed then some (m, false)
      else if ch.buf.length < ch.cap then
        some ({ m with sqlExecInfoChan := some { ch with buf := ch.buf ++ [sqlExecInfo] } }, true)
      else none
  else if m.mode = syncMode then
    some (statistics L m sqlExecInfo)
  else some (m, false)

/-- The receive `sqlExecInfo, ok := <-m.sqlExecInfoChan` of `statisticsThread` when the
queue holds an event, followed by `m.statistics(&sqlExecInfo)`.  `none`: there is no
looping worker or no queued event, or the worker panics. -/
def statisticsThreadRecv (L : Lib) (m : SqlMonitor) : Option SqlMonitor :=
  if WorkerPc.looping ∈ m.workers then
    match m.sqlExecInfoChan with
    | none => none
    | some ch =>
      match ch.buf with
      | [] => none
      | sqlExecInfo :: rest =>
        match statistics L { m with sqlExecInfoChan := some { ch with buf := rest } } sqlExecInfo with
        | (m, true) => some m
        | (_, false) => none
  else none

/-- The first statement `m.status = running` of `statisticsThread`.  `none`: no worker is
waiting to run. -/
def statisticsThreadBegin (m : SqlMonitor) : Option SqlMonitor :=
  if WorkerPc.spawned ∈ m.workers then
    some { m with status := running,
                  workers := WorkerPc.looping :: m.workers.erase WorkerPc.spawned }
  else none

/-- The method `SetCacheSize`; `none` is the panic on a nil cache pointer. -/
def SetCacheSize (m : SqlMonitor) (cacheSize : Int) : Option SqlMonitor :=
  match m.sqlDigestCache, m.sqlDigestResetCache with
  | some c1, some c2 =>
    some { m with sqlDigestCache := some (c1.SetMaxEntries cacheSize),
                  sqlDigestResetCache := some (c2.SetMaxEntries cacheSize) }
  | _, _ => none

/-- The method `GetQueryStats`; `none` is the panic on a nil cache pointer, and the empty
list of names is Go's nil. -/
def GetQueryStats (L : Lib) (m : SqlMonitor) (limit offset : Int) :
    Option (List String × List (List String)) :=
  if uninited = m.status then some ([], [])
  else
    match m.sqlDigestCache with
    | none => none
    | some c =>
      let limit := if 0 = limit then c.Len else limit
      some (valListToSQLStats L (c.GetVals limit offset))

/-- The loop of `GetResetQueryStats`, by the number of iterations left (`limit - i`):
the cache and the values appended so far. -/
def drainLoop : Nat → LRUCache String SqlStats → List SqlStats →
    List SqlStats × LRUCache String SqlStats
  | 0, c, valList => (valList, c)
  | n + 1, c, valList =>
    match c.RemoveOldest with
    | (some val, c) => drainLoop n c (valList ++ [val])
    | (none, c) => (valList, c)

/-- The method `GetResetQueryStats`: the result and the monitor afterwards; `none` is the
panic on a nil cache pointer. -/
def GetResetQueryStats (L : Lib) (m : SqlMonitor) (limit : Int) :
    Option ((List String × List (List String)) × SqlMonitor) :=
  if uninited = m.status then some (([], []), m)
  else
    match m.sqlDigestResetCache with
    | none => none
    | some c =>
      let limit := if 0 = limit then c.Len else limit
      let (valList, c) := drainLoop limit.toNat c []
      some (valListToSQLStats L valList, { m with sqlDigestResetCache := some c })

end SqlMonitor

/-- The call `strings.Split(s, "\t")` on the characters of `s`. -/
def splitTabs : List Char → List (List Char)
  | [] => [[]]
  | ch :: rest =>
    if ch = '\t' then [] :: splitTabs rest
    else
      match splitTabs rest with
      | [] => [[ch]]
      | field :: fields => (ch :: field) :: fields

/-- The body of the scan loop of `recoverCacheFormFile` up to the `Add`: the record a line
yields, `none` when the loop takes one of its `continue` branches. -/
def parseLine (L : Lib) (line : String) : Option SqlStats :=
  let valueList := (splitTabs line.data).map String.mk
  if 18 ≠ valueList.length then none
  else
    match L.ParseInt (valueList.getD 4 "") with
    | none => none
    | some countStar =>
    match L.ParseInt (valueList.getD 5 "") with
    | none => none
    | some countError =>
    match L.ParseInt (valueList.getD 6 "") with
    | none => none
    | some firstSeen =>
    match L.ParseInt (valueList.getD 7 "") with
    | none => none
    | some lastSeen =>
    match L.ParseFloat (valueList.getD 8 "") with
    | none => none
    | some sumTime =>
    match L.ParseFloat (valueList.getD 9 "") with
    | none => none
    | some minTime =>
    match L.ParseFloat (valueList.getD 10 "") with
    | none => none
    | some maxTime =>
    match L.ParseInt (valueList.getD 11 "") with
    | none => none
    | some count1ms =>
    match L.ParseInt (valueList.getD 12 "") with
    | none => none
    | some count10ms =>
    match L.ParseInt (valueList.getD 13 "") with
    | none => none
    | some count100ms =>
    match L.ParseInt (valueList.getD 14 "") with
    | none => none
    | some count1s =>
    match L.ParseInt (valueList.getD 15 "") with
    | none => none
    | some count5s =>
    match L.ParseInt (valueList.getD 16 "") with
    | none => none
    | some countOthers =>
    some
      { hostAddr := valueList.getD 0 "", schemaName := valueList.getD 1 "",
        userName := valueList.getD 2 "", digest := valueList.getD 3 "",
        countStar := countStar, countError := countError,
        firstSeen := firstSeen, lastSeen := lastSeen,
        sumTime := sumTime, minTime := minTime, maxTime := maxTime,
        count1ms := count1ms, count10ms := count10ms, count100ms := count100ms,
        count1s := count1s, count5s := count5s, countOthers := countOthers,
        digestText := valueList.getD 17 "" }

/-- The scan loop of `recoverCacheFormFile` over the lines of the file. -/
def recoverLines (L : Lib) : List String → LRUCache String SqlStats → LRUCache String SqlStats
  | [], c => c
  | line :: rest, c =>
    match parseLine L line with
    | none => recoverLines L rest c
    | some stats =>
      recoverLines L rest
        (c.Add (cacheKeyOf stats.hostAddr stats.schemaName stats.userName stats.digest) stats)

/-- The lines `if 0 == cacheSize { cacheSize = 10000 } else if -1 == cacheSize
{ cacheSize = 0 }` of `Start`: the capacity given to both caches, `0` being no limit. -/
def cacheCapacity (cacheSize : Int) : Int :=
  if 0 = cacheSize then 10000 else if -1 = cacheSize then 0 else cacheSize

namespace SqlMonitor

/-- The method `recoverCacheFormFile`.  `fs path` is the content of the file when
`os.OpenFile(path, os.O_RDONLY, 0666)` succeeds.  `none` is the panic on a nil cache
pointer. -/
def recoverCacheFormFile (L : Lib) (fs : String → Option String) (m : SqlMonitor) :
    Option SqlMonitor :=
  if "" = m.dataPath then some m
  else
    match fs m.dataPath with
    | none => some m
    | some content =>
      match m.sqlDigestCache with
      | none =>
        if (L.ScanLines content).all (fun line => (parseLine L line).isNone) then some m
        else none
      | some c => some { m with sqlDigestCache := some (recoverLines L (L.ScanLines content) c) }

/-- The method `Start`.  `none` is the panic of `make(chan SqlExecInfo, chanSize)` on a
negative size.  The goroutine started by `go m.statisticsThread()` is recorded in
`workers`. -/
def Start (L : Lib) (fs : String → Option String) (m : SqlMonitor)
    (mode cacheSize chanSize : Int) (dataPath : String) (successOnly : Bool) :
    Option SqlMonitor :=
  let m := { m with status := inited }
  let m := { m with successOnly := successOnly }
  let m :=
    if mode = fullAsyncMode then { m with mode := fullAsyncMode }
    else if mode = asyncMode then { m with mode := asyncMode }
    else if mode = syncMode then { m with mode := syncMode }
    else { m with mode := fullAsyncMode }
  let chanSize := if 0 = chanSize then 4096 else chanSize
  let cacheSize := cacheCapacity cacheSize
  let m := { m with sqlDigestCache := some (NewLRUCache String SqlStats cacheSize) }
  let m := { m with sqlDigestResetCache := some (NewLRUCache String SqlStats cacheSize) }
  if chanSize < 0 then none
  else
    let ch : Chan := { buf := [], cap := chanSize.toNat, closed := false }
    let m := { m with sqlExecInfoChan := some ch }
    let m := { m with dataPath := dataPath }
    match recoverCacheFormFile L fs m with
    | none => none
    | some m =>
      if syncMode ≠ m.mode then some { m with workers := WorkerPc.spawned :: m.workers }
      else some m

end SqlMonitor

/-! ## Runs of cache operations -/

/-- A call of one of the methods of `LRUCache` that change the cache. -/
inductive CacheOp (K V : Type) where
  | add (key : K) (value : V)
  | remove (key : K)
  | removeOldest
  | clear
  | setMaxEntries (maxEntries : Int)

/-- The cache after one call. -/
def CacheOp.apply {K V : Type} [DecidableEq K] (c : LRUCache K V) :
    CacheOp K V → LRUCache K V
  | CacheOp.add key value => c.Add key value
  | CacheOp.remove key => c.Remove key
  | CacheOp.removeOldest => c.RemoveOldest.2
  | CacheOp.clear => c.Clear
  | CacheOp.setMaxEntries maxEntries => c.SetMaxEntries maxEntries

/-- The argument of the call is admissible: `SetMaxEntries(n)` has `n >= 0`. -/
def CacheOp.nonneg {K V : Type} : CacheOp K V → Prop
  | CacheOp.setMaxEntries maxEntries => 0 ≤ maxEntries
  | _ => True

/-- The cache after a sequence of calls, the first call first. -/
def runCacheOps {K V : Type} [DecidableEq K] (c : LRUCache K V) (ops : List (CacheOp K V)) :
    LRUCache K V :=
  ops.foldl CacheOp.apply c

/-! ## Runs of the monitor -/

/-- The cache key `addToCache` builds for an event recorded through `statistics`. -/
def eventKey (L : Lib) (sqlExecInfo : SqlExecInfo) : String :=
  cacheKeyOf sqlExecInfo.DBHost sqlExecInfo.SchemaName sqlExecInfo.UserName
    (L.Id (L.Fingerprint sqlExecInfo.Sql))

/-- One cache after `statistics` has been applied to a sequence of events, the first
event first. -/
def aggregate (L : Lib) (c : LRUCache String SqlStats) (events : List SqlExecInfo) :
    LRUCache String SqlStats :=
  events.foldl (fun c e => addToCache c e (L.Id (L.Fingerprint e.Sql)) (L.Fingerprint e.Sql)) c

/-- A sequence of `Record` calls, the first call first: the monitor afterwards and the
results of the calls; `none` when a call does not return. -/
def RecordAll (L : Lib) : SqlMonitor → List SqlExecInfo → Option (SqlMonitor × List Bool)
  | m, [] => some (m, [])
  | m, e :: rest =>
    match SqlMonitor.Record L m e with
    | none => none
    | some (m1, ok) =>
      match RecordAll L m1 rest with
      | none => none
      | some (m2, oks) => some (m2, ok :: oks)

/-- A step of a running monitor: a call of one of its methods, or a step of the
background worker. -/
inductive MonitorOp where
  | record (sqlExecInfo : SqlExecInfo)
  | workerBegin
  | workerRecv
  | setCacheSize (cacheSize : Int)
  | getQueryStats (limit offset : Int)
  | getResetQueryStats (limit : Int)

/-- The monitor after one step; `none` when the step is not possible or panics. -/
def MonitorOp.apply (L : Lib) (m : SqlMonitor) : MonitorOp → Option SqlMonitor
  | MonitorOp.record sqlExecInfo => (SqlMonitor.Record L m sqlExecInfo).map Prod.fst
  | MonitorOp.workerBegin => SqlMonitor.statisticsThreadBegin m
  | MonitorOp.workerRecv => SqlMonitor.statisticsThreadRecv L m
  | MonitorOp.setCacheSize cacheSize => SqlMonitor.SetCacheSize m cacheSize
  | MonitorOp.getQueryStats limit offset =>
    (SqlMonitor.GetQueryStats L m limit offset).map (fun _ => m)
  | MonitorOp.getResetQueryStats limit =>
    (SqlMonitor.GetResetQueryStats L m limit).map Prod.snd

/-- The monitor after a sequence of steps, the first step first. -/
def runMonitorOps (L : Lib) : SqlMonitor → List MonitorOp → Option SqlMonitor
  | m, [] => some m
  | m, op :: ops =>
    match op.apply L m with
    | none => none
    | some m1 => runMonitorOps L m1 ops

/-- The events of a sequence of steps that are handed to `Record`. -/
def recordedEvents : List MonitorOp → List SqlExecInfo
  | [] => []
  | MonitorOp.record sqlExecInfo :: ops => sqlExecInfo :: recordedEvents ops
  | _ :: ops => recordedEvents ops

/-- The invariant of a record: `countStar` is the sum of the six latency counters and
is at least `countError`. -/
def SqlStats.countsConsistent (s : SqlStats) : Prop :=
  s.countStar = s.count1ms + s.count10ms + s.count100ms + s.count1s + s.count5s + s.countOthers ∧
  s.countStar ≥ s.countError

instance instDecidableCountsConsistent (s : SqlStats) : Decidable s.countsConsistent :=
  inferInstanceAs (Decidable (_ ∧ _))

/-- A library instance on which the definitions can be evaluated: a statement is its
own fingerprint and its own digest, and no file content is used. -/
def exampleLib : Lib :=
  { Fingerprint := fun s => s, Id := fun s => s, FormatFloat := fun _ => "",
    ParseInt := fun _ => none, ParseFloat := fun _ => none, ScanLines := fun _ => [] }

/-- An event of host `h`, schema `s`, user `u` used in the examples. -/
def exampleEvent (sql : String) (ok : Bool) (execTime : Float64) (seenTime : Int) :
    SqlExecInfo :=
  { Sql := sql, SuccessExec := ok, DBHost := "h", SchemaName := "s", UserName := "u",
    ExecTime := execTime, SeenTime := seenTime }

/-! ## Notions used to state the properties -/

/-- The number a finite `float64` stands for (`0` for NaN and the infinities). -/
def Float64.toRat : Float64 → ℚ
  | Float64.fin q => q
  | _ => 0

/-- The value of `sumTime` after `sumTime = t0` and then `sumTime += t` for each further
time `t` of the list, in this order (`0` for no time at all). -/
def Float64.sumList : List Float64 → Float64
  | [] => Float64.fin 0
  | t :: ts => ts.foldl Float64.add t

/-- No addition rounds when the numbers of the list are added one by one to `acc`: each
partial sum is a float64. -/
def Float64.exactFrom : ℚ → List ℚ → Prop
  | _, [] => True
  | acc, q :: qs => Float64.nearest (acc + q) = Float64.fin (acc + q) ∧
      Float64.exactFrom (acc + q) qs

instance instDecidableExactFrom : ∀ (acc : ℚ) (qs : List ℚ),
    Decidable (Float64.exactFrom acc qs)
  | _, [] => isTrue trivial
  | acc, q :: qs =>
    have := instDecidableExactFrom (acc + q) qs
    inferInstanceAs (Decidable (_ ∧ _))

/-- The six latency counters of a record, in the order `count1ms`, `count10ms`,
`count100ms`, `count1s`, `count5s`, `countOthers`. -/
def SqlStats.buckets (s : SqlStats) : List Int :=
  [s.count1ms, s.count10ms, s.count100ms, s.count1s, s.count5s, s.countOthers]

/-- The bucket rule in the words of the specification, first match wins: the position
(from `0`) of the counter for an execution time; `5` is `countOthers`. -/
def specBucket (t : Float64) : Nat :=
  if Float64.le t (Float64.fin 1) then 0
  else if Float64.le t (Float64.fin 10) then 1
  else if Float64.le t (Float64.fin 100) then 2
  else if Float64.le t (Float64.fin 1000) then 3
  else if Float64.le t (Float64.fin 5000) then 4
  else 5

/-- Six counters, all `0` except a `1` at position `i`. -/
def oneAt (i : Nat) : List Int :=
  (List.range 6).map (fun j => if j = i then 1 else 0)

/-- The invariant kept along a run of the monitor: both caches are well formed, have no
`OnValueUpdate` callback and hold consistent records only, and no queued event has a
NaN execution time. -/
def SqlMonitor.RunInvariant (m : SqlMonitor) : Prop :=
  (∀ c, m.sqlDigestCache = some c →
    c.WF ∧ c.OnValueUpdate = none ∧ ∀ p ∈ c.entries, p.2.countsConsistent) ∧
  (∀ c, m.sqlDigestResetCache = some c →
    c.WF ∧ c.OnValueUpdate = none ∧ ∀ p ∈ c.entries, p.2.countsConsistent) ∧
  (∀ ch, m.sqlExecInfoChan = some ch → ∀ e ∈ ch.buf, e.ExecTime ≠ Float64.nan)

/-! ## Notions used to state the properties of the drain and of the queue -/

/-- Whether a step is a call of `GetResetQueryStats`. -/
def MonitorOp.isDrain : MonitorOp → Bool
  | MonitorOp.getResetQueryStats _ => true
  | _ => false

/-! ## Saving the rolling cache -/

/-- The call `fmt.Sprintf("%s\t%s\t ... %s\n", stats[0], stats[1], stats[2], stats[3],
stats[5], ..., stats[17], stats[4])` of `saveCacheToFile`. -/
def saveLine (stats : List String) : String :=
  stats.getD 0 "" ++ "\t" ++ stats.getD 1 "" ++ "\t" ++ stats.getD 2 "" ++ "\t" ++
  stats.getD 3 "" ++ "\t" ++ stats.getD 5 "" ++ "\t" ++
  stats.getD 6 "" ++ "\t" ++ stats.getD 7 "" ++ "\t" ++ stats.getD 8 "" ++ "\t" ++
  stats.getD 9 "" ++ "\t" ++ stats.getD 10 "" ++ "\t" ++
  stats.getD 11 "" ++ "\t" ++ stats.getD 12 "" ++ "\t" ++ stats.getD 13 "" ++ "\t" ++
  stats.getD 14 "" ++ "\t" ++ stats.getD 15 "" ++ "\t" ++
  stats.getD 16 "" ++ "\t" ++ stats.getD 17 "" ++ "\t" ++ stats.getD 4 "" ++ "\n"

/-- The bytes a sequence of `WriteString` calls writes, the first call first. -/
def writeAll : List String → String
  | [] => ""
  | s :: rest => s ++ writeAll rest

/-- The content of a file opened by `os.OpenFile(path, os.O_CREATE|os.O_WRONLY, 0666)` once
`written` has been written to it: the file is not truncated, so writing starts at offset
`0` over the old content and the old bytes beyond the written ones stay.  `old` is `none`
when the file is created by the call.  A `Char` stands for one byte. -/
def writeFromStart (old : Option String) (written : String) : String :=
  written ++ String.mk ((old.getD "").data.drop written.length)

namespace SqlMonitor

/-- The method `saveCacheToFile`: the file system afterwards.  `writable path` tells
whether `os.OpenFile(path, os.O_CREATE|os.O_WRONLY, 0666)` succeeds, and a path on which
`fs` is `none` names no file.  `none` is the panic on a nil cache pointer. -/
def saveCacheToFile (L : Lib) (writable : String → Bool) (fs : String → Option String)
    (m : SqlMonitor) : Option (String → Option String) :=
  if uninited = m.status ∨ "" = m.dataPath then some fs
  else if writable m.dataPath = false then some fs
  else
    match GetQueryStats L m 0 0 with
    | none => none
    | some (_, sqlStats) =>
      let written := writeAll (sqlStats.reverse.map saveLine)
      some (fun path =>
        if path = m.dataPath then some (writeFromStart (fs path) written) else fs path)

end SqlMonitor

/-! ## The line scanner of `bufio` -/

/-- The constant `bufio.MaxScanTokenSize`. -/
def MaxScanTokenSize : Nat := 64 * 1024

/-- The pieces of a file content between its newline bytes; the last piece is what
follows the last newline. -/
def splitNewlines : List Char → List (List Char)
  | [] => [[]]
  | ch :: rest =>
    if ch = '\n' then [] :: splitNewlines rest
    else
      match splitNewlines rest with
      | [] => [[ch]]
      | piece :: pieces => (ch :: piece) :: pieces

/-- The function `dropCR` of `bufio`: a final carriage return is removed. -/
def dropCR (data : List Char) : List Char :=
  if data.getLast? = some '\r' then data.dropLast else data

/-- The tokens `Scanner.Scan` yields with the split function `bufio.ScanLines` and the
default buffer, from the pieces of the content: an empty last piece is no line, and a
piece of `MaxScanTokenSize` bytes or more does not fit in the buffer, which ends the scan
(`Scan` returns `false`, the error is `ErrTooLong`). -/
def scanTokens : List (List Char) → List (List Char)
  | [] => []
  | [last] =>
    if last = [] then [] else if MaxScanTokenSize ≤ last.length then [] else [dropCR last]
  | piece :: pieces =>
    if MaxScanTokenSize ≤ piece.length then [] else dropCR piece :: scanTokens pieces

/-- The lines `for scanner.Scan() { ... scanner.Text() ... }` visits on a
`bufio.NewScanner` over a file with the given content. -/
def goScanLines (content : String) : List String :=
  (scanTokens (splitNewlines content.data)).map String.mk

/-! ## A library instance with decimal numbers -/

/-- The number a string of decimal digits stands for, `none` when a character is not a
digit; `acc` is the number read so far. -/
def parseDigits : List Char → Nat → Option Nat
  | [], acc => some acc
  | ch :: rest, acc =>
    if 48 ≤ ch.toNat ∧ ch.toNat ≤ 57 then parseDigits rest (10 * acc + (ch.toNat - 48))
    else none

/-- The call `strconv.ParseInt(s, 10, 64)`: an optional sign, then one decimal digit or
more, and the value has to fit in an `int64`. -/
def parseIntDec (s : String) : Option Int :=
  match s.data with
  | [] => none
  | '-' :: digits =>
    if digits = [] then none
    else
      match parseDigits digits 0 with
      | none => none
      | some n => if n ≤ 2 ^ 63 then some (-(n : Int)) else none
  | '+' :: digits =>
    if digits = [] then none
    else
      match parseDigits digits 0 with
      | none => none
      | some n => if n < 2 ^ 63 then some (n : Int) else none
  | digits =>
    match parseDigits digits 0 with
    | none => none
    | some n => if n < 2 ^ 63 then some (n : Int) else none

/-- Three decimal digits of a number below `1000`. -/
def pad3 (n : Nat) : String :=
  if n < 10 then "00" ++ toString n else if n < 100 then "0" ++ toString n else toString n

/-- The call `fmt.Sprintf("%.3f", x)`: the value rounded to the nearest multiple of
`0.001`, ties to even, in decimal notation with three digits after the point. -/
def formatFixed3 : Float64 → String
  | Float64.nan => "NaN"
  | Float64.posInf => "+Inf"
  | Float64.negInf => "-Inf"
  | Float64.fin q =>
    let num := q.num.natAbs * 1000
    let quot := num / q.den
    let rem := num % q.den
    let scaled := if q.den < 2 * rem ∨ (q.den = 2 * rem ∧ quot % 2 = 1) then quot + 1 else quot
    (if q.num < 0 then "-" else "") ++ toString (scaled / 1000) ++ "." ++ pad3 (scaled % 1000)

/-- The call `strconv.ParseFloat(s, 64)` on the notations `formatFixed3` produces: `NaN`,
`+Inf`, `-Inf`, and an optional sign, digits, and optionally a point and digits, read as
the exact decimal number.  The other notations of Go (exponents, hexadecimal,
underscores) are answered `none`. -/
def parseDecimal (s : String) : Option Float64 :=
  if s = "NaN" then some Float64.nan
  else if s = "+Inf" then some Float64.posInf
  else if s = "-Inf" then some Float64.negInf
  else
    let negative := s.data.head? = some '-'
    let body := if s.data.head? = some '-' ∨ s.data.head? = some '+' then s.data.drop 1 else s.data
    let whole := body.takeWhile (fun ch => ch ≠ '.')
    let fraction := (body.dropWhile (fun ch => ch ≠ '.')).drop 1
    if whole ++ fraction = [] then none
    else
      match parseDigits (whole ++ fraction) 0 with
      | none => none
      | some n =>
        let scale := 10 ^ fraction.length
        let sign : Int := if negative then -1 else 1
        if n % scale = 0 then some (Float64.fin ((sign * ((n / scale : Nat) : Int) : Int) : ℚ))
        else some (Float64.fin (mkRat (sign * (n : Int)) scale))

/-- A library instance on which saving and recovery can be evaluated: a statement is its
own fingerprint and its own digest, numbers are written and read in decimal notation, and
lines are scanned as `bufio.Scanner` does. -/
def decimalLib : Lib :=
  { Fingerprint := fun s => s, Id := fun s => s, FormatFloat := formatFixed3,
    ParseInt := parseIntDec, ParseFloat := parseDecimal, ScanLines := goScanLines }

/-! ## Notions used to state the properties of saving and recovery -/

/-- Strings joined by single tabs. -/
def joinTabs : List String → String
  | [] => ""
  | [field] => field
  | field :: rest => field ++ "\t" ++ joinTabs rest

/-- The eighteen fields of the line saved for a record, in the order of the line. -/
def savedFields (L : Lib) (s : SqlStats) : List String :=
  [s.hostAddr, s.schemaName, s.userName, s.digest,
   formatInt s.countStar, formatInt s.countError, formatInt s.firstSeen, formatInt s.lastSeen,
   L.FormatFloat s.sumTime, L.FormatFloat s.minTime, L.FormatFloat s.maxTime,
   formatInt s.count1ms, formatInt s.count10ms, formatInt s.count100ms,
   formatInt s.count1s, formatInt s.count5s, formatInt s.countOthers, s.digestText]

/-- A row of `GetQueryStats` with column 5 (`digest_text`) moved to the end. -/
def digestTextLast (row : List String) : List String :=
  row.take 4 ++ row.drop 5 ++ (row.drop 4).take 1

/-- The ten counters and the two timestamps of a record. -/
def SqlStats.ints (s : SqlStats) : List Int :=
  [s.countStar, s.countError, s.firstSeen, s.lastSeen,
   s.count1ms, s.count10ms, s.count100ms, s.count1s, s.count5s, s.countOthers]

/-- A record with its three time fields replaced by `f` of them. -/
def SqlStats.mapTimes (f : Float64 → Float64) (s : SqlStats) : SqlStats :=
  { s with sumTime := f s.sumTime, minTime := f s.minTime, maxTime := f s.maxTime }

/-- A line of `MaxScanTokenSize` bytes, all `x`. -/
def overlongLine : String := String.mk (List.replicate MaxScanTokenSize 'x')

/-- The line `saveCacheToFile` writes for the first event of statement `a`, without its
newline. -/
def savedLineExample : String :=
  "h\ts\tu\ta\t1\t0\t1\t1\t1.000\t1.000\t1.000\t1\t0\t0\t0\t0\t0\ta"

/-! ## Stopping the monitor -/

namespace SqlMonitor

/-- The method `SetSuccessOnly`. -/
def SetSuccessOnly (m : SqlMonitor) (successOnly : Bool) : SqlMonitor :=
  { m with successOnly := successOnly }

/-- The method `SetCachePath`. -/
def SetCachePath (m : SqlMonitor) (dataPath : String) : SqlMonitor :=
  { m with dataPath := dataPath }

/-- The loop of `statisticsThread` on a closed channel: the events still queued are
received one after the other and handed to `statistics`.  `none`: the worker panics on a
nil cache pointer. -/
def drainQueue (L : Lib) : List SqlExecInfo → SqlMonitor → Option SqlMonitor
  | [], m => some m
  | sqlExecInfo :: rest, m =>
    match statistics L m sqlExecInfo with
    | (m, true) => drainQueue L rest m
    | (_, false) => none

/-- The method `Stop`, from the assignment `m.status = exiting` to its return: the
monitor and the file system afterwards.  `none`: the call does not return, because
`close` panics on a nil or closed channel, because a cache pointer is nil, or because the
wait loop never ends.  In the modes with a worker the wait loop ends when a worker that
is inside its receive loop has received the queued events, has seen the closed channel
with `exiting == m.status` and has set `m.status = exited`; a worker that has not yet
run its first statement would overwrite the status with `running`, and the loop would
not end. -/
def Stop (L : Lib) (writable : String → Bool) (fs : String → Option String) (m : SqlMonitor) :
    Option (SqlMonitor × (String → Option String)) :=
  let m := { m with status := exiting }
  match m.sqlExecInfoChan with
  | none => none
  | some ch =>
    if ch.closed then none
    else
      let m := { m with sqlExecInfoChan := some { ch with closed := true } }
      let waited : Option SqlMonitor :=
        if m.mode ≠ syncMode ∧ exited ≠ m.status then
          if WorkerPc.looping ∈ m.workers then
            match drainQueue L ch.buf
                { m with sqlExecInfoChan := some { ch with buf := [], closed := true } } with
            | none => none
            | some m =>
              some { m with status := exited, workers := m.workers.erase WorkerPc.looping }
          else none
        else some m
      match waited with
      | none => none
      | some m =>
        match saveCacheToFile L writable fs m with
        | none => none
        | some fs1 =>
          match m.sqlDigestCache, m.sqlDigestResetCache with
          | some c1, some c2 =>
            some ({ m with sqlDigestCache := some c1.Clear, sqlDigestResetCache := some c2.Clear },
              fs1)
          | _, _ => none

end SqlMonitor

/-! ## Runs of a monitor before `Start` -/

/-- A call of a method other than `Start`. -/
inductive PreStartOp where
  | setSuccessOnly (successOnly : Bool)
  | setCachePath (dataPath : String)
  | record (sqlExecInfo : SqlExecInfo)
  | getQueryStats (limit offset : Int)
  | getResetQueryStats (limit : Int)
  | setCacheSize (cacheSize : Int)
  | stop (writable : String → Bool) (fs : String → Option String)

/-- The monitor after one call; `none` when the call panics or does not return. -/
def PreStartOp.apply (L : Lib) (m : SqlMonitor) : PreStartOp → Option SqlMonitor
  | PreStartOp.setSuccessOnly successOnly => some (SqlMonitor.SetSuccessOnly m successOnly)
  | PreStartOp.setCachePath dataPath => some (SqlMonitor.SetCachePath m dataPath)
  | PreStartOp.record sqlExecInfo => (SqlMonitor.Record L m sqlExecInfo).map Prod.fst
  | PreStartOp.getQueryStats limit offset =>
    (SqlMonitor.GetQueryStats L m limit offset).map (fun _ => m)
  | PreStartOp.getResetQueryStats limit =>
    (SqlMonitor.GetResetQueryStats L m limit).map Prod.snd
  | PreStartOp.setCacheSize cacheSize => SqlMonitor.SetCacheSize m cacheSize
  | PreStartOp.stop writable fs => (SqlMonitor.Stop L writable fs m).map Prod.fst

/-- The monitor after a sequence of calls, the first call first. -/
def runPreStartOps (L : Lib) : SqlMonitor → List PreStartOp → Option SqlMonitor
  | m, [] => some m
  | m, op :: ops =>
    match op.apply L m with
    | none => none
    | some m1 => runPreStartOps L m1 ops

/-- An event with a statement of `MaxScanTokenSize` bytes. -/
def overlongEvent : SqlExecInfo :=
  { Sql := overlongLine, SuccessExec := true, DBHost := "h", SchemaName := "s",
    UserName := "u", ExecTime := Float64.fin 1, SeenTime := 1 }

/-! # Theorems -/

set_option linter.unusedSectionVars false
set_option linter.unnecessarySeqFocus false

/-! ## Lists whose image under a function has no duplicates -/

theorem find?_eq_some_of_nodup_map {α β : Type} [DecidableEq β] (f : α → β) :
    ∀ (l : List α), (l.map f).Nodup → ∀ e ∈ l,
      l.find? (fun x => decide (f x = f e)) = some e := by
  intro l
  induction l with
  | nil => intro _ e he; simp at he
  | cons x xs ih =>
    intro hnd e he
    rw [List.map_cons, List.nodup_cons] at hnd
    rcases List.mem_cons.1 he with rfl | hmem
    · simp
    · have hne : f x ≠ f e := by
        intro h
        exact hnd.1 (h ▸ List.mem_map_of_mem f hmem)
      rw [List.find?_cons_of_neg _ (by simpa using hne)]
      exact ih hnd.2 e hmem

theorem find?_eq_none_of_not_mem_map {α β : Type} [DecidableEq β] (f : α → β) (b : β)
    (l : List α) (h : b ∉ l.map f) : l.find? (fun x => decide (f x = b)) = none := by
  rw [List.find?_eq_none]
  intro x hx
  simp only [decide_eq_true_eq]
  intro hfx
  exact h (hfx ▸ List.mem_map_of_mem f hx)

theorem eq_of_nodup_map {α β : Type} (f : α → β) (l : List α) (hnd : (l.map f).Nodup)
    {x y : α} (hx : x ∈ l) (hy : y ∈ l) (h : f x = f y) : x = y :=
  List.inj_on_of_nodup_map hnd hx hy h

theorem filter_ne_eq_dropLast {α β : Type} [DecidableEq β] (f : α → β) (l : List α)
    (hnd : (l.map f).Nodup) (b : α) (hb : l.getLast? = some b) :
    l.filter (fun x => decide (f x ≠ f b)) = l.dropLast := by
  have hl : l.dropLast ++ [b] = l := List.dropLast_append_getLast? b hb
  have hnd2 : ((l.dropLast ++ [b]).map f).Nodup := by rw [hl]; exact hnd
  rw [List.map_append, List.nodup_append] at hnd2
  conv_lhs => rw [← hl]
  rw [List.filter_append]
  have h1 : (l.dropLast).filter (fun x => decide (f x ≠ f b)) = l.dropLast := by
    rw [List.filter_eq_self]
    intro x hx
    simp only [ne_eq, decide_not, Bool.not_eq_true', decide_eq_false_iff_not]
    intro hfx
    exact hnd2.2.2 (List.mem_map_of_mem f hx) (by simp [hfx])
  rw [h1]
  simp

/-! ## The lookup index and the recency list -/

section
variable {K V : Type} [DecidableEq K]

theorem mapGet_eq_some_iff (m : List (K × Nat)) (hnd : (m.map Prod.fst).Nodup) (k : K)
    (i : Nat) : mapGet m k = some i ↔ (k, i) ∈ m := by
  unfold mapGet
  constructor
  · intro h
    rw [Option.map_eq_some'] at h
    obtain ⟨p, hp, hpi⟩ := h
    have h1 := List.find?_some hp
    have h2 := List.mem_of_find?_eq_some hp
    simp only [decide_eq_true_eq] at h1
    rcases p with ⟨a, b⟩
    simp only at h1 hpi
    subst h1; subst hpi
    exact h2
  · intro h
    have := find?_eq_some_of_nodup_map (Prod.fst : K × Nat → K) m hnd (k, i) h
    simp only at this
    rw [this]
    rfl

theorem mapGet_eq_none_iff (m : List (K × Nat)) (k : K) :
    mapGet m k = none ↔ k ∉ m.map Prod.fst := by
  unfold mapGet
  rw [Option.map_eq_none', List.find?_eq_none]
  simp only [decide_eq_true_eq, List.mem_map, not_exists, not_and]

theorem mapDelete_eq_self (m : List (K × Nat)) (k : K) (h : k ∉ m.map Prod.fst) :
    mapDelete m k = m := by
  unfold mapDelete
  rw [List.filter_eq_self]
  intro p hp
  simp only [ne_eq, decide_not, Bool.not_eq_true', decide_eq_false_iff_not]
  intro hk
  exact h (hk ▸ List.mem_map_of_mem Prod.fst hp)

namespace LRUCache

theorem WF.index_keys {c : LRUCache K V} {m : List (K × Nat)} (h : c.WF)
    (hm : c.cache = some m) : List.Perm (m.map Prod.fst) c.keys := by
  unfold WF at h
  rw [hm] at h
  have := h.2.2.1.map Prod.fst
  simpa [keys, List.map_map, Function.comp] using this

theorem WF.mapGet_of_mem {c : LRUCache K V} {m : List (K × Nat)} (h : c.WF)
    (hm : c.cache = some m) {e : Element K V} (he : e ∈ c.ll) :
    mapGet m e.key = some e.id := by
  have hk := h.index_keys hm
  unfold WF at h
  rw [hm] at h
  rw [mapGet_eq_some_iff m (hk.nodup_iff.2 h.1)]
  rw [h.2.2.1.mem_iff]
  exact List.mem_map_of_mem (fun e : Element K V => (e.key, e.id)) he

theorem WF.mem_of_mapGet {c : LRUCache K V} {m : List (K × Nat)} (h : c.WF)
    (hm : c.cache = some m) {k : K} {i : Nat} (hg : mapGet m k = some i) :
    ∃ e ∈ c.ll, e.key = k ∧ e.id = i := by
  have hk := h.index_keys hm
  unfold WF at h
  rw [hm] at h
  rw [mapGet_eq_some_iff m (hk.nodup_iff.2 h.1), h.2.2.1.mem_iff, List.mem_map] at hg
  obtain ⟨e, he, heq⟩ := hg
  exact ⟨e, he, (Prod.mk.inj heq).1, (Prod.mk.inj heq).2⟩

theorem WF.mapGet_none_iff {c : LRUCache K V} {m : List (K × Nat)} (h : c.WF)
    (hm : c.cache = some m) (k : K) : mapGet m k = none ↔ k ∉ c.keys := by
  rw [mapGet_eq_none_iff, (h.index_keys hm).mem_iff]

theorem WF.listElem_of_mem {c : LRUCache K V} {m : List (K × Nat)} (h : c.WF)
    (hm : c.cache = some m) {e : Element K V} (he : e ∈ c.ll) :
    listElem c.ll e.id = some e := by
  unfold WF at h
  rw [hm] at h
  exact find?_eq_some_of_nodup_map (fun e : Element K V => e.id) c.ll h.2.1 e he

theorem WF.filter_id_eq_filter_key {c : LRUCache K V} {m : List (K × Nat)} (h : c.WF)
    (hm : c.cache = some m) {e : Element K V} (he : e ∈ c.ll) :
    listRemove c.ll e.id = c.ll.filter (fun x => decide (x.key ≠ e.key)) := by
  unfold WF at h
  rw [hm] at h
  unfold listRemove
  apply List.filter_congr
  intro x hx
  have h1 : x.id = e.id ↔ x.key = e.key := by
    constructor
    · intro hid
      rw [eq_of_nodup_map (fun e : Element K V => e.id) c.ll h.2.1 hx he hid]
    · intro hkey
      rw [eq_of_nodup_map (fun e : Element K V => e.key) c.ll h.1 hx he hkey]
  simp [h1]

theorem WF.ll_eq_nil {c : LRUCache K V} (h : c.WF) (hm : c.cache = none) : c.ll = [] := by
  unfold WF at h
  rw [hm] at h
  exact List.length_eq_zero.1 h

theorem removeElement_ll {c : LRUCache K V} (h : c.WF) {e : Element K V} (he : e ∈ c.ll) :
    (c.removeElement e).ll = c.ll.filter (fun x => decide (x.key ≠ e.key)) := by
  cases hm : c.cache with
  | none => rw [h.ll_eq_nil hm] at he; simp at he
  | some m => exact h.filter_id_eq_filter_key hm he

theorem removeElement_WF {c : LRUCache K V} (h : c.WF) {e : Element K V} (he : e ∈ c.ll) :
    (c.removeElement e).WF := by
  cases hm : c.cache with
  | none => rw [h.ll_eq_nil hm] at he; simp at he
  | some m =>
    have hll := removeElement_ll h he
    have h0 := h
    unfold WF at h
    rw [hm] at h
    unfold WF
    have hc : (c.removeElement e).cache = some (mapDelete m e.key) := by
      simp [removeElement, hm]
    have hn : (c.removeElement e).nextId = c.nextId := rfl
    rw [hc, hll, hn]
    refine ⟨?_, ?_, ?_, ?_⟩
    · exact h.1.sublist ((List.filter_sublist _).map _)
    · exact h.2.1.sublist ((List.filter_sublist _).map _)
    · unfold mapDelete
      have := h.2.2.1.filter (fun p : K × Nat => decide (p.1 ≠ e.key))
      rw [List.filter_map] at this
      exact this
    · intro x hx
      exact h.2.2.2 x (List.mem_of_mem_filter hx)

/-- The value `Add` stores: `value`, or what `OnValueUpdate` makes of it. -/
theorem Add_of_mem {c : LRUCache K V} {m : List (K × Nat)} (h : c.WF) (hm : c.cache = some m)
    {e : Element K V} (he : e ∈ c.ll) (value : V) :
    c.Add e.key value =
      { c with ll :=
          { e with value := (match c.OnValueUpdate with
                             | none => value
                             | some f => f e.key (some e.value) value) } ::
            c.ll.filter (fun x => decide (x.key ≠ e.key)) } := by
  have hget := h.mapGet_of_mem hm he
  have hel := h.listElem_of_mem hm he
  have hrm := h.filter_id_eq_filter_key hm he
  have hmove : listMoveToFront c.ll e.id = e :: c.ll.filter (fun x => decide (x.key ≠ e.key)) := by
    unfold listMoveToFront
    rw [hel, hrm]
  have hset : ∀ f : V → V,
      listSetValue (e :: c.ll.filter (fun x => decide (x.key ≠ e.key))) e.id f =
        { e with value := f e.value } :: c.ll.filter (fun x => decide (x.key ≠ e.key)) := by
    intro f
    unfold listSetValue
    rw [List.map_cons, if_pos rfl, ← hrm]
    congr 1
    conv_rhs => rw [← List.map_id (listRemove c.ll e.id)]
    apply List.map_congr_left
    intro x hx
    unfold listRemove at hx
    have := (List.mem_filter.1 hx).2
    simp only [ne_eq, decide_not, Bool.not_eq_true', decide_eq_false_iff_not] at this
    simp [this]
  unfold Add
  simp only [hm, Option.getD_some, hget, hmove]
  cases hf : c.OnValueUpdate with
  | none => simp only [hset]
  | some f => simp only [hset]

theorem Add_of_not_mem {c : LRUCache K V} (h : c.WF) {key : K} (hk : key ∉ c.keys)
    (value : V) :
    c.Add key value =
      (let c1 : LRUCache K V :=
        { c with
          ll := { id := c.nextId, key := key,
                  value := (match c.OnValueUpdate with
                            | none => value
                            | some f => f key none value) } :: c.ll
          cache := some ((key, c.nextId) :: c.cache.getD [])
          nextId := c.nextId + 1 }
       if c1.MaxEntries ≠ 0 ∧ (c1.ll.length : Int) > c1.MaxEntries then
         match c1.ll.getLast? with
         | some back => removeElement c1 back
         | none => c1
       else c1) := by
  cases hm : c.cache with
  | none =>
    have hll := h.ll_eq_nil hm
    unfold Add
    simp only [hm, Option.getD_some, Option.getD_none, hll]
    have : mapGet ([] : List (K × Nat)) key = none := rfl
    simp only [this, mapSet, mapDelete, List.filter_nil]
  | some m =>
    have hget := (h.mapGet_none_iff hm key).2 hk
    have hdel : mapDelete m key = m :=
      mapDelete_eq_self m key ((mapGet_eq_none_iff m key).1 hget)
    unfold Add
    simp only [hm, Option.getD_some, hget, mapSet, hdel]

end LRUCache
end

section
variable {K V : Type} [DecidableEq K]

namespace LRUCache

theorem WF.nodup_keys {c : LRUCache K V} (h : c.WF) : c.keys.Nodup := by
  cases hm : c.cache with
  | none => simp [keys, h.ll_eq_nil hm]
  | some m => unfold WF at h; rw [hm] at h; exact h.1

theorem WF.nodup_ids {c : LRUCache K V} (h : c.WF) : (c.ll.map (fun e => e.id)).Nodup := by
  cases hm : c.cache with
  | none => simp [h.ll_eq_nil hm]
  | some m => unfold WF at h; rw [hm] at h; exact h.2.1

theorem WF.index_perm {c : LRUCache K V} (h : c.WF) :
    List.Perm (c.cache.getD []) (c.ll.map (fun e => (e.key, e.id))) := by
  cases hm : c.cache with
  | none => simp [h.ll_eq_nil hm]
  | some m => unfold WF at h; rw [hm] at h; exact h.2.2.1

theorem WF.id_lt {c : LRUCache K V} (h : c.WF) : ∀ e ∈ c.ll, e.id < c.nextId := by
  cases hm : c.cache with
  | none => simp [h.ll_eq_nil hm]
  | some m => unfold WF at h; rw [hm] at h; exact h.2.2.2

theorem keys_eq_map_entries (c : LRUCache K V) : c.keys = c.entries.map Prod.fst := by
  simp [keys, entries, List.map_map, Function.comp]

theorem length_entries (c : LRUCache K V) : c.entries.length = c.ll.length := by
  simp [entries]

theorem NewLRUCache_WF (maxEntries : Int) : (NewLRUCache K V maxEntries).WF := by
  simp [NewLRUCache, WF]

theorem removeElement_back_ll {c : LRUCache K V} (h : c.WF) {back : Element K V}
    (hb : c.ll.getLast? = some back) : (c.removeElement back).ll = c.ll.dropLast := by
  rw [removeElement_ll h (List.mem_of_getLast?_eq_some hb)]
  exact filter_ne_eq_dropLast (fun e : Element K V => e.key) c.ll h.nodup_keys back hb

theorem Add_WF {c : LRUCache K V} (h : c.WF) (key : K) (value : V) : (c.Add key value).WF := by
  by_cases hk : key ∈ c.keys
  · obtain ⟨e, he, rfl⟩ := List.mem_map.1 hk
    cases hm : c.cache with
    | none => rw [h.ll_eq_nil hm] at he; simp at he
    | some m =>
      rw [Add_of_mem h hm he value]
      have h0 := h
      unfold WF at h
      rw [hm] at h
      unfold WF
      simp only [hm]
      have hperm : List.Perm (e :: c.ll.filter (fun x => decide (x.key ≠ e.key))) c.ll := by
        have h1 := List.filter_append_perm (fun x : Element K V => decide (x.key = e.key)) c.ll
        have h2 : c.ll.filter (fun x => decide (x.key = e.key)) = [e] := by
          have hsub : List.Sublist (c.ll.filter (fun x => decide (x.key = e.key))) c.ll :=
            List.filter_sublist _
          have hnd := h.1.sublist (hsub.map (fun e : Element K V => e.key))
          have hmem : e ∈ c.ll.filter (fun x => decide (x.key = e.key)) := by
            simp [List.mem_filter, he]
          cases hl : c.ll.filter (fun x => decide (x.key = e.key)) with
          | nil => rw [hl] at hmem; simp at hmem
          | cons a t =>
            have ha : a ∈ c.ll.filter (fun x => decide (x.key = e.key)) := by simp [hl]
            have hae : a = e :=
              eq_of_nodup_map (fun e : Element K V => e.key) c.ll h.1
                (List.mem_of_mem_filter ha) he (by simpa using (List.mem_filter.1 ha).2)
            subst hae
            cases t with
            | nil => rfl
            | cons b t2 =>
              exfalso
              have hb : b ∈ c.ll.filter (fun x => decide (x.key = a.key)) := by simp [hl]
              have hbk : b.key = a.key := by simpa using (List.mem_filter.1 hb).2
              rw [hl] at hnd
              simp only [List.map_cons, List.nodup_cons, List.mem_cons, not_or] at hnd
              exact hnd.1.1 hbk.symm
        rw [h2] at h1
        have h3 : c.ll.filter (fun x => !decide (x.key = e.key)) =
            c.ll.filter (fun x => decide (x.key ≠ e.key)) := by
          apply List.filter_congr; intro x _; simp
        rw [h3] at h1
        exact h1
      refine ⟨?_, ?_, ?_, ?_⟩
      · have := (hperm.map (fun e : Element K V => e.key)).nodup_iff.2 h.1
        simpa using this
      · have := (hperm.map (fun e : Element K V => e.id)).nodup_iff.2 h.2.1
        simpa using this
      · have := hperm.map (fun e : Element K V => (e.key, e.id))
        exact h.2.2.1.trans (by simpa using this.symm)
      · intro x hx
        rcases List.mem_cons.1 hx with rfl | hx
        · exact h.2.2.2 e he
        · exact h.2.2.2 x (List.mem_of_mem_filter hx)
  · rw [Add_of_not_mem h hk value]
    have hc1 : (({ c with
          ll := { id := c.nextId, key := key,
                  value := (match c.OnValueUpdate with
                            | none => value
                            | some f => f key none value) } :: c.ll
          cache := some ((key, c.nextId) :: c.cache.getD [])
          nextId := c.nextId + 1 } : LRUCache K V)).WF := by
      unfold WF
      simp only
      refine ⟨?_, ?_, ?_, ?_⟩
      · rw [List.map_cons, List.nodup_cons]
        exact ⟨hk, h.nodup_keys⟩
      · rw [List.map_cons, List.nodup_cons]
        refine ⟨?_, h.nodup_ids⟩
        intro hmem
        obtain ⟨x, hx, hxid⟩ := List.mem_map.1 hmem
        have := h.id_lt x hx
        simp only at hxid
        omega
      · rw [List.map_cons]
        exact List.Perm.cons _ h.index_perm
      · intro x hx
        rcases List.mem_cons.1 hx with rfl | hx
        · simp
        · have := h.id_lt x hx
          show x.id < c.nextId + 1
          omega
    simp only
    split
    · split
      · rename_i back hb
        exact removeElement_WF hc1 (List.mem_of_getLast?_eq_some hb)
      · exact hc1
    · exact hc1

end LRUCache
end

section
variable {K V : Type} [DecidableEq K]

namespace LRUCache

theorem Get_of_mem {c : LRUCache K V} (h : c.WF) {e : Element K V} (he : e ∈ c.ll) :
    c.Get e.key = some e.value := by
  cases hm : c.cache with
  | none => rw [h.ll_eq_nil hm] at he; simp at he
  | some m =>
    unfold Get
    simp only [hm, h.mapGet_of_mem hm he, h.listElem_of_mem hm he, Option.map_some']

theorem Get_of_not_mem {c : LRUCache K V} (h : c.WF) {key : K} (hk : key ∉ c.keys) :
    c.Get key = none := by
  cases hm : c.cache with
  | none => unfold Get; simp only [hm]
  | some m =>
    unfold Get
    simp only [hm, (h.mapGet_none_iff hm key).2 hk]

theorem Get_eq_find {c : LRUCache K V} (h : c.WF) (key : K) :
    c.Get key = (c.entries.find? (fun p => decide (p.1 = key))).map Prod.snd := by
  by_cases hk : key ∈ c.keys
  · obtain ⟨e, he, rfl⟩ := List.mem_map.1 hk
    rw [Get_of_mem h he]
    have hf := find?_eq_some_of_nodup_map (Prod.fst : K × V → K) c.entries
      (by rw [← keys_eq_map_entries]; exact h.nodup_keys) (e.key, e.value)
      (List.mem_map_of_mem (fun e : Element K V => (e.key, e.value)) he)
    simp only at hf
    rw [hf]
    rfl
  · rw [Get_of_not_mem h hk]
    rw [find?_eq_none_of_not_mem_map (Prod.fst : K × V → K) key c.entries
      (by rw [← keys_eq_map_entries]; exact hk)]
    rfl

theorem Get_isSome_iff {c : LRUCache K V} (h : c.WF) (key : K) :
    (c.Get key).isSome ↔ key ∈ c.keys := by
  by_cases hk : key ∈ c.keys
  · obtain ⟨e, he, rfl⟩ := List.mem_map.1 hk
    simp [Get_of_mem h he, hk]
  · simp [Get_of_not_mem h hk, hk]

theorem Add_MaxEntries (c : LRUCache K V) (key : K) (value : V) :
    (c.Add key value).MaxEntries = c.MaxEntries := by
  unfold Add
  cases c.cache <;> simp only <;> (repeat' split) <;> rfl

theorem Add_OnValueUpdate (c : LRUCache K V) (key : K) (value : V) :
    (c.Add key value).OnValueUpdate = c.OnValueUpdate := by
  unfold Add
  cases c.cache <;> simp only <;> (repeat' split) <;> rfl

theorem Add_cache_isSome (c : LRUCache K V) (key : K) (value : V) :
    (c.Add key value).cache.isSome = true := by
  unfold Add
  cases hm : c.cache <;> simp only <;> (repeat' split) <;> simp_all [removeElement]

theorem WF.push {c : LRUCache K V} (h : c.WF) {key : K} (hk : key ∉ c.keys) (value : V) :
    (({ c with
        ll := { id := c.nextId, key := key, value := value } :: c.ll
        cache := some ((key, c.nextId) :: c.cache.getD [])
        nextId := c.nextId + 1 } : LRUCache K V)).WF := by
  unfold WF
  simp only
  refine ⟨?_, ?_, ?_, ?_⟩
  · rw [List.map_cons, List.nodup_cons]
    exact ⟨hk, h.nodup_keys⟩
  · rw [List.map_cons, List.nodup_cons]
    refine ⟨?_, h.nodup_ids⟩
    intro hmem
    obtain ⟨x, hx, hxid⟩ := List.mem_map.1 hmem
    have := h.id_lt x hx
    simp only at hxid
    omega
  · rw [List.map_cons]
    exact List.Perm.cons _ h.index_perm
  · intro x hx
    rcases List.mem_cons.1 hx with rfl | hx
    · simp
    · have := h.id_lt x hx
      show x.id < c.nextId + 1
      omega

theorem Add_entries_of_mem {c : LRUCache K V} (h : c.WF) (hu : c.OnValueUpdate = none)
    {key : K} (hk : key ∈ c.keys) (value : V) :
    (c.Add key value).entries =
      (key, value) :: c.entries.filter (fun p => decide (p.1 ≠ key)) := by
  obtain ⟨e, he, rfl⟩ := List.mem_map.1 hk
  cases hm : c.cache with
  | none => rw [h.ll_eq_nil hm] at he; simp at he
  | some m =>
    rw [Add_of_mem h hm he value]
    simp only [entries, hu, List.map_cons, List.filter_map]
    rfl

theorem Add_OnEvicted_of_mem {c : LRUCache K V} (h : c.WF) {key : K} (hk : key ∈ c.keys)
    (value : V) : (c.Add key value).OnEvicted = c.OnEvicted := by
  obtain ⟨e, he, rfl⟩ := List.mem_map.1 hk
  cases hm : c.cache with
  | none => rw [h.ll_eq_nil hm] at he; simp at he
  | some m => rw [Add_of_mem h hm he value]

theorem Add_entries_of_not_mem {c : LRUCache K V} (h : c.WF) (hu : c.OnValueUpdate = none)
    {key : K} (hk : key ∉ c.keys) (value : V) :
    (c.Add key value).entries =
      if c.MaxEntries ≠ 0 ∧ ((c.entries.length : Int) + 1) > c.MaxEntries then
        ((key, value) :: c.entries).dropLast
      else (key, value) :: c.entries := by
  rw [Add_of_not_mem h hk value]
  simp only [hu, length_entries, List.length_cons, Nat.cast_add, Nat.cast_one]
  have hc1 := h.push hk value
  simp only [hu] at hc1
  by_cases hc : c.MaxEntries ≠ 0 ∧ ((c.ll.length : Int) + 1) > c.MaxEntries
  · rw [if_pos hc, if_pos hc]
    cases hb : ({ id := c.nextId, key := key, value := value } :: c.ll).getLast? with
    | none => simp at hb
    | some back =>
      simp only
      unfold entries
      rw [removeElement_back_ll hc1 hb]
      simp only [List.map_dropLast, List.map_cons]
  · rw [if_neg hc, if_neg hc]
    rfl

end LRUCache
end

section
variable {K V : Type} [DecidableEq K]

namespace LRUCache

theorem Len_eq_length {c : LRUCache K V} (h : c.WF) : c.Len = (c.entries.length : Int) := by
  cases hm : c.cache with
  | none => simp [Len, hm, entries, h.ll_eq_nil hm]
  | some m => simp [Len, hm, entries]

theorem Add_OnEvicted_of_not_mem {c : LRUCache K V} (h : c.WF) (hu : c.OnValueUpdate = none)
    {key : K} (hk : key ∉ c.keys) (value : V) :
    (c.Add key value).OnEvicted =
      if c.MaxEntries ≠ 0 ∧ ((c.entries.length : Int) + 1) > c.MaxEntries then
        c.OnEvicted.map (fun calls => calls ++ ((key, value) :: c.entries).getLast?.toList)
      else c.OnEvicted := by
  rw [Add_of_not_mem h hk value]
  simp only [hu, length_entries, List.length_cons, Nat.cast_add, Nat.cast_one]
  by_cases hc : c.MaxEntries ≠ 0 ∧ ((c.ll.length : Int) + 1) > c.MaxEntries
  · rw [if_pos hc, if_pos hc]
    cases hb : ({ id := c.nextId, key := key, value := value } :: c.ll).getLast? with
    | none => simp at hb
    | some back =>
      have hb2 : ((key, value) :: c.entries).getLast? = some (back.key, back.value) := by
        have := congrArg (Option.map (fun e : Element K V => (e.key, e.value))) hb
        rw [← List.getLast?_map] at this
        simpa [entries] using this
      simp only [removeElement, hb2, Option.toList]
  · rw [if_neg hc, if_neg hc]

theorem removeElement_MaxEntries (c : LRUCache K V) (e : Element K V) :
    (c.removeElement e).MaxEntries = c.MaxEntries := rfl

theorem removeElement_OnValueUpdate (c : LRUCache K V) (e : Element K V) :
    (c.removeElement e).OnValueUpdate = c.OnValueUpdate := rfl

theorem RemoveOldest_WF {c : LRUCache K V} (h : c.WF) : c.RemoveOldest.2.WF := by
  unfold RemoveOldest
  cases hm : c.cache with
  | none => simpa only [hm] using h
  | some m =>
    simp only
    cases hb : c.ll.getLast? with
    | none => exact h
    | some back => exact removeElement_WF h (List.mem_of_getLast?_eq_some hb)

theorem RemoveOldest_entries {c : LRUCache K V} (h : c.WF) :
    c.RemoveOldest.2.entries = c.entries.dropLast := by
  unfold RemoveOldest
  cases hm : c.cache with
  | none => simp [entries, h.ll_eq_nil hm]
  | some m =>
    simp only
    cases hb : c.ll.getLast? with
    | none => simp [entries, List.getLast?_eq_none_iff.1 hb]
    | some back =>
      simp only [entries]
      rw [removeElement_back_ll h hb, List.map_dropLast]

theorem RemoveOldest_fst {c : LRUCache K V} (h : c.WF) :
    c.RemoveOldest.1 = c.entries.getLast?.map Prod.snd := by
  unfold RemoveOldest
  cases hm : c.cache with
  | none => simp [entries, h.ll_eq_nil hm]
  | some m =>
    simp only
    cases hb : c.ll.getLast? with
    | none => simp [entries, List.getLast?_eq_none_iff.1 hb]
    | some back => simp [entries, List.getLast?_map, hb]

theorem RemoveOldest_MaxEntries (c : LRUCache K V) :
    c.RemoveOldest.2.MaxEntries = c.MaxEntries := by
  unfold RemoveOldest
  cases c.cache <;> simp only <;> split <;> rfl

theorem RemoveOldest_OnValueUpdate (c : LRUCache K V) :
    c.RemoveOldest.2.OnValueUpdate = c.OnValueUpdate := by
  unfold RemoveOldest
  cases c.cache <;> simp only <;> split <;> rfl

theorem removeOldestTimes_WF (n : Nat) : ∀ {c : LRUCache K V}, c.WF →
    (removeOldestTimes n c).WF := by
  induction n with
  | zero => intro c h; exact h
  | succ n ih => intro c h; exact ih (RemoveOldest_WF h)

theorem removeOldestTimes_MaxEntries (n : Nat) : ∀ (c : LRUCache K V),
    (removeOldestTimes n c).MaxEntries = c.MaxEntries := by
  induction n with
  | zero => intro c; rfl
  | succ n ih => intro c; exact (ih _).trans (RemoveOldest_MaxEntries c)

theorem removeOldestTimes_OnValueUpdate (n : Nat) : ∀ (c : LRUCache K V),
    (removeOldestTimes n c).OnValueUpdate = c.OnValueUpdate := by
  induction n with
  | zero => intro c; rfl
  | succ n ih => intro c; exact (ih _).trans (RemoveOldest_OnValueUpdate c)

theorem removeOldestTimes_entries (n : Nat) : ∀ {c : LRUCache K V}, c.WF →
    (removeOldestTimes n c).entries = c.entries.take (c.entries.length - n) := by
  induction n with
  | zero => intro c _; simp [removeOldestTimes]
  | succ n ih =>
    intro c h
    show (removeOldestTimes n c.RemoveOldest.2).entries = _
    rw [ih (RemoveOldest_WF h), RemoveOldest_entries h, List.dropLast_eq_take,
      List.take_take, List.length_take]
    congr 1
    omega

theorem SetMaxEntries_WF {c : LRUCache K V} (h : c.WF) (maxEntries : Int) :
    (c.SetMaxEntries maxEntries).WF := by
  have h1 : ({ c with MaxEntries := maxEntries } : LRUCache K V).WF := h
  unfold SetMaxEntries
  simp only
  split
  · exact removeOldestTimes_WF _ h1
  · exact h1

theorem SetMaxEntries_MaxEntries (c : LRUCache K V) (maxEntries : Int) :
    (c.SetMaxEntries maxEntries).MaxEntries = maxEntries := by
  unfold SetMaxEntries
  simp only
  split
  · rw [removeOldestTimes_MaxEntries]
  · rfl

theorem SetMaxEntries_OnValueUpdate (c : LRUCache K V) (maxEntries : Int) :
    (c.SetMaxEntries maxEntries).OnValueUpdate = c.OnValueUpdate := by
  unfold SetMaxEntries
  simp only
  split
  · rw [removeOldestTimes_OnValueUpdate]
  · rfl

theorem SetMaxEntries_entries {c : LRUCache K V} (h : c.WF) (maxEntries : Int) :
    (c.SetMaxEntries maxEntries).entries = c.entries.take maxEntries.toNat := by
  have h1 : ({ c with MaxEntries := maxEntries } : LRUCache K V).WF := h
  have hlen := Len_eq_length h
  unfold SetMaxEntries
  simp only
  split
  · rename_i hcut
    rw [removeOldestTimes_entries _ h1]
    have he : ({ c with MaxEntries := maxEntries } : LRUCache K V).entries = c.entries := rfl
    rw [he]
    congr 1
    rw [hlen] at hcut ⊢
    omega
  · rename_i hcut
    show c.entries = _
    rw [List.take_of_length_le]
    rw [hlen] at hcut
    omega

theorem Remove_WF {c : LRUCache K V} (h : c.WF) (key : K) : (c.Remove key).WF := by
  unfold Remove
  cases hm : c.cache with
  | none => simpa only [hm] using h
  | some m =>
    simp only
    cases hg : mapGet m key with
    | none => exact h
    | some i =>
      obtain ⟨e, he, _, hid⟩ := h.mem_of_mapGet hm hg
      subst hid
      simp only [h.listElem_of_mem hm he]
      exact removeElement_WF h he

theorem Remove_MaxEntries (c : LRUCache K V) (key : K) :
    (c.Remove key).MaxEntries = c.MaxEntries := by
  unfold Remove
  cases c.cache <;> simp only <;> (repeat' split) <;> rfl

theorem Remove_OnValueUpdate (c : LRUCache K V) (key : K) :
    (c.Remove key).OnValueUpdate = c.OnValueUpdate := by
  unfold Remove
  cases c.cache <;> simp only <;> (repeat' split) <;> rfl

theorem Remove_entries {c : LRUCache K V} (h : c.WF) (key : K) :
    (c.Remove key).entries = c.entries.filter (fun p => decide (p.1 ≠ key)) := by
  unfold Remove
  cases hm : c.cache with
  | none => simp [entries, h.ll_eq_nil hm]
  | some m =>
    simp only
    cases hg : mapGet m key with
    | none =>
      simp only
      have hk := (h.mapGet_none_iff hm key).1 hg
      rw [List.filter_eq_self.2]
      intro p hp
      have : p.1 ∈ c.keys := by
        rw [keys_eq_map_entries]; exact List.mem_map_of_mem Prod.fst hp
      simp only [ne_eq, decide_not, Bool.not_eq_true', decide_eq_false_iff_not]
      intro hpk
      exact hk (hpk ▸ this)
    | some i =>
      obtain ⟨e, he, hkey, hid⟩ := h.mem_of_mapGet hm hg
      subst hid
      subst hkey
      simp only [h.listElem_of_mem hm he, entries]
      rw [removeElement_ll h he, List.filter_map]
      rfl

theorem Clear_WF (c : LRUCache K V) : c.Clear.WF := by
  simp [Clear, WF]

theorem Clear_entries (c : LRUCache K V) : c.Clear.entries = [] := rfl

theorem Clear_MaxEntries (c : LRUCache K V) : c.Clear.MaxEntries = c.MaxEntries := rfl

theorem Clear_OnValueUpdate (c : LRUCache K V) : c.Clear.OnValueUpdate = c.OnValueUpdate := rfl

end LRUCache
end

/-! ## Walking the recency list -/

section
variable {K V : Type} [DecidableEq K]

namespace LRUCache

theorem walkNext_append {α : Type} (index : Int) (x : α) (post : List α) :
    ∀ (pre before : List α) (i : Int), index = i + (pre.length : Int) →
      walkNext index before (pre ++ x :: post) i =
        some { before := pre.reverse ++ before, here := x, after := post } := by
  intro pre
  induction pre with
  | nil =>
    intro before i hi
    simp only [List.length_nil, Nat.cast_zero, add_zero] at hi
    simp only [List.nil_append, walkNext, List.reverse_nil]
    rw [if_neg (by omega)]
  | cons p ps ih =>
    intro before i hi
    simp only [List.length_cons, Nat.cast_add, Nat.cast_one] at hi
    rw [List.cons_append, walkNext, if_pos (by omega), ih (p :: before) (i + 1) (by omega)]
    simp

theorem walkPrev_append {α : Type} (reverseIndex : Int) (x : α) (post : List α) :
    ∀ (pre after : List α) (i : Int), reverseIndex = i + (pre.length : Int) →
      walkPrev reverseIndex (pre ++ x :: post) after i =
        some { before := post, here := x, after := pre.reverse ++ after } := by
  intro pre
  induction pre with
  | nil =>
    intro after i hi
    simp only [List.length_nil, Nat.cast_zero, add_zero] at hi
    simp only [List.nil_append, walkPrev, List.reverse_nil]
    rw [if_neg (by omega)]
  | cons p ps ih =>
    intro after i hi
    simp only [List.length_cons, Nat.cast_add, Nat.cast_one] at hi
    rw [List.cons_append, walkPrev, if_pos (by omega), ih (p :: after) (i + 1) (by omega)]
    simp

theorem walkNext_of_le {α : Type} (index : Int) (x : α) (rest before : List α) (i : Int)
    (h : index ≤ i) :
    walkNext index before (x :: rest) i = some { before := before, here := x, after := rest } := by
  simp only [walkNext]
  rw [if_neg (by omega)]

/-- Both loops of `getElementAt` stop at the element in position `pre.length`. -/
theorem walk_front_back {α : Type} (pre post : List α) (x : α) :
    walkNext (pre.length : Int) [] (pre ++ x :: post) 0 =
        some { before := pre.reverse, here := x, after := post } ∧
    walkPrev (((pre ++ x :: post).length : Int) - (pre.length : Int) - 1)
        (pre ++ x :: post).reverse [] 0 =
        some { before := pre.reverse, here := x, after := post } := by
  constructor
  · have := walkNext_append (pre.length : Int) x post pre [] 0 (by simp)
    simpa using this
  · have hrev : (pre ++ x :: post).reverse = post.reverse ++ x :: pre.reverse := by simp
    rw [hrev]
    have := walkPrev_append (((pre ++ x :: post).length : Int) - (pre.length : Int) - 1) x
      pre.reverse post.reverse [] 0 (by simp)
    simpa using this

theorem getElementAt_append (c : LRUCache K V) (pre post : List (Element K V))
    (x : Element K V) (hll : c.ll = pre ++ x :: post) :
    c.getElementAt (pre.length : Int) =
      some { before := pre.reverse, here := x, after := post } := by
  unfold getElementAt
  have hw := walk_front_back pre post x
  rw [hll]
  rw [if_neg (by simp)]
  split
  · exact hw.2
  · exact hw.1

theorem collectVals_eq (limit : Int) : ∀ (l : List (Element K V)) (i : Int) (vals : List V),
    collectVals limit l i vals = vals ++ (l.take (limit - i).toNat).map (fun e => e.value) := by
  intro l
  induction l with
  | nil => intro i vals; simp [collectVals]
  | cons e rest ih =>
    intro i vals
    simp only [collectVals]
    split
    · rename_i hlt
      rw [ih]
      have : (limit - i).toNat = (limit - (i + 1)).toNat + 1 := by omega
      rw [this]
      simp
    · rename_i hlt
      have : (limit - i).toNat = 0 := by omega
      rw [this]
      simp

theorem GetVals_eq {c : LRUCache K V} (h : c.WF) (limit offset : Int) :
    c.GetVals limit offset =
      ((c.entries.drop offset.toNat).take limit.toNat).map Prod.snd := by
  unfold GetVals
  cases hm : c.cache with
  | none => simp [entries, h.ll_eq_nil hm]
  | some m =>
    simp only
    by_cases hlen : offset.toNat < c.ll.length
    · have hsplit : c.ll = c.ll.take offset.toNat ++
          (c.ll.drop offset.toNat).head (by
            intro hnil
            have := congrArg List.length hnil
            simp at this
            omega) :: (c.ll.drop offset.toNat).tail := by
        rw [List.head_cons_tail, List.take_append_drop]
      have hdrop : c.ll.drop offset.toNat =
          (c.ll.drop offset.toNat).head (by
            intro hnil
            have := congrArg List.length hnil
            simp at this
            omega) :: (c.ll.drop offset.toNat).tail := by
        rw [List.head_cons_tail]
      have hget : c.getElementAt offset = c.getElementAt ((c.ll.take offset.toNat).length : Int) ∨
          offset < 0 := by
        by_cases ho : offset < 0
        · exact Or.inr ho
        · left
          congr 1
          simp
          omega
      rcases hget with hget | hneg
      · rw [hget, getElementAt_append c _ _ _ hsplit]
        simp only
        rw [← hdrop, collectVals_eq]
        simp [entries, List.map_drop, List.map_take, List.map_map, Function.comp_def]
      · have h0 : offset.toNat = 0 := by omega
        cases hl : c.ll with
        | nil => rw [hl] at hlen; simp at hlen
        | cons x rest =>
          have : c.getElementAt offset = some { before := [], here := x, after := rest } := by
            unfold getElementAt
            rw [hl]
            rw [if_neg (by simp; omega), if_neg (by
              have : (0 : Int) ≤ ((x :: rest).length : Int) / 2 := by positivity
              omega)]
            exact walkNext_of_le offset x rest [] 0 (by omega)
          rw [this]
          simp only
          rw [collectVals_eq]
          simp [entries, h0, hl, List.map_take, List.map_map, Function.comp_def]
    · have : c.getElementAt offset = none := by
        unfold getElementAt
        by_cases hge : offset ≥ (c.ll.length : Int)
        · rw [if_pos hge]
        · have hnil : c.ll = [] := List.length_eq_zero.1 (by omega)
          rw [hnil]
          simp [walkNext, walkPrev]
      rw [this]
      simp only
      rw [List.drop_of_length_le (by rw [length_entries]; omega)]
      simp

end LRUCache
end

theorem valListToSQLStats_eq (L : Lib) (valList : List SqlStats) :
    valListToSQLStats L valList = (columnNames, valList.map (rowOf L)) := by
  have hrow : ∀ v : SqlStats,
      (List.range columnNames.length).map (fun j => (rowOf L v).getD j "") = rowOf L v :=
    fun _ => rfl
  unfold valListToSQLStats
  simp only [List.map_map]
  refine Prod.ext rfl ?_
  apply List.map_congr_left
  intro v _
  exact hrow v

/-! ## The aggregator -/

theorem addBucket_fields (s : SqlStats) (t : Float64) :
    (addBucket s t).hostAddr = s.hostAddr ∧ (addBucket s t).schemaName = s.schemaName ∧
    (addBucket s t).userName = s.userName ∧ (addBucket s t).digest = s.digest ∧
    (addBucket s t).digestText = s.digestText ∧
    (addBucket s t).countStar = s.countStar ∧ (addBucket s t).countError = s.countError ∧
    (addBucket s t).firstSeen = s.firstSeen ∧ (addBucket s t).lastSeen = s.lastSeen ∧
    (addBucket s t).sumTime = s.sumTime ∧ (addBucket s t).minTime = s.minTime ∧
    (addBucket s t).maxTime = s.maxTime := by
  unfold addBucket
  split_ifs <;> simp

theorem addToCache_WF {c : LRUCache String SqlStats} (h : c.WF) (e : SqlExecInfo)
    (d t : String) : (addToCache c e d t).WF := by
  unfold addToCache
  simp only
  split <;> exact LRUCache.Add_WF h _ _

theorem addToCache_MaxEntries (c : LRUCache String SqlStats) (e : SqlExecInfo)
    (d t : String) : (addToCache c e d t).MaxEntries = c.MaxEntries := by
  unfold addToCache
  simp only
  split <;> exact LRUCache.Add_MaxEntries c _ _

theorem addToCache_OnValueUpdate (c : LRUCache String SqlStats) (e : SqlExecInfo)
    (d t : String) : (addToCache c e d t).OnValueUpdate = c.OnValueUpdate := by
  unfold addToCache
  simp only
  split <;> exact LRUCache.Add_OnValueUpdate c _ _

theorem addToCache_entries_of_mem {c : LRUCache String SqlStats} (h : c.WF)
    (hu : c.OnValueUpdate = none) (e : SqlExecInfo) (d t : String) {old : SqlStats}
    (hg : c.Get (cacheKeyOf e.DBHost e.SchemaName e.UserName d) = some old) :
    (addToCache c e d t).entries =
      (cacheKeyOf e.DBHost e.SchemaName e.UserName d, updateStats old e) ::
        c.entries.filter (fun p => decide (p.1 ≠ cacheKeyOf e.DBHost e.SchemaName e.UserName d)) := by
  have hk : cacheKeyOf e.DBHost e.SchemaName e.UserName d ∈ c.keys :=
    (LRUCache.Get_isSome_iff h _).1 (by rw [hg]; rfl)
  unfold addToCache
  simp only [hg]
  exact LRUCache.Add_entries_of_mem h hu hk _

theorem addToCache_entries_of_not_mem {c : LRUCache String SqlStats} (h : c.WF)
    (hu : c.OnValueUpdate = none) (e : SqlExecInfo) (d t : String)
    (hk : cacheKeyOf e.DBHost e.SchemaName e.UserName d ∉ c.keys) :
    (addToCache c e d t).entries =
      if c.MaxEntries ≠ 0 ∧ ((c.entries.length : Int) + 1) > c.MaxEntries then
        ((cacheKeyOf e.DBHost e.SchemaName e.UserName d, newStats e d t) :: c.entries).dropLast
      else (cacheKeyOf e.DBHost e.SchemaName e.UserName d, newStats e d t) :: c.entries := by
  unfold addToCache
  simp only [LRUCache.Get_of_not_mem h hk]
  exact LRUCache.Add_entries_of_not_mem h hu hk _

theorem mem_entries_of_Get {c : LRUCache String SqlStats} (h : c.WF) {k : String}
    {s : SqlStats} (hg : c.Get k = some s) : (k, s) ∈ c.entries := by
  have hk : k ∈ c.keys := (LRUCache.Get_isSome_iff h k).1 (by rw [hg]; rfl)
  obtain ⟨x, hx, rfl⟩ := List.mem_map.1 hk
  rw [LRUCache.Get_of_mem h hx] at hg
  cases hg
  exact List.mem_map_of_mem (fun e : Element String SqlStats => (e.key, e.value)) hx

theorem Get_of_mem_entries {c : LRUCache String SqlStats} (h : c.WF) {p : String × SqlStats}
    (hp : p ∈ c.entries) : c.Get p.1 = some p.2 := by
  obtain ⟨x, hx, rfl⟩ := List.mem_map.1 hp
  exact LRUCache.Get_of_mem h hx

theorem aggregate_cons (L : Lib) (c : LRUCache String SqlStats) (e : SqlExecInfo)
    (rest : List SqlExecInfo) :
    aggregate L c (e :: rest) =
      aggregate L (addToCache c e (L.Id (L.Fingerprint e.Sql)) (L.Fingerprint e.Sql)) rest := rfl

theorem aggregate_WF (L : Lib) (events : List SqlExecInfo) :
    ∀ {c : LRUCache String SqlStats}, c.WF → (aggregate L c events).WF := by
  induction events with
  | nil => intro c h; exact h
  | cons e rest ih => intro c h; rw [aggregate_cons]; exact ih (addToCache_WF h _ _ _)

theorem aggregate_MaxEntries (L : Lib) (events : List SqlExecInfo) :
    ∀ (c : LRUCache String SqlStats), (aggregate L c events).MaxEntries = c.MaxEntries := by
  induction events with
  | nil => intro c; rfl
  | cons e rest ih =>
    intro c; rw [aggregate_cons, ih]; exact addToCache_MaxEntries c _ _ _

theorem aggregate_OnValueUpdate (L : Lib) (events : List SqlExecInfo) :
    ∀ (c : LRUCache String SqlStats),
      (aggregate L c events).OnValueUpdate = c.OnValueUpdate := by
  induction events with
  | nil => intro c; rfl
  | cons e rest ih =>
    intro c; rw [aggregate_cons, ih]; exact addToCache_OnValueUpdate c _ _ _

/-- Without eviction every key keeps a record that summarises exactly the events of that
key: a property `P` that holds of the record built from one event and is carried along by
`updateStats` holds of each record and the events of its key. -/
theorem aggregate_invariant (L : Lib) (P : List SqlExecInfo → SqlStats → Prop)
    (hnew : ∀ e, P [e] (newStats e (L.Id (L.Fingerprint e.Sql)) (L.Fingerprint e.Sql)))
    (hupd : ∀ es s e, es ≠ [] → P es s → P (es ++ [e]) (updateStats s e)) :
    ∀ (rest seen : List SqlExecInfo) (c : LRUCache String SqlStats),
      c.WF → c.OnValueUpdate = none →
      (c.MaxEntries = 0 ∨
        ((((seen ++ rest).map (eventKey L)).dedup.length : Int) ≤ c.MaxEntries)) →
      (∀ k, k ∈ c.keys ↔ k ∈ seen.map (eventKey L)) →
      (∀ p ∈ c.entries, P (seen.filter (fun e => decide (eventKey L e = p.1))) p.2) →
      (∀ k, k ∈ (aggregate L c rest).keys ↔ k ∈ (seen ++ rest).map (eventKey L)) ∧
      ∀ p ∈ (aggregate L c rest).entries,
        P ((seen ++ rest).filter (fun e => decide (eventKey L e = p.1))) p.2 := by
  intro rest
  induction rest with
  | nil =>
    intro seen c _ _ _ hkeys hP
    simp only [List.append_nil]
    exact ⟨hkeys, hP⟩
  | cons e rest ih =>
    intro seen c hwf hu hfit hkeys hP
    rw [aggregate_cons]
    have happ : seen ++ e :: rest = (seen ++ [e]) ++ rest := by simp
    rw [happ] at hfit ⊢
    have hwf1 := addToCache_WF hwf e (L.Id (L.Fingerprint e.Sql)) (L.Fingerprint e.Sql)
    have hu1 := (addToCache_OnValueUpdate c e (L.Id (L.Fingerprint e.Sql))
      (L.Fingerprint e.Sql)).trans hu
    have hmax1 := addToCache_MaxEntries c e (L.Id (L.Fingerprint e.Sql)) (L.Fingerprint e.Sql)
    have hkeq : cacheKeyOf e.DBHost e.SchemaName e.UserName (L.Id (L.Fingerprint e.Sql)) =
        eventKey L e := rfl
    apply ih (seen ++ [e]) _ hwf1 hu1 (by rw [hmax1]; exact hfit)
    · -- the keys
      intro k
      rw [LRUCache.keys_eq_map_entries]
      cases hg : c.Get (eventKey L e) with
      | some old =>
        have hmem : eventKey L e ∈ c.keys :=
          (LRUCache.Get_isSome_iff hwf _).1 (by rw [hg]; rfl)
        rw [addToCache_entries_of_mem hwf hu e _ _ (hkeq ▸ hg), hkeq]
        simp only [List.map_cons, List.mem_cons, List.map_append, List.mem_append,
          List.map_nil, List.not_mem_nil, or_false]
        rw [← hkeys k, LRUCache.keys_eq_map_entries]
        constructor
        · rintro (h1 | h1)
          · exact Or.inr h1
          · left
            obtain ⟨p, hp, rfl⟩ := List.mem_map.1 h1
            exact List.mem_map_of_mem Prod.fst (List.mem_of_mem_filter hp)
        · rintro (h1 | h1)
          · by_cases hk : k = eventKey L e
            · exact Or.inl hk
            · right
              obtain ⟨p, hp, rfl⟩ := List.mem_map.1 h1
              exact List.mem_map_of_mem Prod.fst
                (List.mem_filter.2 ⟨hp, by simpa using hk⟩)
          · exact Or.inl h1
      | none =>
        have hnot : eventKey L e ∉ c.keys := by
          intro hmem
          have := (LRUCache.Get_isSome_iff hwf _).2 hmem
          rw [hg] at this
          simp at this
        have hnoevict : ¬ (c.MaxEntries ≠ 0 ∧ ((c.entries.length : Int) + 1) > c.MaxEntries) := by
          rintro ⟨hne, hgt⟩
          rcases hfit with h0 | hle
          · exact hne h0
          · have hnd : (eventKey L e :: c.keys).Nodup :=
              List.nodup_cons.2 ⟨hnot, hwf.nodup_keys⟩
            have hsub : eventKey L e :: c.keys ⊆
                (((seen ++ [e]) ++ rest).map (eventKey L)).dedup := by
              intro k hk
              rw [List.mem_dedup]
              rcases List.mem_cons.1 hk with rfl | hk
              · simp
              · have := (hkeys k).1 hk
                simp only [List.map_append, List.mem_append]
                exact Or.inl (Or.inl this)
            have hlen := (hnd.subperm hsub).length_le
            rw [List.length_cons, LRUCache.keys_eq_map_entries, List.length_map] at hlen
            omega
        rw [addToCache_entries_of_not_mem hwf hu e _ _ (hkeq ▸ hnot), if_neg hnoevict, hkeq]
        simp only [List.map_cons, List.mem_cons, List.map_append, List.mem_append,
          List.map_nil, List.not_mem_nil, or_false]
        rw [← hkeys k, LRUCache.keys_eq_map_entries]
        constructor
        · rintro (h1 | h1)
          · exact Or.inr h1
          · exact Or.inl h1
        · rintro (h1 | h1)
          · exact Or.inr h1
          · exact Or.inl h1
    · -- the records
      intro p hp
      cases hg : c.Get (eventKey L e) with
      | some old =>
        rw [addToCache_entries_of_mem hwf hu e _ _ (hkeq ▸ hg), hkeq] at hp
        have hold := hP _ (mem_entries_of_Get hwf hg)
        simp only at hold
        rcases List.mem_cons.1 hp with rfl | hp
        · simp only [List.filter_append, List.filter_cons, List.filter_nil, decide_True, if_true]
          apply hupd _ _ _ _ hold
          have hmem : eventKey L e ∈ seen.map (eventKey L) :=
            (hkeys _).1 ((LRUCache.Get_isSome_iff hwf _).1 (by rw [hg]; rfl))
          obtain ⟨x, hx, hxk⟩ := List.mem_map.1 hmem
          intro hnil
          have : x ∈ seen.filter (fun e' => decide (eventKey L e' = eventKey L e)) :=
            List.mem_filter.2 ⟨hx, by simpa using hxk⟩
          rw [hnil] at this
          simp at this
        · have hne : p.1 ≠ eventKey L e := by
            simpa using (List.mem_filter.1 hp).2
          have := hP p (List.mem_of_mem_filter hp)
          simp only [List.filter_append, List.filter_cons, List.filter_nil]
          rw [if_neg (by simpa using fun h => hne h.symm)]
          simpa using this
      | none =>
        have hnot : eventKey L e ∉ c.keys := by
          intro hmem
          have := (LRUCache.Get_isSome_iff hwf _).2 hmem
          rw [hg] at this
          simp at this
        have hnoevict : ¬ (c.MaxEntries ≠ 0 ∧ ((c.entries.length : Int) + 1) > c.MaxEntries) := by
          rintro ⟨hne, hgt⟩
          rcases hfit with h0 | hle
          · exact hne h0
          · have hnd : (eventKey L e :: c.keys).Nodup :=
              List.nodup_cons.2 ⟨hnot, hwf.nodup_keys⟩
            have hsub : eventKey L e :: c.keys ⊆
                (((seen ++ [e]) ++ rest).map (eventKey L)).dedup := by
              intro k hk
              rw [List.mem_dedup]
              rcases List.mem_cons.1 hk with rfl | hk
              · simp
              · have := (hkeys k).1 hk
                simp only [List.map_append, List.mem_append]
                exact Or.inl (Or.inl this)
            have hlen := (hnd.subperm hsub).length_le
            rw [List.length_cons, LRUCache.keys_eq_map_entries, List.length_map] at hlen
            omega
        rw [addToCache_entries_of_not_mem hwf hu e _ _ (hkeq ▸ hnot), if_neg hnoevict, hkeq] at hp
        rcases List.mem_cons.1 hp with rfl | hp
        · have hseen : seen.filter (fun e' => decide (eventKey L e' = eventKey L e)) = [] := by
            rw [List.filter_eq_nil_iff]
            intro x hx
            simp only [decide_eq_true_eq]
            intro hxk
            exact hnot ((hkeys _).2 (hxk ▸ List.mem_map_of_mem (eventKey L) hx))
          simp only [List.filter_append, List.filter_cons, List.filter_nil, decide_True, if_true,
            hseen, List.nil_append]
          exact hnew e
        · have hne : p.1 ≠ eventKey L e := by
            intro heq
            have : p.1 ∈ c.keys := by
              rw [LRUCache.keys_eq_map_entries]; exact List.mem_map_of_mem Prod.fst hp
            exact hnot (heq ▸ this)
          have := hP p hp
          simp only [List.filter_append, List.filter_cons, List.filter_nil]
          rw [if_neg (by simpa using fun h => hne h.symm)]
          simpa using this

/-! ## The fields written by `addToCache` -/

theorem newStats_countStar (e : SqlExecInfo) (d t : String) : (newStats e d t).countStar = 1 := by
  unfold newStats
  simp only [(addBucket_fields _ _).2.2.2.2.2.1]
  cases e.SuccessExec <;> rfl

theorem newStats_countError (e : SqlExecInfo) (d t : String) :
    (newStats e d t).countError = if e.SuccessExec then 0 else 1 := by
  unfold newStats
  simp only [(addBucket_fields _ _).2.2.2.2.2.2.1]
  cases e.SuccessExec <;> rfl

theorem newStats_firstSeen (e : SqlExecInfo) (d t : String) :
    (newStats e d t).firstSeen = e.SeenTime := by
  unfold newStats
  simp only [(addBucket_fields _ _).2.2.2.2.2.2.2.1]
  cases e.SuccessExec <;> rfl

theorem newStats_lastSeen (e : SqlExecInfo) (d t : String) :
    (newStats e d t).lastSeen = e.SeenTime := by
  unfold newStats
  simp only [(addBucket_fields _ _).2.2.2.2.2.2.2.2.1]
  cases e.SuccessExec <;> rfl

theorem newStats_times (e : SqlExecInfo) (d t : String) :
    (newStats e d t).sumTime = e.ExecTime ∧ (newStats e d t).minTime = e.ExecTime ∧
    (newStats e d t).maxTime = e.ExecTime := by
  unfold newStats
  simp only [(addBucket_fields _ _).2.2.2.2.2.2.2.2.2]
  cases e.SuccessExec <;> simp

theorem updateStats_countStar (s : SqlStats) (e : SqlExecInfo) :
    (updateStats s e).countStar = s.countStar + 1 := by
  unfold updateStats
  simp only [(addBucket_fields _ _).2.2.2.2.2.1]
  split_ifs <;> rfl

theorem updateStats_countError (s : SqlStats) (e : SqlExecInfo) :
    (updateStats s e).countError = s.countError + if e.SuccessExec then 0 else 1 := by
  unfold updateStats
  simp only [(addBucket_fields _ _).2.2.2.2.2.2.1]
  cases e.SuccessExec <;> simp only [Bool.not_false, Bool.not_true, if_true, Bool.false_eq_true,
    if_false] <;> split_ifs <;> simp

theorem updateStats_firstSeen (s : SqlStats) (e : SqlExecInfo) :
    (updateStats s e).firstSeen = s.firstSeen := by
  unfold updateStats
  simp only [(addBucket_fields _ _).2.2.2.2.2.2.2.1]
  split_ifs <;> rfl

theorem updateStats_lastSeen (s : SqlStats) (e : SqlExecInfo) :
    (updateStats s e).lastSeen = if e.SeenTime > s.lastSeen then e.SeenTime else s.lastSeen := by
  unfold updateStats
  simp only [(addBucket_fields _ _).2.2.2.2.2.2.2.2.1]
  split_ifs <;> rfl

theorem updateStats_sumTime (s : SqlStats) (e : SqlExecInfo) :
    (updateStats s e).sumTime = Float64.add s.sumTime e.ExecTime := by
  unfold updateStats
  simp only [(addBucket_fields _ _).2.2.2.2.2.2.2.2.2.1]
  split_ifs <;> rfl

theorem updateStats_maxTime (s : SqlStats) (e : SqlExecInfo) :
    (updateStats s e).maxTime =
      if Float64.gt e.ExecTime s.maxTime then e.ExecTime else s.maxTime := by
  unfold updateStats
  simp only [(addBucket_fields _ _).2.2.2.2.2.2.2.2.2.2.2]
  split_ifs <;> rfl

theorem updateStats_minTime (s : SqlStats) (e : SqlExecInfo) :
    (updateStats s e).minTime =
      if Float64.gt e.ExecTime s.maxTime then s.minTime
      else if Float64.lt e.ExecTime s.minTime then e.ExecTime else s.minTime := by
  unfold updateStats
  simp only [(addBucket_fields _ _).2.2.2.2.2.2.2.2.2.2.1]
  split_ifs <;> rfl

/-! ## Inline mode -/

theorem Start_sync (L : Lib) (fs : String → Option String) (recv : SqlMonitor)
    (cacheSize chanSize : Int) (successOnly : Bool) (hch : 0 ≤ chanSize) :
    ∃ m0, SqlMonitor.Start L fs recv syncMode cacheSize chanSize "" successOnly = some m0 ∧
      m0.sqlDigestCache = some (NewLRUCache String SqlStats (cacheCapacity cacheSize)) ∧
      m0.sqlDigestResetCache = some (NewLRUCache String SqlStats (cacheCapacity cacheSize)) ∧
      m0.mode = syncMode ∧ m0.successOnly = successOnly ∧ m0.status = inited := by
  have h1 : ¬ ((if 0 = chanSize then (4096 : Int) else chanSize) < 0) := by
    split_ifs <;> omega
  have h2 : ¬ (syncMode = fullAsyncMode) := by decide
  have h3 : ¬ (syncMode = asyncMode) := by decide
  unfold SqlMonitor.Start
  simp only [h1, h2, h3, if_false, if_true, SqlMonitor.recoverCacheFormFile, ne_eq,
    not_true_eq_false]
  exact ⟨_, rfl, rfl, rfl, rfl, rfl, rfl⟩

theorem Record_sync (L : Lib) (m : SqlMonitor) (e : SqlExecInfo)
    (c1 c2 : LRUCache String SqlStats) (hmode : m.mode = syncMode)
    (hso : m.successOnly = false) (h1 : m.sqlDigestCache = some c1)
    (h2 : m.sqlDigestResetCache = some c2) :
    SqlMonitor.Record L m e =
      some ({ m with
              sqlDigestCache :=
                some (addToCache c1 e (L.Id (L.Fingerprint e.Sql)) (L.Fingerprint e.Sql))
              sqlDigestResetCache :=
                some (addToCache c2 e (L.Id (L.Fingerprint e.Sql)) (L.Fingerprint e.Sql)) },
            true) := by
  have h3 : ¬ (syncMode = fullAsyncMode) := by decide
  have h4 : ¬ (syncMode = asyncMode) := by decide
  unfold SqlMonitor.Record
  simp only [hso, hmode, h3, h4, Bool.false_and, Bool.false_eq_true, if_false, if_true,
    SqlMonitor.statistics, h1, h2]

theorem RecordAll_sync (L : Lib) (events : List SqlExecInfo) :
    ∀ (m : SqlMonitor) (c1 c2 : LRUCache String SqlStats), m.mode = syncMode →
      m.successOnly = false → m.sqlDigestCache = some c1 → m.sqlDigestResetCache = some c2 →
      RecordAll L m events =
        some ({ m with sqlDigestCache := some (aggregate L c1 events)
                       sqlDigestResetCache := some (aggregate L c2 events) },
              List.replicate events.length true) := by
  induction events with
  | nil =>
    intro m c1 c2 _ _ h1 h2
    simp only [RecordAll, aggregate, List.foldl_nil, List.length_nil, List.replicate_zero,
      ← h1, ← h2]
  | cons e rest ih =>
    intro m c1 c2 hmode hso h1 h2
    simp only [RecordAll, Record_sync L m e c1 c2 hmode hso h1 h2]
    rw [ih { m with
              sqlDigestCache :=
                some (addToCache c1 e (L.Id (L.Fingerprint e.Sql)) (L.Fingerprint e.Sql))
              sqlDigestResetCache :=
                some (addToCache c2 e (L.Id (L.Fingerprint e.Sql)) (L.Fingerprint e.Sql)) }
      _ _ hmode hso rfl rfl]
    rfl

/-- An inline monitor started on an empty storage path returns `true` from every
`Record`, and both caches hold the aggregate of the recorded events. -/
theorem sync_run (L : Lib) (fs : String → Option String) (recv : SqlMonitor)
    (cacheSize chanSize : Int) (events : List SqlExecInfo) (hch : 0 ≤ chanSize) :
    ∃ m0 m, SqlMonitor.Start L fs recv syncMode cacheSize chanSize "" false = some m0 ∧
      RecordAll L m0 events = some (m, List.replicate events.length true) ∧
      m.sqlDigestCache =
        some (aggregate L (NewLRUCache String SqlStats (cacheCapacity cacheSize)) events) ∧
      m.sqlDigestResetCache =
        some (aggregate L (NewLRUCache String SqlStats (cacheCapacity cacheSize)) events) ∧
      m.status = inited := by
  obtain ⟨m0, hstart, h1, h2, hmode, hso, hst⟩ :=
    Start_sync L fs recv cacheSize chanSize false hch
  exact ⟨m0, _, hstart, RecordAll_sync L events m0 _ _ hmode hso h1 h2, rfl, rfl, hst⟩

/-- The records of an aggregate built without eviction from the empty cache. -/
theorem aggregate_records (L : Lib) (P : List SqlExecInfo → SqlStats → Prop)
    (hnew : ∀ e, P [e] (newStats e (L.Id (L.Fingerprint e.Sql)) (L.Fingerprint e.Sql)))
    (hupd : ∀ es s e, es ≠ [] → P es s → P (es ++ [e]) (updateStats s e))
    (capacity : Int) (events : List SqlExecInfo)
    (hfit : capacity = 0 ∨ (((events.map (eventKey L)).dedup.length : Int) ≤ capacity)) :
    ∀ k ∈ events.map (eventKey L),
      ∃ s, (aggregate L (NewLRUCache String SqlStats capacity) events).Get k = some s ∧
        P (events.filter (fun e => decide (eventKey L e = k))) s := by
  have hwf0 : (NewLRUCache String SqlStats capacity).WF := LRUCache.NewLRUCache_WF capacity
  have hinv := aggregate_invariant L P hnew hupd events [] (NewLRUCache String SqlStats capacity)
    hwf0 rfl (by simpa using hfit) (by simp [NewLRUCache, LRUCache.keys])
    (by simp [NewLRUCache, LRUCache.entries])
  simp only [List.nil_append] at hinv
  have hwf := aggregate_WF L events hwf0
  intro k hk
  have hmem := (hinv.1 k).2 hk
  rw [LRUCache.keys_eq_map_entries] at hmem
  obtain ⟨p, hp, rfl⟩ := List.mem_map.1 hmem
  exact ⟨p.2, Get_of_mem_entries hwf hp, hinv.2 p hp⟩

/-! ## Claims about the records of an inline monitor -/

/-- C1. In inline mode, from a `Start` with an empty storage path and the success-only
filter off, when the distinct cache keys of the recorded events fit in the cache capacity
(or the cache is unbounded), every `Record` returns and, for every key `k` occurring in
the sequence, the rolling cache holds a record for `k` whose `countStar` is the number of
events with key `k` and whose `countError` is the number of those with a false success
flag. -/
theorem C1_counts_per_key (L : Lib) (fs : String → Option String) (recv : SqlMonitor)
    (cacheSize chanSize : Int) (events : List SqlExecInfo) (hch : 0 ≤ chanSize)
    (hfit : cacheCapacity cacheSize = 0 ∨
      (((events.map (eventKey L)).dedup.length : Int) ≤ cacheCapacity cacheSize)) :
    ∃ m0 m oks c,
      SqlMonitor.Start L fs recv syncMode cacheSize chanSize "" false = some m0 ∧
      RecordAll L m0 events = some (m, oks) ∧ m.sqlDigestCache = some c ∧
      ∀ k ∈ events.map (eventKey L), ∃ s, c.Get k = some s ∧
        s.countStar = ((events.filter (fun e => decide (eventKey L e = k))).length : Int) ∧
        s.countError =
          ((events.filter (fun e => decide (eventKey L e = k) && !e.SuccessExec)).length : Int) := by
  obtain ⟨m0, m, hstart, hrun, hc, _, _⟩ := sync_run L fs recv cacheSize chanSize events hch
  refine ⟨m0, m, _, _, hstart, hrun, hc, ?_⟩
  intro k hk
  obtain ⟨s, hget, hs1, hs2⟩ := aggregate_records L
    (fun es s => s.countStar = (es.length : Int) ∧
      s.countError = ((es.filter (fun e => !e.SuccessExec)).length : Int))
    (by
      intro e
      rw [newStats_countStar, newStats_countError]
      cases hS : e.SuccessExec <;> simp [List.filter_cons, hS])
    (by
      intro es s e _ hP
      rw [updateStats_countStar, updateStats_countError, hP.1, hP.2]
      cases hS : e.SuccessExec <;> simp [List.filter_append, List.filter_cons, hS])
    (cacheCapacity cacheSize) events hfit k hk
  refine ⟨s, hget, hs1, ?_⟩
  rw [hs2, List.filter_filter]
  congr 2
  apply List.filter_congr
  intro x _
  exact Bool.and_comm _ _

/-- Witness of C1: three events on two keys in a cache of capacity 10. -/
theorem C1_counts_per_key_witness :
    (0 : Int) ≤ 10 ∧
    (cacheCapacity 10 = 0 ∨
      ((([exampleEvent "a" true (Float64.fin 1) 1, exampleEvent "b" false (Float64.fin 2) 2,
          exampleEvent "a" false (Float64.fin 3) 3].map (eventKey exampleLib)).dedup.length : Int)
        ≤ cacheCapacity 10)) ∧
    ∃ m0 m oks c,
      SqlMonitor.Start exampleLib (fun _ => none) SqlMonitor.zero syncMode 10 10 "" false
        = some m0 ∧
      RecordAll exampleLib m0
        [exampleEvent "a" true (Float64.fin 1) 1, exampleEvent "b" false (Float64.fin 2) 2,
         exampleEvent "a" false (Float64.fin 3) 3] = some (m, oks) ∧
      m.sqlDigestCache = some c ∧
      ∀ k ∈ [exampleEvent "a" true (Float64.fin 1) 1, exampleEvent "b" false (Float64.fin 2) 2,
             exampleEvent "a" false (Float64.fin 3) 3].map (eventKey exampleLib),
        ∃ s, c.Get k = some s ∧
          s.countStar =
            (([exampleEvent "a" true (Float64.fin 1) 1, exampleEvent "b" false (Float64.fin 2) 2,
               exampleEvent "a" false (Float64.fin 3) 3].filter
                (fun e => decide (eventKey exampleLib e = k))).length : Int) ∧
          s.countError =
            (([exampleEvent "a" true (Float64.fin 1) 1, exampleEvent "b" false (Float64.fin 2) 2,
               exampleEvent "a" false (Float64.fin 3) 3].filter
                (fun e => decide (eventKey exampleLib e = k) && !e.SuccessExec)).length : Int) :=
  ⟨by decide, by decide,
    C1_counts_per_key exampleLib (fun _ => none) SqlMonitor.zero 10 10
      [exampleEvent "a" true (Float64.fin 1) 1, exampleEvent "b" false (Float64.fin 2) 2,
       exampleEvent "a" false (Float64.fin 3) 3] (by decide) (by decide)⟩

theorem Float64.le_fin (a b : ℚ) : Float64.le (Float64.fin a) (Float64.fin b) = true ↔ a ≤ b := by
  simp [Float64.le]

theorem Float64.lt_fin (a b : ℚ) : Float64.lt (Float64.fin a) (Float64.fin b) = true ↔ a < b := by
  simp [Float64.lt]

theorem Float64.gt_fin (a b : ℚ) : Float64.gt (Float64.fin a) (Float64.fin b) = true ↔ b < a := by
  simp [Float64.gt, Float64.lt]

/-! ## float64 addition -/

theorem log_two_natCast (n k : ℕ) (h1 : 2 ^ k ≤ n) (h2 : n < 2 ^ (k + 1)) :
    Int.log 2 ((n : ℚ)) = k := by
  rw [Int.log_natCast]
  norm_cast
  exact Nat.log_eq_of_pow_le_of_lt_pow h1 h2

/-- A tie is rounded to the even neighbour: `2^53 + 1` becomes `2^53`. -/
theorem Float64.nearest_tie :
    Float64.nearest (9007199254740992 + 1) = Float64.fin 9007199254740992 := by
  have hlog : Int.log 2 |((9007199254740992 : ℚ) + 1)| = 53 := by
    rw [abs_of_pos (by norm_num)]
    have := log_two_natCast 9007199254740993 53 (by norm_num) (by norm_num)
    norm_num at this ⊢
    exact this
  unfold Float64.nearest
  rw [if_neg (by norm_num)]
  simp only [hlog]
  have hfloor : ⌊|((9007199254740992 : ℚ) + 1)| / 2 ^ ((max 53 (-1022) : ℤ) - 52)⌋ =
      4503599627370496 := by
    rw [Int.floor_eq_iff]
    norm_num
  rw [hfloor]
  norm_num

/-- A sum of `2^1024` overflows to plus infinity. -/
theorem Float64.nearest_overflow :
    Float64.nearest ((2 : ℚ) ^ 1023 + (2 : ℚ) ^ 1023) = Float64.posInf := by
  have hq : (2 : ℚ) ^ 1023 + (2 : ℚ) ^ 1023 = (((2 : ℕ) ^ 1024 : ℕ) : ℚ) := by norm_num
  have hlog : Int.log 2 |((2 : ℚ) ^ 1023 + (2 : ℚ) ^ 1023)| = 1024 := by
    rw [abs_of_pos (by positivity), hq]
    exact log_two_natCast _ 1024 (le_refl _) (by norm_num)
  unfold Float64.nearest
  rw [if_neg (by positivity)]
  simp only [hlog]
  have hfloor : ⌊|((2 : ℚ) ^ 1023 + (2 : ℚ) ^ 1023)| / 2 ^ ((max 1024 (-1022) : ℤ) - 52)⌋ =
      4503599627370496 := by
    rw [Int.floor_eq_iff]
    norm_num
  rw [hfloor]
  norm_num

/-- A natural number below `2^53` is a float64. -/
theorem Float64.nearest_natCast (n : ℕ) (h : n < 2 ^ 53) :
    Float64.nearest (n : ℚ) = Float64.fin (n : ℚ) := by
  by_cases h0 : n = 0
  · subst h0
    simp [Float64.nearest]
  have hpos : (0 : ℚ) < n := by exact_mod_cast Nat.pos_of_ne_zero h0
  have hk : Nat.log 2 n < 53 := by
    apply Nat.log_lt_of_lt_pow h0 h
  obtain ⟨j, hj⟩ : ∃ j : ℕ, Nat.log 2 n + j = 52 := ⟨52 - Nat.log 2 n, by omega⟩
  have hlog : Int.log 2 |(n : ℚ)| = (Nat.log 2 n : ℤ) := by
    rw [abs_of_pos hpos, Int.log_natCast]
  have he : max (Nat.log 2 n : ℤ) (-1022) = (Nat.log 2 n : ℤ) := by omega
  have hquant : (2 : ℚ) ^ ((Nat.log 2 n : ℤ) - 52) = ((2 : ℚ) ^ j)⁻¹ := by
    have : ((Nat.log 2 n : ℤ) - 52) = -(j : ℤ) := by omega
    rw [this, zpow_neg, zpow_natCast]
  have hscaled : |(n : ℚ)| / ((2 : ℚ) ^ j)⁻¹ = ((n * 2 ^ j : ℕ) : ℚ) := by
    rw [abs_of_pos hpos, div_inv_eq_mul]
    push_cast
    ring
  have hbig : ¬ ((2 : ℚ) ^ 1024 ≤ (n : ℚ)) := by
    rw [not_le]
    have h1 : (n : ℚ) < 2 ^ 53 := by exact_mod_cast h
    have h2 : (2 : ℚ) ^ 53 < 2 ^ 1024 := by norm_num
    linarith
  have h2j : ((2 : ℚ) ^ j) ≠ 0 := by positivity
  unfold Float64.nearest
  rw [if_neg (ne_of_gt hpos)]
  simp only [hlog, he, hquant, hscaled, Int.floor_natCast]
  have hr : (((n * 2 ^ j : ℕ) : ℤ) : ℚ) * ((2 : ℚ) ^ j)⁻¹ = (n : ℚ) := by
    push_cast
    field_simp
  simp only [Int.cast_natCast, sub_self, one_div, inv_pos, Nat.ofNat_pos, if_true]
  simp only [Int.cast_natCast] at hr
  rw [hr, if_neg hbig, if_pos hpos]

theorem Float64.add_fin (a b : ℚ) :
    Float64.add (Float64.fin a) (Float64.fin b) = Float64.nearest (a + b) := rfl

theorem Float64.sumList_pair (x y : Float64) :
    Float64.sumList [x, y] = Float64.add x y := rfl

/-- On natural numbers whose sum is below `2^53`, float64 addition is exact. -/
theorem Float64.add_natCast (a b : ℕ) (h : a + b < 2 ^ 53) :
    Float64.add (Float64.fin (a : ℚ)) (Float64.fin (b : ℚ)) = Float64.fin ((a : ℚ) + (b : ℚ)) := by
  have h1 := Float64.nearest_natCast (a + b) h
  rw [Nat.cast_add] at h1
  rw [Float64.add_fin, h1]

/-! ## The order of float64 on values other than NaN -/

theorem Float64.le_self (a : Float64) (h : a ≠ Float64.nan) :
    Float64.le a a = true := by
  cases a with
  | nan => exact absurd rfl h
  | negInf => rfl
  | posInf => rfl
  | fin q => simp [Float64.le]

theorem Float64.le_chain (a b c : Float64) (h1 : Float64.le a b = true)
    (h2 : Float64.le b c = true) : Float64.le a c = true := by
  cases a <;> cases b <;> cases c <;> simp_all [Float64.le]
  exact le_trans h1 h2

theorem Float64.le_of_lt_true (a b : Float64) (h : Float64.lt a b = true) :
    Float64.le a b = true := by
  cases a <;> cases b <;> simp_all [Float64.le, Float64.lt]
  exact le_of_lt h

theorem Float64.le_of_not_lt_true (a b : Float64) (ha : a ≠ Float64.nan) (hb : b ≠ Float64.nan)
    (h : ¬ Float64.lt a b = true) : Float64.le b a = true := by
  cases a <;> cases b <;> simp_all [Float64.le, Float64.lt]

/-! ## The times of a record -/

theorem sumList_append (ts : List Float64) (t : Float64) (h : ts ≠ []) :
    Float64.sumList (ts ++ [t]) = Float64.add (Float64.sumList ts) t := by
  cases ts with
  | nil => exact absurd rfl h
  | cons t0 rest => simp [Float64.sumList, List.foldl_append]

theorem foldl_add_exact : ∀ (qs : List ℚ) (acc : ℚ), Float64.exactFrom acc qs →
    (qs.map Float64.fin).foldl Float64.add (Float64.fin acc) = Float64.fin (acc + qs.sum)
  | [], acc, _ => by simp
  | q :: qs, acc, h => by
    obtain ⟨h1, h2⟩ := h
    have ih := foldl_add_exact qs (acc + q) h2
    simp only [List.map_cons, List.foldl_cons, List.sum_cons]
    have hadd : Float64.add (Float64.fin acc) (Float64.fin q) = Float64.fin (acc + q) := by
      rw [Float64.add_fin]
      exact h1
    rw [hadd, ih, add_assoc]

/-- The times of the record built from the events of one key: `minTime` and `maxTime`
when no time is NaN, and `sumTime` in all cases. -/
theorem times_per_key (L : Lib) (capacity : Int) (events : List SqlExecInfo)
    (hfit : capacity = 0 ∨ (((events.map (eventKey L)).dedup.length : Int) ≤ capacity)) :
    ∀ k ∈ events.map (eventKey L),
      ∃ s, (aggregate L (NewLRUCache String SqlStats capacity) events).Get k = some s ∧
        ((∀ e ∈ events, eventKey L e = k → e.ExecTime ≠ Float64.nan) →
          (∃ e ∈ events, eventKey L e = k ∧ s.minTime = e.ExecTime) ∧
          (∀ e ∈ events, eventKey L e = k → Float64.le s.minTime e.ExecTime = true) ∧
          (∃ e ∈ events, eventKey L e = k ∧ s.maxTime = e.ExecTime) ∧
          (∀ e ∈ events, eventKey L e = k → Float64.le e.ExecTime s.maxTime = true)) ∧
        s.sumTime = Float64.sumList
          ((events.filter (fun e => decide (eventKey L e = k))).map (fun e => e.ExecTime)) := by
  intro k hk
  obtain ⟨s, hget, hs⟩ := aggregate_records L
    (fun es s =>
      ((∀ e ∈ es, e.ExecTime ≠ Float64.nan) →
        (∃ e ∈ es, s.minTime = e.ExecTime) ∧ (∃ e ∈ es, s.maxTime = e.ExecTime) ∧
        (∀ e ∈ es, Float64.le s.minTime e.ExecTime = true ∧
          Float64.le e.ExecTime s.maxTime = true)) ∧
      s.sumTime = Float64.sumList (es.map (fun e => e.ExecTime)))
    (by
      intro e
      obtain ⟨h3, h1, h2⟩ := newStats_times e (L.Id (L.Fingerprint e.Sql)) (L.Fingerprint e.Sql)
      refine ⟨?_, ?_⟩
      · intro hn
        have he : e.ExecTime ≠ Float64.nan := hn e (by simp)
        refine ⟨⟨e, by simp, h1⟩, ⟨e, by simp, h2⟩, ?_⟩
        intro x hx
        rw [List.mem_singleton] at hx
        subst hx
        rw [h1, h2]
        exact ⟨Float64.le_self _ he, Float64.le_self _ he⟩
      · rw [h3]
        rfl)
    (by
      intro es s e hne hP
      obtain ⟨hmm, hsum⟩ := hP
      refine ⟨?_, ?_⟩
      · intro hn
        obtain ⟨⟨emin, hemin, hlo⟩, ⟨emax, hemax, hhi⟩, hbound⟩ :=
          hmm (fun x hx => hn x (List.mem_append_left _ hx))
        have he : e.ExecTime ≠ Float64.nan := hn e (by simp)
        have hmaxn : s.maxTime ≠ Float64.nan := by
          rw [hhi]
          exact hn emax (List.mem_append_left _ hemax)
        have hminn : s.minTime ≠ Float64.nan := by
          rw [hlo]
          exact hn emin (List.mem_append_left _ hemin)
        have hminmax : Float64.le s.minTime s.maxTime = true :=
          Float64.le_chain _ _ _ (hbound emin hemin).1 (hbound emin hemin).2
        rw [updateStats_minTime, updateStats_maxTime]
        by_cases hgt : Float64.gt e.ExecTime s.maxTime = true
        · have hle : Float64.le s.maxTime e.ExecTime = true := Float64.le_of_lt_true _ _ hgt
          rw [if_pos hgt, if_pos hgt]
          refine ⟨⟨emin, List.mem_append_left _ hemin, hlo⟩, ⟨e, by simp, rfl⟩, ?_⟩
          intro x hx
          rcases List.mem_append.1 hx with hx | hx
          · exact ⟨(hbound x hx).1, Float64.le_chain _ _ _ (hbound x hx).2 hle⟩
          · rw [List.mem_singleton] at hx
            subst hx
            exact ⟨Float64.le_chain _ _ _ hminmax hle, Float64.le_self _ he⟩
        · have hle : Float64.le e.ExecTime s.maxTime = true :=
            Float64.le_of_not_lt_true _ _ hmaxn he hgt
          rw [if_neg hgt, if_neg hgt]
          by_cases hlt : Float64.lt e.ExecTime s.minTime = true
          · have hle2 : Float64.le e.ExecTime s.minTime = true := Float64.le_of_lt_true _ _ hlt
            rw [if_pos hlt]
            refine ⟨⟨e, by simp, rfl⟩, ⟨emax, List.mem_append_left _ hemax, hhi⟩, ?_⟩
            intro x hx
            rcases List.mem_append.1 hx with hx | hx
            · exact ⟨Float64.le_chain _ _ _ hle2 (hbound x hx).1, (hbound x hx).2⟩
            · rw [List.mem_singleton] at hx
              subst hx
              exact ⟨Float64.le_self _ he, hle⟩
          · have hle2 : Float64.le s.minTime e.ExecTime = true :=
              Float64.le_of_not_lt_true _ _ he hminn hlt
            rw [if_neg hlt]
            refine ⟨⟨emin, List.mem_append_left _ hemin, hlo⟩,
              ⟨emax, List.mem_append_left _ hemax, hhi⟩, ?_⟩
            intro x hx
            rcases List.mem_append.1 hx with hx | hx
            · exact hbound x hx
            · rw [List.mem_singleton] at hx
              subst hx
              exact ⟨hle2, hle⟩
      · rw [updateStats_sumTime, hsum, List.map_append, List.map_cons, List.map_nil,
          sumList_append _ _ (by simpa using hne)])
    capacity events hfit k hk
  obtain ⟨hmm, hsum⟩ := hs
  refine ⟨s, hget, ?_, hsum⟩
  intro hn
  obtain ⟨⟨emin, hemin, hlo⟩, ⟨emax, hemax, hhi⟩, hbound⟩ :=
    hmm (fun x hx => hn x (List.mem_of_mem_filter hx)
      (by simpa using (List.mem_filter.1 hx).2))
  refine ⟨?_, ?_, ?_, ?_⟩
  · exact ⟨emin, List.mem_of_mem_filter hemin, by simpa using (List.mem_filter.1 hemin).2, hlo⟩
  · intro x hx hxk
    exact (hbound x (List.mem_filter.2 ⟨hx, by simpa using hxk⟩)).1
  · exact ⟨emax, List.mem_of_mem_filter hemax, by simpa using (List.mem_filter.1 hemax).2, hhi⟩
  · intro x hx hxk
    exact (hbound x (List.mem_filter.2 ⟨hx, by simpa using hxk⟩)).2

/-- Two events of one key with the times `2^53` and `1`: `sumTime` is `2^53`. -/
theorem sumTime_rounded_example :
    ∃ m0 m oks c s,
      SqlMonitor.Start exampleLib (fun _ => none) SqlMonitor.zero syncMode 10 10 "" false
        = some m0 ∧
      RecordAll exampleLib m0
        [exampleEvent "q" true (Float64.fin 9007199254740992) 1,
         exampleEvent "q" true (Float64.fin 1) 2] = some (m, oks) ∧
      m.sqlDigestCache = some c ∧
      c.Get (eventKey exampleLib (exampleEvent "q" true (Float64.fin 1) 2)) = some s ∧
      s.sumTime = Float64.fin 9007199254740992 ∧
      s.sumTime ≠ Float64.fin (9007199254740992 + 1) := by
  obtain ⟨m0, m, hstart, hrun, hc, _, _⟩ := sync_run exampleLib (fun _ => none)
    SqlMonitor.zero 10 10
    [exampleEvent "q" true (Float64.fin 9007199254740992) 1,
     exampleEvent "q" true (Float64.fin 1) 2] (by decide)
  have hk : eventKey exampleLib (exampleEvent "q" true (Float64.fin 1) 2) ∈
      [exampleEvent "q" true (Float64.fin 9007199254740992) 1,
       exampleEvent "q" true (Float64.fin 1) 2].map (eventKey exampleLib) := by
    simp [eventKey, exampleEvent]
  obtain ⟨s, hget, _, hsum⟩ := times_per_key exampleLib (cacheCapacity 10)
    [exampleEvent "q" true (Float64.fin 9007199254740992) 1,
     exampleEvent "q" true (Float64.fin 1) 2] (Or.inr (by decide))
    (eventKey exampleLib (exampleEvent "q" true (Float64.fin 1) 2)) hk
  have hf : ([exampleEvent "q" true (Float64.fin 9007199254740992) 1,
      exampleEvent "q" true (Float64.fin 1) 2].filter
        (fun e => decide (eventKey exampleLib e =
          eventKey exampleLib (exampleEvent "q" true (Float64.fin 1) 2)))).map
      (fun e => e.ExecTime) = [Float64.fin 9007199254740992, Float64.fin 1] := by
    simp [eventKey, exampleEvent]
  have hadd : Float64.sumList [Float64.fin 9007199254740992, Float64.fin 1] =
      Float64.nearest (9007199254740992 + 1) := by
    rw [Float64.sumList_pair, Float64.add_fin]
  have hs : s.sumTime = Float64.fin 9007199254740992 := by
    rw [hsum, hf, hadd, Float64.nearest_tie]
  refine ⟨m0, m, _, _, s, hstart, hrun, hc, hget, hs, ?_⟩
  rw [hs]
  intro h
  have h1 := Float64.fin.inj h
  norm_num at h1

/-- An event with the time NaN, then an event of the same key with the time `1`:
`minTime` and `maxTime` stay NaN. -/
theorem times_nan_example :
    ∃ m0 m oks c s,
      SqlMonitor.Start exampleLib (fun _ => none) SqlMonitor.zero syncMode 10 10 "" false
        = some m0 ∧
      RecordAll exampleLib m0
        [exampleEvent "q" true Float64.nan 1, exampleEvent "q" true (Float64.fin 1) 2]
        = some (m, oks) ∧
      m.sqlDigestCache = some c ∧
      c.Get (eventKey exampleLib (exampleEvent "q" true (Float64.fin 1) 2)) = some s ∧
      s.minTime = Float64.nan ∧ s.maxTime = Float64.nan ∧
      Float64.le s.minTime (Float64.fin 1) = false ∧
      Float64.le (Float64.fin 1) s.maxTime = false :=
  ⟨_, _, _, _, _, rfl, rfl, rfl, rfl, by decide, by decide, by decide, by decide⟩

/-- C3, as stated, fails.  Two events of one key with the times `2^53` and `1` leave
`sumTime = 2^53`, because the float64 addition rounds `2^53 + 1` to `2^53`: this is not
the sum of the two times.  An event with the time NaN followed by an event of the same
key with the time `1` leaves `minTime` and `maxTime` at NaN, which is the time of the
first event but is neither at most nor at least `1`. -/
theorem C3_rounding_and_nan_counterexample :
    (∃ m0 m oks c s,
      SqlMonitor.Start exampleLib (fun _ => none) SqlMonitor.zero syncMode 10 10 "" false
        = some m0 ∧
      RecordAll exampleLib m0
        [exampleEvent "q" true (Float64.fin 9007199254740992) 1,
         exampleEvent "q" true (Float64.fin 1) 2] = some (m, oks) ∧
      m.sqlDigestCache = some c ∧
      c.Get (eventKey exampleLib (exampleEvent "q" true (Float64.fin 1) 2)) = some s ∧
      s.sumTime = Float64.fin 9007199254740992 ∧
      s.sumTime ≠ Float64.fin (9007199254740992 + 1)) ∧
    (∃ m0 m oks c s,
      SqlMonitor.Start exampleLib (fun _ => none) SqlMonitor.zero syncMode 10 10 "" false
        = some m0 ∧
      RecordAll exampleLib m0
        [exampleEvent "q" true Float64.nan 1, exampleEvent "q" true (Float64.fin 1) 2]
        = some (m, oks) ∧
      m.sqlDigestCache = some c ∧
      c.Get (eventKey exampleLib (exampleEvent "q" true (Float64.fin 1) 2)) = some s ∧
      s.minTime = Float64.nan ∧ s.maxTime = Float64.nan ∧
      Float64.le s.minTime (Float64.fin 1) = false ∧
      Float64.le (Float64.fin 1) s.maxTime = false) :=
  ⟨sumTime_rounded_example, times_nan_example⟩

/-- C3, amended. In inline mode, from a `Start` with an empty storage path and the
filter off, when the distinct keys of the recorded events fit in the cache capacity, for
every key `k` occurring in the sequence: if no event of key `k` has the time NaN,
`minTime` of the record of `k` is the time of one of these events and is at most the
time of each of them, and `maxTime` is the time of one of them and at least each of
them; `sumTime` is the float64 sum of their times accumulated in arrival order, each
addition rounded to the nearest float64; and when the times are finite and no addition
rounds, `sumTime` is their exact sum. -/
theorem C3_times_per_key (L : Lib) (fs : String → Option String) (recv : SqlMonitor)
    (cacheSize chanSize : Int) (events : List SqlExecInfo) (hch : 0 ≤ chanSize)
    (hfit : cacheCapacity cacheSize = 0 ∨
      (((events.map (eventKey L)).dedup.length : Int) ≤ cacheCapacity cacheSize)) :
    ∃ m0 m oks c,
      SqlMonitor.Start L fs recv syncMode cacheSize chanSize "" false = some m0 ∧
      RecordAll L m0 events = some (m, oks) ∧ m.sqlDigestCache = some c ∧
      ∀ k ∈ events.map (eventKey L), ∃ s, c.Get k = some s ∧
        ((∀ e ∈ events, eventKey L e = k → e.ExecTime ≠ Float64.nan) →
          (∃ e ∈ events, eventKey L e = k ∧ s.minTime = e.ExecTime) ∧
          (∀ e ∈ events, eventKey L e = k → Float64.le s.minTime e.ExecTime = true) ∧
          (∃ e ∈ events, eventKey L e = k ∧ s.maxTime = e.ExecTime) ∧
          (∀ e ∈ events, eventKey L e = k → Float64.le e.ExecTime s.maxTime = true)) ∧
        s.sumTime = Float64.sumList
          ((events.filter (fun e => decide (eventKey L e = k))).map (fun e => e.ExecTime)) ∧
        (∀ (q0 : ℚ) (qs : List ℚ),
          (events.filter (fun e => decide (eventKey L e = k))).map (fun e => e.ExecTime) =
            (q0 :: qs).map Float64.fin →
          Float64.exactFrom q0 qs → s.sumTime = Float64.fin (q0 + qs.sum)) := by
  obtain ⟨m0, m, hstart, hrun, hc, _, _⟩ := sync_run L fs recv cacheSize chanSize events hch
  refine ⟨m0, m, _, _, hstart, hrun, hc, ?_⟩
  intro k hk
  obtain ⟨s, hget, hmm, hsum⟩ := times_per_key L (cacheCapacity cacheSize) events hfit k hk
  refine ⟨s, hget, hmm, hsum, ?_⟩
  intro q0 qs hq hex
  rw [hsum, hq]
  exact foldl_add_exact qs q0 hex

/-- Witness of C3, amended: three events on two keys in a cache of capacity 10. -/
theorem C3_times_per_key_witness :
    (0 : Int) ≤ 10 ∧
    (cacheCapacity 10 = 0 ∨
      ((([exampleEvent "a" true (Float64.fin 7) 1, exampleEvent "b" true (Float64.fin 2) 2,
          exampleEvent "a" true (Float64.fin 3) 3].map (eventKey exampleLib)).dedup.length : Int)
        ≤ cacheCapacity 10)) ∧
    ∃ m0 m oks c,
      SqlMonitor.Start exampleLib (fun _ => none) SqlMonitor.zero syncMode 10 10 "" false
        = some m0 ∧
      RecordAll exampleLib m0
        [exampleEvent "a" true (Float64.fin 7) 1, exampleEvent "b" true (Float64.fin 2) 2,
         exampleEvent "a" true (Float64.fin 3) 3] = some (m, oks) ∧
      m.sqlDigestCache = some c ∧
      ∀ k ∈ [exampleEvent "a" true (Float64.fin 7) 1, exampleEvent "b" true (Float64.fin 2) 2,
             exampleEvent "a" true (Float64.fin 3) 3].map (eventKey exampleLib),
        ∃ s, c.Get k = some s ∧
          ((∀ e ∈ [exampleEvent "a" true (Float64.fin 7) 1,
              exampleEvent "b" true (Float64.fin 2) 2, exampleEvent "a" true (Float64.fin 3) 3],
            eventKey exampleLib e = k → e.ExecTime ≠ Float64.nan) →
            (∃ e ∈ [exampleEvent "a" true (Float64.fin 7) 1,
                exampleEvent "b" true (Float64.fin 2) 2, exampleEvent "a" true (Float64.fin 3) 3],
              eventKey exampleLib e = k ∧ s.minTime = e.ExecTime) ∧
            (∀ e ∈ [exampleEvent "a" true (Float64.fin 7) 1,
                exampleEvent "b" true (Float64.fin 2) 2, exampleEvent "a" true (Float64.fin 3) 3],
              eventKey exampleLib e = k → Float64.le s.minTime e.ExecTime = true) ∧
            (∃ e ∈ [exampleEvent "a" true (Float64.fin 7) 1,
                exampleEvent "b" true (Float64.fin 2) 2, exampleEvent "a" true (Float64.fin 3) 3],
              eventKey exampleLib e = k ∧ s.maxTime = e.ExecTime) ∧
            (∀ e ∈ [exampleEvent "a" true (Float64.fin 7) 1,
                exampleEvent "b" true (Float64.fin 2) 2, exampleEvent "a" true (Float64.fin 3) 3],
              eventKey exampleLib e = k → Float64.le e.ExecTime s.maxTime = true)) ∧
          s.sumTime = Float64.sumList
            (([exampleEvent "a" true (Float64.fin 7) 1, exampleEvent "b" true (Float64.fin 2) 2,
                exampleEvent "a" true (Float64.fin 3) 3].filter
                  (fun e => decide (eventKey exampleLib e = k))).map (fun e => e.ExecTime)) ∧
          (∀ (q0 : ℚ) (qs : List ℚ),
            ([exampleEvent "a" true (Float64.fin 7) 1, exampleEvent "b" true (Float64.fin 2) 2,
                exampleEvent "a" true (Float64.fin 3) 3].filter
                  (fun e => decide (eventKey exampleLib e = k))).map (fun e => e.ExecTime) =
              (q0 :: qs).map Float64.fin →
            Float64.exactFrom q0 qs → s.sumTime = Float64.fin (q0 + qs.sum)) :=
  ⟨by decide, by decide,
    C3_times_per_key exampleLib (fun _ => none) SqlMonitor.zero 10 10
      [exampleEvent "a" true (Float64.fin 7) 1, exampleEvent "b" true (Float64.fin 2) 2,
       exampleEvent "a" true (Float64.fin 3) 3] (by decide) (by decide)⟩

/-- The sum of the times `7` and `3` of one key is exact: no addition rounds. -/
theorem sumTime_exact_example :
    Float64.exactFrom 7 [3] ∧
    Float64.sumList [Float64.fin 7, Float64.fin 3] = Float64.fin 10 := by
  have h : Float64.nearest ((7 : ℚ) + 3) = Float64.fin ((7 : ℚ) + 3) := by
    have h1 := Float64.nearest_natCast 10 (by norm_num)
    norm_num at h1 ⊢
    exact h1
  refine ⟨⟨h, trivial⟩, ?_⟩
  have h2 : Float64.sumList [Float64.fin 7, Float64.fin 3] =
      Float64.nearest ((7 : ℚ) + 3) := by
    rw [Float64.sumList_pair, Float64.add_fin]
  rw [h2, h]
  norm_num

/-- C5, evaluated where it fails. Two events of one key are recorded in inline mode, the
first with `SeenTime = 5`, the second with `SeenTime = 3`: the record keeps
`firstSeen = 5`, which is not the smallest timestamp of the key. -/
theorem C5_firstSeen_out_of_order :
    ∃ m0 m oks c s,
      SqlMonitor.Start exampleLib (fun _ => none) SqlMonitor.zero syncMode 10 10 "" false
        = some m0 ∧
      RecordAll exampleLib m0
        [exampleEvent "q" true (Float64.fin 1) 5, exampleEvent "q" true (Float64.fin 1) 3]
        = some (m, oks) ∧
      m.sqlDigestCache = some c ∧
      c.Get (eventKey exampleLib (exampleEvent "q" true (Float64.fin 1) 3)) = some s ∧
      s.firstSeen = 5 ∧ s.lastSeen = 5 ∧ s.countStar = 2 :=
  ⟨_, _, _, _, _, rfl, rfl, rfl, rfl, by decide, by decide, by decide⟩

/-- C6. In inline mode, from a `Start` with an empty storage path and the filter off,
when the distinct keys of the recorded events fit in the cache capacity, for every key
`k` occurring in the sequence `lastSeen` of the record of `k` is the `SeenTime` of one of
the events with key `k` and is at least the `SeenTime` of each of them, in whatever order
they arrive; and an update never lowers `lastSeen`. -/
theorem C6_lastSeen_per_key (L : Lib) (fs : String → Option String) (recv : SqlMonitor)
    (cacheSize chanSize : Int) (events : List SqlExecInfo) (hch : 0 ≤ chanSize)
    (hfit : cacheCapacity cacheSize = 0 ∨
      (((events.map (eventKey L)).dedup.length : Int) ≤ cacheCapacity cacheSize)) :
    (∃ m0 m oks c,
      SqlMonitor.Start L fs recv syncMode cacheSize chanSize "" false = some m0 ∧
      RecordAll L m0 events = some (m, oks) ∧ m.sqlDigestCache = some c ∧
      ∀ k ∈ events.map (eventKey L), ∃ s, c.Get k = some s ∧
        (∃ e ∈ events, eventKey L e = k ∧ s.lastSeen = e.SeenTime) ∧
        (∀ e ∈ events, eventKey L e = k → e.SeenTime ≤ s.lastSeen)) ∧
    ∀ (s : SqlStats) (e : SqlExecInfo), s.lastSeen ≤ (updateStats s e).lastSeen := by
  constructor
  · obtain ⟨m0, m, hstart, hrun, hc, _, _⟩ := sync_run L fs recv cacheSize chanSize events hch
    refine ⟨m0, m, _, _, hstart, hrun, hc, ?_⟩
    intro k hk
    obtain ⟨s, hget, ⟨e1, he1, hat⟩, hbound⟩ := aggregate_records L
      (fun es s => (∃ e ∈ es, s.lastSeen = e.SeenTime) ∧ ∀ e ∈ es, e.SeenTime ≤ s.lastSeen)
      (by
        intro e
        rw [newStats_lastSeen]
        exact ⟨⟨e, by simp, rfl⟩, by simp⟩)
      (by
        intro es s e _ hP
        obtain ⟨⟨e1, he1, hat⟩, hbound⟩ := hP
        rw [updateStats_lastSeen]
        by_cases hgt : e.SeenTime > s.lastSeen
        · rw [if_pos hgt]
          refine ⟨⟨e, by simp, rfl⟩, ?_⟩
          intro x hx
          rcases List.mem_append.1 hx with hx | hx
          · have := hbound x hx
            omega
          · rw [List.mem_singleton] at hx
            subst hx
            exact le_refl _
        · rw [if_neg hgt]
          refine ⟨⟨e1, List.mem_append_left _ he1, hat⟩, ?_⟩
          intro x hx
          rcases List.mem_append.1 hx with hx | hx
          · exact hbound x hx
          · rw [List.mem_singleton] at hx
            subst hx
            omega)
      (cacheCapacity cacheSize) events hfit k hk
    refine ⟨s, hget, ⟨e1, List.mem_of_mem_filter he1, ?_, hat⟩, ?_⟩
    · simpa using (List.mem_filter.1 he1).2
    · intro x hx hxk
      exact hbound x (List.mem_filter.2 ⟨hx, by simpa using hxk⟩)
  · intro s e
    rw [updateStats_lastSeen]
    split_ifs with h
    · omega
    · exact le_refl _

/-- Witness of C6: the later event of key `a` carries the older timestamp. -/
theorem C6_lastSeen_per_key_witness :
    (0 : Int) ≤ 10 ∧
    (cacheCapacity 10 = 0 ∨
      ((([exampleEvent "a" true (Float64.fin 7) 9, exampleEvent "b" true (Float64.fin 2) 2,
          exampleEvent "a" true (Float64.fin 3) 3].map (eventKey exampleLib)).dedup.length : Int)
        ≤ cacheCapacity 10)) ∧
    ((∃ m0 m oks c,
      SqlMonitor.Start exampleLib (fun _ => none) SqlMonitor.zero syncMode 10 10 "" false
        = some m0 ∧
      RecordAll exampleLib m0
        [exampleEvent "a" true (Float64.fin 7) 9, exampleEvent "b" true (Float64.fin 2) 2,
         exampleEvent "a" true (Float64.fin 3) 3] = some (m, oks) ∧
      m.sqlDigestCache = some c ∧
      ∀ k ∈ [exampleEvent "a" true (Float64.fin 7) 9, exampleEvent "b" true (Float64.fin 2) 2,
             exampleEvent "a" true (Float64.fin 3) 3].map (eventKey exampleLib),
        ∃ s, c.Get k = some s ∧
          (∃ e ∈ [exampleEvent "a" true (Float64.fin 7) 9,
              exampleEvent "b" true (Float64.fin 2) 2, exampleEvent "a" true (Float64.fin 3) 3],
            eventKey exampleLib e = k ∧ s.lastSeen = e.SeenTime) ∧
          (∀ e ∈ [exampleEvent "a" true (Float64.fin 7) 9,
              exampleEvent "b" true (Float64.fin 2) 2, exampleEvent "a" true (Float64.fin 3) 3],
            eventKey exampleLib e = k → e.SeenTime ≤ s.lastSeen)) ∧
    ∀ (s : SqlStats) (e : SqlExecInfo), s.lastSeen ≤ (updateStats s e).lastSeen) :=
  ⟨by decide, by decide,
    C6_lastSeen_per_key exampleLib (fun _ => none) SqlMonitor.zero 10 10
      [exampleEvent "a" true (Float64.fin 7) 9, exampleEvent "b" true (Float64.fin 2) 2,
       exampleEvent "a" true (Float64.fin 3) 3] (by decide) (by decide)⟩

/-! ## The latency counters -/

theorem lt_of_not_le_of_ne_nan (t : Float64) (c : ℚ) (hnan : t ≠ Float64.nan)
    (h : ¬ Float64.le t (Float64.fin c) = true) : Float64.lt (Float64.fin c) t = true := by
  cases t with
  | nan => exact absurd rfl hnan
  | negInf => simp [Float64.le] at h
  | posInf => rfl
  | fin q =>
    rw [Float64.le_fin] at h
    rw [Float64.lt_fin]
    exact not_le.1 h

theorem addBucket_buckets (s : SqlStats) (t : Float64) (hnan : t ≠ Float64.nan) :
    (addBucket s t).buckets = List.zipWith (· + ·) s.buckets (oneAt (specBucket t)) := by
  have e0 : oneAt 0 = [1, 0, 0, 0, 0, 0] := rfl
  have e1 : oneAt 1 = [0, 1, 0, 0, 0, 0] := rfl
  have e2 : oneAt 2 = [0, 0, 1, 0, 0, 0] := rfl
  have e3 : oneAt 3 = [0, 0, 0, 1, 0, 0] := rfl
  have e4 : oneAt 4 = [0, 0, 0, 0, 1, 0] := rfl
  have e5 : oneAt 5 = [0, 0, 0, 0, 0, 1] := rfl
  unfold addBucket specBucket Float64.ge
  by_cases h1 : Float64.le t (Float64.fin 1) = true
  · simp [h1, e0, SqlStats.buckets]
  by_cases h2 : Float64.le t (Float64.fin 10) = true
  · simp [h1, h2, e1, SqlStats.buckets]
  by_cases h3 : Float64.le t (Float64.fin 100) = true
  · simp [h1, h2, h3, e2, SqlStats.buckets]
  by_cases h4 : Float64.le t (Float64.fin 1000) = true
  · simp [h1, h2, h3, h4, e3, SqlStats.buckets]
  by_cases h5 : Float64.le t (Float64.fin 5000) = true
  · simp [h1, h2, h3, h4, h5, e4, SqlStats.buckets]
  · have h6 := lt_of_not_le_of_ne_nan t 5000 hnan h5
    simp [h1, h2, h3, h4, h5, h6, e5, SqlStats.buckets]

theorem addBucket_buckets_nan (s : SqlStats) : (addBucket s Float64.nan).buckets = s.buckets := rfl

theorem newStats_buckets (e : SqlExecInfo) (d t : String) (hnan : e.ExecTime ≠ Float64.nan) :
    (newStats e d t).buckets = oneAt (specBucket e.ExecTime) := by
  have hlen : (oneAt (specBucket e.ExecTime)).length = 6 := by simp [oneAt]
  unfold newStats
  simp only
  rw [addBucket_buckets _ _ hnan]
  cases hS : e.SuccessExec <;> simp only [Bool.not_false, Bool.not_true, if_true,
    Bool.false_eq_true, if_false, SqlStats.buckets] <;>
  · match hl : oneAt (specBucket e.ExecTime), hlen with
    | [a, b, c, d, e, f], _ => simp

theorem updateStats_buckets (s : SqlStats) (e : SqlExecInfo) (hnan : e.ExecTime ≠ Float64.nan) :
    (updateStats s e).buckets =
      List.zipWith (· + ·) s.buckets (oneAt (specBucket e.ExecTime)) := by
  unfold updateStats
  simp only
  rw [addBucket_buckets _ _ hnan]
  congr 1
  cases hS : e.SuccessExec <;> simp only [Bool.not_false, Bool.not_true, if_true,
    Bool.false_eq_true, if_false, SqlStats.buckets] <;> split_ifs <;> rfl

theorem specBucket_lt (t : Float64) : specBucket t < 6 := by
  unfold specBucket
  split_ifs <;> omega

/-- C4, where it fails: with `ExecTime = NaN` every test of the chain in `addToCache` is
false, so a new record has all six counters at `0` and an update leaves all six
unchanged. -/
theorem C4_nan_counterexample :
    (newStats (exampleEvent "q" true Float64.nan 1) "q" "q").buckets = [0, 0, 0, 0, 0, 0] ∧
    (updateStats (newStats (exampleEvent "q" true (Float64.fin 1) 1) "q" "q")
        (exampleEvent "q" true Float64.nan 2)).buckets =
      (newStats (exampleEvent "q" true (Float64.fin 1) 1) "q" "q").buckets ∧
    (updateStats (newStats (exampleEvent "q" true (Float64.fin 1) 1) "q" "q")
        (exampleEvent "q" true Float64.nan 2)).countStar = 2 := by
  decide

/-- C4, amended. For every event whose `ExecTime` is not NaN, aggregating the event
adds `1` to exactly one of the six latency counters and leaves the other five unchanged,
both in the record `addToCache` creates and in the record it updates, and the counter is
the one of the first matching rule: `<= 1`, `<= 10`, `<= 100`, `<= 1000`, `<= 5000`,
otherwise `countOthers`. -/
theorem C4_bucket_rule (e : SqlExecInfo) (d t : String) (s : SqlStats)
    (c : LRUCache String SqlStats) (hnan : e.ExecTime ≠ Float64.nan) :
    (newStats e d t).buckets = oneAt (specBucket e.ExecTime) ∧
    (updateStats s e).buckets =
      List.zipWith (· + ·) s.buckets (oneAt (specBucket e.ExecTime)) ∧
    specBucket e.ExecTime < 6 ∧
    addToCache c e d t =
      c.Add (cacheKeyOf e.DBHost e.SchemaName e.UserName d)
        (match c.Get (cacheKeyOf e.DBHost e.SchemaName e.UserName d) with
         | none => newStats e d t
         | some old => updateStats old e) := by
  refine ⟨newStats_buckets e d t hnan, updateStats_buckets s e hnan, specBucket_lt _, ?_⟩
  unfold addToCache
  cases hg : c.Get (cacheKeyOf e.DBHost e.SchemaName e.UserName d) <;> simp only [hg]

/-- Witness of C4 (amended): an execution time of 50 ms counts in `count100ms`. -/
theorem C4_bucket_rule_witness :
    (exampleEvent "q" true (Float64.fin 50) 1).ExecTime ≠ Float64.nan ∧
    ((newStats (exampleEvent "q" true (Float64.fin 50) 1) "q" "q").buckets =
        oneAt (specBucket (exampleEvent "q" true (Float64.fin 50) 1).ExecTime) ∧
     (updateStats (newStats (exampleEvent "q" true (Float64.fin 1) 1) "q" "q")
        (exampleEvent "q" true (Float64.fin 50) 1)).buckets =
      List.zipWith (· + ·) (newStats (exampleEvent "q" true (Float64.fin 1) 1) "q" "q").buckets
        (oneAt (specBucket (exampleEvent "q" true (Float64.fin 50) 1).ExecTime)) ∧
     specBucket (exampleEvent "q" true (Float64.fin 50) 1).ExecTime < 6 ∧
     addToCache (NewLRUCache String SqlStats 10) (exampleEvent "q" true (Float64.fin 50) 1) "q" "q" =
      (NewLRUCache String SqlStats 10).Add (cacheKeyOf "h" "s" "u" "q")
        (match (NewLRUCache String SqlStats 10).Get (cacheKeyOf "h" "s" "u" "q") with
         | none => newStats (exampleEvent "q" true (Float64.fin 50) 1) "q" "q"
         | some old => updateStats old (exampleEvent "q" true (Float64.fin 50) 1))) :=
  ⟨by decide,
    C4_bucket_rule (exampleEvent "q" true (Float64.fin 50) 1) "q" "q"
      (newStats (exampleEvent "q" true (Float64.fin 1) 1) "q" "q")
      (NewLRUCache String SqlStats 10) (by decide)⟩

/-! ## The invariant of the records -/

theorem addBucket_consistent (s : SqlStats) (t : Float64) (hnan : t ≠ Float64.nan) :
    (addBucket s t).count1ms + (addBucket s t).count10ms + (addBucket s t).count100ms +
      (addBucket s t).count1s + (addBucket s t).count5s + (addBucket s t).countOthers =
    s.count1ms + s.count10ms + s.count100ms + s.count1s + s.count5s + s.countOthers + 1 := by
  unfold addBucket Float64.ge
  by_cases h1 : Float64.le t (Float64.fin 1) = true
  · simp only [h1, if_true]; omega
  by_cases h2 : Float64.le t (Float64.fin 10) = true
  · simp only [h1, h2, if_true, if_false, Bool.false_eq_true]; omega
  by_cases h3 : Float64.le t (Float64.fin 100) = true
  · simp only [h1, h2, h3, if_true, if_false, Bool.false_eq_true]; omega
  by_cases h4 : Float64.le t (Float64.fin 1000) = true
  · simp only [h1, h2, h3, h4, if_true, if_false, Bool.false_eq_true]; omega
  by_cases h5 : Float64.le t (Float64.fin 5000) = true
  · simp only [h1, h2, h3, h4, h5, if_true, if_false, Bool.false_eq_true]; omega
  · have h6 := lt_of_not_le_of_ne_nan t 5000 hnan h5
    simp only [h1, h2, h3, h4, h5, h6, if_true, if_false, Bool.false_eq_true]; omega

theorem newStats_consistent (e : SqlExecInfo) (d t : String) (hnan : e.ExecTime ≠ Float64.nan) :
    (newStats e d t).countsConsistent := by
  unfold SqlStats.countsConsistent
  rw [newStats_countStar, newStats_countError]
  constructor
  · unfold newStats
    simp only
    rw [addBucket_consistent _ _ hnan]
    cases hS : e.SuccessExec <;> simp
  · cases hS : e.SuccessExec <;> simp

theorem updateStats_consistent (s : SqlStats) (e : SqlExecInfo) (hs : s.countsConsistent)
    (hnan : e.ExecTime ≠ Float64.nan) : (updateStats s e).countsConsistent := by
  unfold SqlStats.countsConsistent at hs ⊢
  rw [updateStats_countStar, updateStats_countError]
  constructor
  · unfold updateStats
    simp only
    rw [addBucket_consistent _ _ hnan, hs.1]
    cases hS : e.SuccessExec <;> simp only [Bool.not_false, Bool.not_true, if_true,
      Bool.false_eq_true, if_false] <;> split_ifs <;> rfl
  · have := hs.2
    cases hS : e.SuccessExec <;> simp <;> omega

/-- What the invariant of a run asks of one cache. -/
theorem addToCache_consistent {c : LRUCache String SqlStats} (h : c.WF)
    (hu : c.OnValueUpdate = none) (hc : ∀ p ∈ c.entries, p.2.countsConsistent)
    (e : SqlExecInfo) (d t : String) (hnan : e.ExecTime ≠ Float64.nan) :
    ∀ p ∈ (addToCache c e d t).entries, p.2.countsConsistent := by
  intro p hp
  cases hg : c.Get (cacheKeyOf e.DBHost e.SchemaName e.UserName d) with
  | some old =>
    rw [addToCache_entries_of_mem h hu e d t hg] at hp
    rcases List.mem_cons.1 hp with rfl | hp
    · exact updateStats_consistent old e (hc _ (mem_entries_of_Get h hg)) hnan
    · exact hc p (List.mem_of_mem_filter hp)
  | none =>
    have hk : cacheKeyOf e.DBHost e.SchemaName e.UserName d ∉ c.keys := by
      intro hmem
      have := (LRUCache.Get_isSome_iff h _).2 hmem
      rw [hg] at this
      simp at this
    rw [addToCache_entries_of_not_mem h hu e d t hk] at hp
    have hp2 : p ∈ (cacheKeyOf e.DBHost e.SchemaName e.UserName d, newStats e d t) :: c.entries := by
      split_ifs at hp
      · exact List.mem_of_mem_dropLast hp
      · exact hp
    rcases List.mem_cons.1 hp2 with rfl | hp2
    · exact newStats_consistent e d t hnan
    · exact hc p hp2

/-- The loop of `GetResetQueryStats` removes the `n` oldest entries, or all of them, and
returns their values oldest first. -/
theorem drainLoop_eq (n : Nat) : ∀ (c : LRUCache String SqlStats) (valList : List SqlStats),
    c.WF →
    (SqlMonitor.drainLoop n c valList).2.WF ∧
    (SqlMonitor.drainLoop n c valList).2.OnValueUpdate = c.OnValueUpdate ∧
    (SqlMonitor.drainLoop n c valList).2.MaxEntries = c.MaxEntries ∧
    (SqlMonitor.drainLoop n c valList).2.entries = c.entries.take (c.entries.length - n) ∧
    (SqlMonitor.drainLoop n c valList).1 =
      valList ++ ((c.entries.drop (c.entries.length - n)).reverse.map Prod.snd) := by
  induction n with
  | zero =>
    intro c valList h
    simp [SqlMonitor.drainLoop, h]
  | succ n ih =>
    intro c valList h
    have hfst := LRUCache.RemoveOldest_fst h
    have hent := LRUCache.RemoveOldest_entries h
    have hwf := LRUCache.RemoveOldest_WF h
    have hupd := LRUCache.RemoveOldest_OnValueUpdate c
    have hmax := LRUCache.RemoveOldest_MaxEntries c
    unfold SqlMonitor.drainLoop
    cases hr : c.RemoveOldest with
    | mk v c1 =>
      rw [hr] at hfst hent hwf hupd hmax
      simp only at hfst hent hwf hupd hmax
      cases hl : c.entries.getLast? with
      | none =>
        rw [hl] at hfst
        simp only [Option.map_none'] at hfst
        subst hfst
        have hnil : c.entries = [] := List.getLast?_eq_none_iff.1 hl
        have hnil1 : c1.entries = [] := by rw [hent, hnil]; rfl
        simp only
        refine ⟨hwf, hupd, hmax, ?_, ?_⟩
        · rw [hnil1, hnil]; simp
        · rw [hnil]; simp
      | some last =>
        rw [hl] at hfst
        simp only [Option.map_some'] at hfst
        subst hfst
        simp only
        obtain ⟨i1, i2, i3, i4, i5⟩ := ih c1 (valList ++ [last.2]) hwf
        obtain ⟨init, hinit⟩ := List.getLast?_eq_some_iff.1 hl
        have hent1 : c1.entries = init := by rw [hent, hinit]; simp
        refine ⟨i1, i2.trans hupd, i3.trans hmax, ?_, ?_⟩
        · rw [i4, hent1, hinit, List.length_append, List.length_singleton,
            Nat.add_sub_add_right, List.take_append_of_le_length (by omega)]
        · rw [i5, hent1, hinit, List.length_append, List.length_singleton,
            Nat.add_sub_add_right, List.drop_append_of_le_length (by omega)]
          simp

/-! ## The invariant along a run of the monitor -/

/-- What a run keeps true of one cache: it is well formed, has no `OnValueUpdate`
callback, and all its records are consistent. -/
theorem cacheOK_addToCache {c : LRUCache String SqlStats}
    (h : c.WF ∧ c.OnValueUpdate = none ∧ ∀ p ∈ c.entries, p.2.countsConsistent)
    (e : SqlExecInfo) (d t : String) (hnan : e.ExecTime ≠ Float64.nan) :
    (addToCache c e d t).WF ∧ (addToCache c e d t).OnValueUpdate = none ∧
      ∀ p ∈ (addToCache c e d t).entries, p.2.countsConsistent :=
  ⟨addToCache_WF h.1 e d t, (addToCache_OnValueUpdate c e d t).trans h.2.1,
    addToCache_consistent h.1 h.2.1 h.2.2 e d t hnan⟩

theorem cacheOK_SetMaxEntries {c : LRUCache String SqlStats}
    (h : c.WF ∧ c.OnValueUpdate = none ∧ ∀ p ∈ c.entries, p.2.countsConsistent)
    (n : Int) :
    (c.SetMaxEntries n).WF ∧ (c.SetMaxEntries n).OnValueUpdate = none ∧
      ∀ p ∈ (c.SetMaxEntries n).entries, p.2.countsConsistent := by
  refine ⟨LRUCache.SetMaxEntries_WF h.1 n,
    (LRUCache.SetMaxEntries_OnValueUpdate c n).trans h.2.1, ?_⟩
  intro p hp
  rw [LRUCache.SetMaxEntries_entries h.1] at hp
  exact h.2.2 p (List.mem_of_mem_take hp)

theorem cacheOK_drainLoop {c : LRUCache String SqlStats}
    (h : c.WF ∧ c.OnValueUpdate = none ∧ ∀ p ∈ c.entries, p.2.countsConsistent)
    (n : Nat) (valList : List SqlStats) :
    (SqlMonitor.drainLoop n c valList).2.WF ∧
      (SqlMonitor.drainLoop n c valList).2.OnValueUpdate = none ∧
      ∀ p ∈ (SqlMonitor.drainLoop n c valList).2.entries, p.2.countsConsistent := by
  obtain ⟨h1, h2, _, h4, _⟩ := drainLoop_eq n c valList h.1
  refine ⟨h1, h2.trans h.2.1, ?_⟩
  intro p hp
  rw [h4] at hp
  exact h.2.2 p (List.mem_of_mem_take hp)

theorem cacheOK_New (capacity : Int) :
    (NewLRUCache String SqlStats capacity).WF ∧
      (NewLRUCache String SqlStats capacity).OnValueUpdate = none ∧
      ∀ p ∈ (NewLRUCache String SqlStats capacity).entries, p.2.countsConsistent :=
  ⟨LRUCache.NewLRUCache_WF capacity, rfl, by simp [NewLRUCache, LRUCache.entries]⟩

theorem statistics_invariant (L : Lib) (m : SqlMonitor) (e : SqlExecInfo)
    (h : m.RunInvariant) (hnan : e.ExecTime ≠ Float64.nan) :
    (SqlMonitor.statistics L m e).1.RunInvariant := by
  obtain ⟨h1, h2, h3⟩ := h
  unfold SqlMonitor.statistics
  cases hc1 : m.sqlDigestCache with
  | none => exact ⟨by simp [hc1], h2, h3⟩
  | some c1 =>
    cases hc2 : m.sqlDigestResetCache with
    | none =>
      simp only [hc2]
      refine ⟨?_, by simp [hc2], h3⟩
      intro c hc
      cases hc
      exact cacheOK_addToCache (h1 c1 hc1) e _ _ hnan
    | some c2 =>
      simp only [hc2]
      refine ⟨?_, ?_, h3⟩
      · intro c hc
        cases hc
        exact cacheOK_addToCache (h1 c1 hc1) e _ _ hnan
      · intro c hc
        cases hc
        exact cacheOK_addToCache (h2 c2 hc2) e _ _ hnan

theorem enqueue_invariant (m : SqlMonitor) (ch : Chan) (e : SqlExecInfo)
    (h : m.RunInvariant) (hch : m.sqlExecInfoChan = some ch)
    (hnan : e.ExecTime ≠ Float64.nan) :
    SqlMonitor.RunInvariant
      { m with sqlExecInfoChan := some { ch with buf := ch.buf ++ [e] } } := by
  obtain ⟨h1, h2, h3⟩ := h
  refine ⟨h1, h2, ?_⟩
  intro ch1 hch1 x hx
  cases hch1
  rcases List.mem_append.1 hx with hx | hx
  · exact h3 ch hch x hx
  · rw [List.mem_singleton] at hx
    exact hx ▸ hnan

theorem Record_invariant (L : Lib) (m m1 : SqlMonitor) (e : SqlExecInfo) (ok : Bool)
    (h : m.RunInvariant) (hnan : e.ExecTime ≠ Float64.nan)
    (hr : SqlMonitor.Record L m e = some (m1, ok)) : m1.RunInvariant := by
  unfold SqlMonitor.Record at hr
  split_ifs at hr with hf hfull hasync hsync
  · cases hr; exact h
  · cases hch : m.sqlExecInfoChan with
    | none => rw [hch] at hr; cases hr; exact h
    | some ch =>
      rw [hch] at hr
      simp only at hr
      split_ifs at hr
      · cases hr; exact h
      · cases hr; exact enqueue_invariant m ch e h hch hnan
      · cases hr; exact h
  · cases hch : m.sqlExecInfoChan with
    | none => rw [hch] at hr; cases hr
    | some ch =>
      rw [hch] at hr
      simp only at hr
      split_ifs at hr
      · cases hr; exact h
      · cases hr; exact enqueue_invariant m ch e h hch hnan
  · have h1 := Option.some.inj hr
    have h2 : m1 = (SqlMonitor.statistics L m e).1 := by rw [h1]
    rw [h2]
    exact statistics_invariant L m e h hnan
  · cases hr; exact h

theorem statisticsThreadRecv_invariant (L : Lib) (m m1 : SqlMonitor) (h : m.RunInvariant)
    (hr : SqlMonitor.statisticsThreadRecv L m = some m1) : m1.RunInvariant := by
  unfold SqlMonitor.statisticsThreadRecv at hr
  split_ifs at hr
  cases hch : m.sqlExecInfoChan with
  | none => rw [hch] at hr; cases hr
  | some ch =>
    rw [hch] at hr
    simp only at hr
    cases hb : ch.buf with
    | nil => rw [hb] at hr; cases hr
    | cons e rest =>
      rw [hb] at hr
      simp only at hr
      have hnan : e.ExecTime ≠ Float64.nan := h.2.2 ch hch e (by rw [hb]; simp)
      have hinv : SqlMonitor.RunInvariant
          { m with sqlExecInfoChan := some { ch with buf := rest } } := by
        refine ⟨h.1, h.2.1, ?_⟩
        intro ch1 hch1 x hx
        cases hch1
        exact h.2.2 ch hch x (by rw [hb]; exact List.mem_cons_of_mem _ hx)
      have hst := statistics_invariant L _ e hinv hnan
      cases hs : SqlMonitor.statistics L
          { m with sqlExecInfoChan := some { ch with buf := rest } } e with
      | mk m2 b =>
        rw [hs] at hr hst
        cases b with
        | true => simp only at hr; cases hr; exact hst
        | false => simp only at hr; cases hr

theorem statisticsThreadBegin_invariant (m m1 : SqlMonitor) (h : m.RunInvariant)
    (hr : SqlMonitor.statisticsThreadBegin m = some m1) : m1.RunInvariant := by
  unfold SqlMonitor.statisticsThreadBegin at hr
  split_ifs at hr
  cases hr
  exact h

theorem SetCacheSize_invariant (m m1 : SqlMonitor) (n : Int) (h : m.RunInvariant)
    (hr : SqlMonitor.SetCacheSize m n = some m1) : m1.RunInvariant := by
  unfold SqlMonitor.SetCacheSize at hr
  cases hc1 : m.sqlDigestCache with
  | none => rw [hc1] at hr; simp at hr
  | some c1 =>
    cases hc2 : m.sqlDigestResetCache with
    | none => rw [hc1, hc2] at hr; simp at hr
    | some c2 =>
      rw [hc1, hc2] at hr
      simp only at hr
      cases hr
      refine ⟨?_, ?_, h.2.2⟩
      · intro c hc
        cases hc
        exact cacheOK_SetMaxEntries (h.1 c1 hc1) n
      · intro c hc
        cases hc
        exact cacheOK_SetMaxEntries (h.2.1 c2 hc2) n

theorem GetResetQueryStats_invariant (L : Lib) (m m1 : SqlMonitor) (limit : Int)
    (r : List String × List (List String)) (h : m.RunInvariant)
    (hr : SqlMonitor.GetResetQueryStats L m limit = some (r, m1)) : m1.RunInvariant := by
  unfold SqlMonitor.GetResetQueryStats at hr
  by_cases hu : uninited = m.status
  · rw [if_pos hu] at hr
    cases hr
    exact h
  · rw [if_neg hu] at hr
    cases hc2 : m.sqlDigestResetCache with
    | none => rw [hc2] at hr; cases hr
    | some c2 =>
      rw [hc2] at hr
      simp only at hr
      have hd := cacheOK_drainLoop (h.2.1 c2 hc2) (if 0 = limit then c2.Len else limit).toNat []
      revert hr hd
      cases SqlMonitor.drainLoop (if 0 = limit then c2.Len else limit).toNat c2 [] with
      | mk v c3 =>
        intro hr hd
        simp only [Option.some.injEq, Prod.mk.injEq] at hr
        obtain ⟨_, rfl⟩ := hr
        refine ⟨h.1, ?_, h.2.2⟩
        intro c hc
        cases hc
        exact hd

theorem Start_invariant (L : Lib) (fs : String → Option String) (recv m0 : SqlMonitor)
    (mode cacheSize chanSize : Int) (successOnly : Bool)
    (hs : SqlMonitor.Start L fs recv mode cacheSize chanSize "" successOnly = some m0) :
    m0.RunInvariant := by
  unfold SqlMonitor.Start at hs
  simp only [SqlMonitor.recoverCacheFormFile, if_true] at hs
  split_ifs at hs <;> cases hs <;>
  · refine ⟨?_, ?_, ?_⟩
    · intro c hc; cases hc; exact cacheOK_New _
    · intro c hc; cases hc; exact cacheOK_New _
    · intro ch hch; cases hch; simp

theorem MonitorOp_apply_invariant (L : Lib) (m m1 : SqlMonitor) (op : MonitorOp)
    (h : m.RunInvariant) (hnan : ∀ e ∈ recordedEvents [op], e.ExecTime ≠ Float64.nan)
    (hr : op.apply L m = some m1) : m1.RunInvariant := by
  cases op with
  | record e =>
    simp only [MonitorOp.apply, Option.map_eq_some'] at hr
    obtain ⟨⟨m2, ok⟩, hrec, rfl⟩ := hr
    exact Record_invariant L m m2 e ok h (hnan e (by simp [recordedEvents])) hrec
  | workerBegin => exact statisticsThreadBegin_invariant m m1 h hr
  | workerRecv => exact statisticsThreadRecv_invariant L m m1 h hr
  | setCacheSize n => exact SetCacheSize_invariant m m1 n h hr
  | getQueryStats limit offset =>
    simp only [MonitorOp.apply, Option.map_eq_some'] at hr
    obtain ⟨_, _, rfl⟩ := hr
    exact h
  | getResetQueryStats limit =>
    simp only [MonitorOp.apply, Option.map_eq_some'] at hr
    obtain ⟨⟨r, m2⟩, hrec, rfl⟩ := hr
    exact GetResetQueryStats_invariant L m m2 limit r h hrec

theorem runMonitorOps_invariant (L : Lib) (ops : List MonitorOp) :
    ∀ (m m1 : SqlMonitor), m.RunInvariant →
      (∀ e ∈ recordedEvents ops, e.ExecTime ≠ Float64.nan) →
      runMonitorOps L m ops = some m1 → m1.RunInvariant := by
  induction ops with
  | nil =>
    intro m m1 h _ hr
    simp only [runMonitorOps] at hr
    cases hr
    exact h
  | cons op rest ih =>
    intro m m1 h hnan hr
    simp only [runMonitorOps] at hr
    cases ha : op.apply L m with
    | none => rw [ha] at hr; cases hr
    | some m2 =>
      rw [ha] at hr
      simp only at hr
      have hop : ∀ e ∈ recordedEvents [op], e.ExecTime ≠ Float64.nan := by
        intro e he
        apply hnan e
        cases op <;> simp_all [recordedEvents]
      have hrest : ∀ e ∈ recordedEvents rest, e.ExecTime ≠ Float64.nan := by
        intro e he
        apply hnan e
        cases op <;> simp_all [recordedEvents]
      exact ih m2 m1 (MonitorOp_apply_invariant L m m2 op h hop ha) hrest hr

/-- C2, where it fails. An event with `ExecTime = NaN` recorded in inline mode gives a
record with `countStar = 1` and all six latency counters at `0`. -/
theorem C2_nan_counterexample :
    ∃ m0 m c s,
      SqlMonitor.Start exampleLib (fun _ => none) SqlMonitor.zero syncMode 10 10 "" false
        = some m0 ∧
      runMonitorOps exampleLib m0 [MonitorOp.record (exampleEvent "q" true Float64.nan 1)]
        = some m ∧
      m.sqlDigestCache = some c ∧
      c.entries = [(eventKey exampleLib (exampleEvent "q" true Float64.nan 1), s)] ∧
      s.countStar = 1 ∧ s.buckets = [0, 0, 0, 0, 0, 0] ∧ ¬ s.countsConsistent :=
  ⟨_, _, _, _, rfl, rfl, rfl, rfl, by decide, by decide, by decide⟩

/-- C2, amended. In every state reached from a `Start` with an empty storage path by a
sequence of `Record` calls of events whose `ExecTime` is not NaN (aggregation applied one
event at a time, inline or by the background worker), `SetCacheSize`, `GetQueryStats`
and `GetResetQueryStats` calls, every record in the rolling cache and in the drain cache
has `countStar` equal to the sum of its six latency counters and at least
`countError`. -/
theorem C2_counts_consistent (L : Lib) (fs : String → Option String) (recv m0 m : SqlMonitor)
    (mode cacheSize chanSize : Int) (successOnly : Bool) (ops : List MonitorOp)
    (hstart : SqlMonitor.Start L fs recv mode cacheSize chanSize "" successOnly = some m0)
    (hrun : runMonitorOps L m0 ops = some m)
    (hnan : ∀ e ∈ recordedEvents ops, e.ExecTime ≠ Float64.nan) :
    (∀ c, m.sqlDigestCache = some c → ∀ p ∈ c.entries, p.2.countsConsistent) ∧
    (∀ c, m.sqlDigestResetCache = some c → ∀ p ∈ c.entries, p.2.countsConsistent) := by
  have hinv := runMonitorOps_invariant L ops m0 m
    (Start_invariant L fs recv m0 mode cacheSize chanSize successOnly hstart) hnan hrun
  exact ⟨fun c hc => (hinv.1 c hc).2.2, fun c hc => (hinv.2.1 c hc).2.2⟩

/-- Witness of C2 (amended): a run in drop-on-full mode with a worker, a resize and a
drain. -/
theorem C2_counts_consistent_witness :
    ∃ m0 m,
      SqlMonitor.Start exampleLib (fun _ => none) SqlMonitor.zero fullAsyncMode 10 10 "" false
        = some m0 ∧
      runMonitorOps exampleLib m0
        [MonitorOp.workerBegin, MonitorOp.record (exampleEvent "a" true (Float64.fin 3) 1),
         MonitorOp.record (exampleEvent "b" false (Float64.fin 7000) 2), MonitorOp.workerRecv,
         MonitorOp.workerRecv, MonitorOp.setCacheSize 1, MonitorOp.getQueryStats 0 0,
         MonitorOp.getResetQueryStats 1] = some m ∧
      (∀ e ∈ recordedEvents
        [MonitorOp.workerBegin, MonitorOp.record (exampleEvent "a" true (Float64.fin 3) 1),
         MonitorOp.record (exampleEvent "b" false (Float64.fin 7000) 2), MonitorOp.workerRecv,
         MonitorOp.workerRecv, MonitorOp.setCacheSize 1, MonitorOp.getQueryStats 0 0,
         MonitorOp.getResetQueryStats 1], e.ExecTime ≠ Float64.nan) ∧
      ((∀ c, m.sqlDigestCache = some c → ∀ p ∈ c.entries, p.2.countsConsistent) ∧
       (∀ c, m.sqlDigestResetCache = some c → ∀ p ∈ c.entries, p.2.countsConsistent)) :=
  ⟨_, _, rfl, rfl, by decide,
    C2_counts_consistent exampleLib (fun _ => none) SqlMonitor.zero _ _ fullAsyncMode 10 10 false
      [MonitorOp.workerBegin, MonitorOp.record (exampleEvent "a" true (Float64.fin 3) 1),
       MonitorOp.record (exampleEvent "b" false (Float64.fin 7000) 2), MonitorOp.workerRecv,
       MonitorOp.workerRecv, MonitorOp.setCacheSize 1, MonitorOp.getQueryStats 0 0,
       MonitorOp.getResetQueryStats 1] rfl rfl (by decide)⟩

/-! ## Consistency in every reachable state -/

section
variable {K V : Type} [DecidableEq K]

/-- Every call of a method keeps the recency list and the lookup index consistent. -/
theorem CacheOp_apply_WF (c : LRUCache K V) (op : CacheOp K V) (h : c.WF) :
    (CacheOp.apply c op).WF := by
  cases op with
  | add key value => exact LRUCache.Add_WF h key value
  | remove key => exact LRUCache.Remove_WF h key
  | removeOldest => exact LRUCache.RemoveOldest_WF h
  | clear => exact LRUCache.Clear_WF c
  | setMaxEntries n => exact LRUCache.SetMaxEntries_WF h n

/-- Every cache reached from `NewLRUCache` through the methods is consistent. -/
theorem runCacheOps_WF (maxEntries : Int) (ops : List (CacheOp K V)) :
    (runCacheOps (NewLRUCache K V maxEntries) ops).WF := by
  have hgen : ∀ (ops : List (CacheOp K V)) (c : LRUCache K V), c.WF → (runCacheOps c ops).WF := by
    intro ops
    induction ops with
    | nil => intro c h; exact h
    | cons op rest ih => intro c h; exact ih (CacheOp.apply c op) (CacheOp_apply_WF c op h)
  exact hgen ops _ (LRUCache.NewLRUCache_WF maxEntries)

end

/-! ## Claims about the cache -/

theorem length_filter_ne_of_nodup_map {α β : Type} [DecidableEq β] (f : α → β) :
    ∀ (l : List α), (l.map f).Nodup → ∀ x ∈ l,
      (l.filter (fun y => decide (f y ≠ f x))).length + 1 = l.length := by
  intro l
  induction l with
  | nil => intro _ x hx; simp at hx
  | cons a t ih =>
    intro hnd x hx
    rw [List.map_cons, List.nodup_cons] at hnd
    rcases List.mem_cons.1 hx with rfl | hmem
    · have hall : t.filter (fun y => decide (f y ≠ f x)) = t := by
        rw [List.filter_eq_self]
        intro y hy
        simp only [ne_eq, decide_not, Bool.not_eq_true', decide_eq_false_iff_not]
        intro hfy
        exact hnd.1 (hfy ▸ List.mem_map_of_mem f hy)
      rw [List.filter_cons, if_neg (by simp), hall, List.length_cons]
    · have hne : f a ≠ f x := by
        intro h
        exact hnd.1 (h ▸ List.mem_map_of_mem f hmem)
      simp only [List.filter_cons, ne_eq, hne, not_false_eq_true, decide_True, if_true,
        List.length_cons]
      have := ih hnd.2 x hmem
      simp only [ne_eq] at this
      omega

section
variable {K V : Type} [DecidableEq K]

theorem Add_Len_of_mem {c : LRUCache K V} (hwf : c.WF) (hu : c.OnValueUpdate = none)
    {key : K} (hk : key ∈ c.keys) (value : V) : (c.Add key value).Len = c.Len := by
  rw [LRUCache.Len_eq_length (LRUCache.Add_WF hwf key value), LRUCache.Len_eq_length hwf,
    LRUCache.Add_entries_of_mem hwf hu hk value]
  rw [LRUCache.keys_eq_map_entries] at hk
  obtain ⟨p, hp, rfl⟩ := List.mem_map.1 hk
  have := length_filter_ne_of_nodup_map (Prod.fst : K × V → K) c.entries
    (by rw [← LRUCache.keys_eq_map_entries]; exact hwf.nodup_keys) p hp
  rw [List.length_cons]
  exact_mod_cast this

/-- C7. For a cache whose list and index are consistent, with `MaxEntries >= 0` and no
`OnValueUpdate` callback, `Add(key, value)` gives: when the key is present, the entry
`(key, value)` followed by the other entries in their previous order, the same size, and
no call of `OnEvicted`; when the key is absent, `(key, value)` in front of the previous
entries, from which the last one is removed and passed to `OnEvicted` (when set) exactly
when `MaxEntries != 0` and the new size exceeds `MaxEntries`. -/
theorem C7_Add_spec (c : LRUCache K V) (key : K) (value : V) (hwf : c.WF)
    (hmax : 0 ≤ c.MaxEntries) (hu : c.OnValueUpdate = none) :
    (key ∈ c.keys →
      (c.Add key value).entries =
        (key, value) :: c.entries.filter (fun p => decide (p.1 ≠ key)) ∧
      (c.Add key value).Len = c.Len ∧ (c.Add key value).OnEvicted = c.OnEvicted) ∧
    (key ∉ c.keys →
      ((c.MaxEntries ≠ 0 ∧ c.Len + 1 > c.MaxEntries) →
        ∃ last, c.entries.getLast? = some last ∧
          (c.Add key value).entries = (key, value) :: c.entries.dropLast ∧
          (c.Add key value).OnEvicted = c.OnEvicted.map (fun calls => calls ++ [last])) ∧
      (¬ (c.MaxEntries ≠ 0 ∧ c.Len + 1 > c.MaxEntries) →
        (c.Add key value).entries = (key, value) :: c.entries ∧
        (c.Add key value).OnEvicted = c.OnEvicted)) := by
  have hlen := LRUCache.Len_eq_length hwf
  constructor
  · intro hk
    have hent := LRUCache.Add_entries_of_mem hwf hu hk value
    exact ⟨hent, Add_Len_of_mem hwf hu hk value, LRUCache.Add_OnEvicted_of_mem hwf hk value⟩
  · intro hk
    have hent := LRUCache.Add_entries_of_not_mem hwf hu hk value
    have hev := LRUCache.Add_OnEvicted_of_not_mem hwf hu hk value
    rw [← hlen] at hent hev
    constructor
    · intro hc
      rw [if_pos hc] at hent hev
      have hne : c.entries ≠ [] := by
        intro hnil
        rw [hlen, hnil] at hc
        simp only [List.length_nil, Nat.cast_zero, zero_add] at hc
        omega
      obtain ⟨last, hlast⟩ := Option.isSome_iff_exists.1 (List.getLast?_isSome.2 hne)
      refine ⟨last, hlast, ?_, ?_⟩
      · rw [hent, List.dropLast_cons_of_ne_nil hne]
      · rw [hev]
        have : ((key, value) :: c.entries).getLast? = some last := by
          rw [List.getLast?_cons, hlast]
          rfl
        rw [this]
        rfl
    · intro hc
      rw [if_neg hc] at hent hev
      exact ⟨hent, hev⟩

/-- Witness of C7: a full cache of capacity 2 receives a third key. -/
theorem C7_Add_spec_witness :
    (((NewLRUCache String Nat 2).Add "a" 1).Add "b" 2).WF ∧
    0 ≤ (((NewLRUCache String Nat 2).Add "a" 1).Add "b" 2).MaxEntries ∧
    (((NewLRUCache String Nat 2).Add "a" 1).Add "b" 2).OnValueUpdate = none ∧
    (("c" ∈ (((NewLRUCache String Nat 2).Add "a" 1).Add "b" 2).keys →
      ((((NewLRUCache String Nat 2).Add "a" 1).Add "b" 2).Add "c" 3).entries =
        ("c", 3) :: (((NewLRUCache String Nat 2).Add "a" 1).Add "b" 2).entries.filter
          (fun p => decide (p.1 ≠ "c")) ∧
      ((((NewLRUCache String Nat 2).Add "a" 1).Add "b" 2).Add "c" 3).Len =
        (((NewLRUCache String Nat 2).Add "a" 1).Add "b" 2).Len ∧
      ((((NewLRUCache String Nat 2).Add "a" 1).Add "b" 2).Add "c" 3).OnEvicted =
        (((NewLRUCache String Nat 2).Add "a" 1).Add "b" 2).OnEvicted) ∧
    ("c" ∉ (((NewLRUCache String Nat 2).Add "a" 1).Add "b" 2).keys →
      (((((NewLRUCache String Nat 2).Add "a" 1).Add "b" 2).MaxEntries ≠ 0 ∧
          (((NewLRUCache String Nat 2).Add "a" 1).Add "b" 2).Len + 1 >
            (((NewLRUCache String Nat 2).Add "a" 1).Add "b" 2).MaxEntries) →
        ∃ last, (((NewLRUCache String Nat 2).Add "a" 1).Add "b" 2).entries.getLast? = some last ∧
          ((((NewLRUCache String Nat 2).Add "a" 1).Add "b" 2).Add "c" 3).entries =
            ("c", 3) :: (((NewLRUCache String Nat 2).Add "a" 1).Add "b" 2).entries.dropLast ∧
          ((((NewLRUCache String Nat 2).Add "a" 1).Add "b" 2).Add "c" 3).OnEvicted =
            (((NewLRUCache String Nat 2).Add "a" 1).Add "b" 2).OnEvicted.map
              (fun calls => calls ++ [last])) ∧
      (¬ ((((NewLRUCache String Nat 2).Add "a" 1).Add "b" 2).MaxEntries ≠ 0 ∧
          (((NewLRUCache String Nat 2).Add "a" 1).Add "b" 2).Len + 1 >
            (((NewLRUCache String Nat 2).Add "a" 1).Add "b" 2).MaxEntries) →
        ((((NewLRUCache String Nat 2).Add "a" 1).Add "b" 2).Add "c" 3).entries =
          ("c", 3) :: (((NewLRUCache String Nat 2).Add "a" 1).Add "b" 2).entries ∧
        ((((NewLRUCache String Nat 2).Add "a" 1).Add "b" 2).Add "c" 3).OnEvicted =
          (((NewLRUCache String Nat 2).Add "a" 1).Add "b" 2).OnEvicted))) :=
  ⟨by decide, by decide, rfl,
    C7_Add_spec (((NewLRUCache String Nat 2).Add "a" 1).Add "b" 2) "c" 3 (by decide) (by decide)
      rfl⟩

theorem cacheOp_invariant (c : LRUCache K V) (op : CacheOp K V) (hop : op.nonneg)
    (h : c.WF ∧ c.OnValueUpdate = none ∧ 0 ≤ c.MaxEntries ∧
      (c.MaxEntries = 0 ∨ c.Len ≤ c.MaxEntries)) :
    (CacheOp.apply c op).WF ∧ (CacheOp.apply c op).OnValueUpdate = none ∧
      0 ≤ (CacheOp.apply c op).MaxEntries ∧
      ((CacheOp.apply c op).MaxEntries = 0 ∨
        (CacheOp.apply c op).Len ≤ (CacheOp.apply c op).MaxEntries) := by
  obtain ⟨hwf, hu, hmax, hb⟩ := h
  have hlen := LRUCache.Len_eq_length hwf
  cases op with
  | add key value =>
    have hwf1 := LRUCache.Add_WF hwf key value
    refine ⟨hwf1, (LRUCache.Add_OnValueUpdate c key value).trans hu, ?_, ?_⟩
    · show 0 ≤ (c.Add key value).MaxEntries
      rw [LRUCache.Add_MaxEntries]; exact hmax
    · show (c.Add key value).MaxEntries = 0 ∨ (c.Add key value).Len ≤ (c.Add key value).MaxEntries
      rw [LRUCache.Add_MaxEntries, LRUCache.Len_eq_length hwf1]
      by_cases hk : key ∈ c.keys
      · have := Add_Len_of_mem hwf hu hk value
        rw [LRUCache.Len_eq_length hwf1] at this
        rw [this]
        exact hb
      · rw [LRUCache.Add_entries_of_not_mem hwf hu hk value]
        rw [hlen] at hb
        split_ifs with hc
        · rcases hb with hb | hb
          · exact absurd hb hc.1
          · right
            simp only [List.length_dropLast, List.length_cons, Nat.add_sub_cancel]
            exact hb
        · by_cases h0 : c.MaxEntries = 0
          · exact Or.inl h0
          · right
            simp only [List.length_cons, Nat.cast_add, Nat.cast_one]
            have : ¬ ((c.entries.length : Int) + 1 > c.MaxEntries) := fun hgt => hc ⟨h0, hgt⟩
            omega
  | remove key =>
    have hwf1 := LRUCache.Remove_WF hwf key
    refine ⟨hwf1, (LRUCache.Remove_OnValueUpdate c key).trans hu, ?_, ?_⟩
    · show 0 ≤ (c.Remove key).MaxEntries
      rw [LRUCache.Remove_MaxEntries]; exact hmax
    · show (c.Remove key).MaxEntries = 0 ∨ (c.Remove key).Len ≤ (c.Remove key).MaxEntries
      rw [LRUCache.Remove_MaxEntries, LRUCache.Len_eq_length hwf1,
        LRUCache.Remove_entries hwf key]
      rcases hb with hb | hb
      · exact Or.inl hb
      · right
        have := List.length_filter_le (fun p : K × V => decide (p.1 ≠ key)) c.entries
        rw [hlen] at hb
        omega
  | removeOldest =>
    have hwf1 := LRUCache.RemoveOldest_WF hwf
    refine ⟨hwf1, (LRUCache.RemoveOldest_OnValueUpdate c).trans hu, ?_, ?_⟩
    · show 0 ≤ c.RemoveOldest.2.MaxEntries
      rw [LRUCache.RemoveOldest_MaxEntries]; exact hmax
    · show c.RemoveOldest.2.MaxEntries = 0 ∨ c.RemoveOldest.2.Len ≤ c.RemoveOldest.2.MaxEntries
      rw [LRUCache.RemoveOldest_MaxEntries, LRUCache.Len_eq_length hwf1,
        LRUCache.RemoveOldest_entries hwf]
      rcases hb with hb | hb
      · exact Or.inl hb
      · right
        rw [hlen] at hb
        simp only [List.length_dropLast]
        omega
  | clear =>
    refine ⟨LRUCache.Clear_WF c, hu, hmax, ?_⟩
    right
    show c.Clear.Len ≤ c.MaxEntries
    rw [LRUCache.Len_eq_length (LRUCache.Clear_WF c), LRUCache.Clear_entries]
    simpa using hmax
  | setMaxEntries n =>
    have hwf1 := LRUCache.SetMaxEntries_WF hwf n
    have hn : 0 ≤ n := hop
    refine ⟨hwf1, (LRUCache.SetMaxEntries_OnValueUpdate c n).trans hu, ?_, ?_⟩
    · show 0 ≤ (c.SetMaxEntries n).MaxEntries
      rw [LRUCache.SetMaxEntries_MaxEntries]; exact hn
    · right
      show (c.SetMaxEntries n).Len ≤ (c.SetMaxEntries n).MaxEntries
      rw [LRUCache.SetMaxEntries_MaxEntries, LRUCache.Len_eq_length hwf1,
        LRUCache.SetMaxEntries_entries hwf, List.length_take]
      omega

theorem runCacheOps_invariant (ops : List (CacheOp K V)) :
    ∀ (c : LRUCache K V), (∀ op ∈ ops, op.nonneg) →
      (c.WF ∧ c.OnValueUpdate = none ∧ 0 ≤ c.MaxEntries ∧
        (c.MaxEntries = 0 ∨ c.Len ≤ c.MaxEntries)) →
      (runCacheOps c ops).WF ∧ (runCacheOps c ops).OnValueUpdate = none ∧
        0 ≤ (runCacheOps c ops).MaxEntries ∧
        ((runCacheOps c ops).MaxEntries = 0 ∨
          (runCacheOps c ops).Len ≤ (runCacheOps c ops).MaxEntries) := by
  induction ops with
  | nil => intro c _ h; exact h
  | cons op rest ih =>
    intro c hops h
    show (runCacheOps (CacheOp.apply c op) rest).WF ∧ _
    exact ih (CacheOp.apply c op) (fun o ho => hops o (List.mem_cons_of_mem _ ho))
      (cacheOp_invariant c op (hops op (List.mem_cons_self _ _)) h)

/-- C8. In every state reached from `NewLRUCache(C)`, `C >= 0`, by a sequence of `Add`,
`Remove`, `RemoveOldest`, `Clear` and `SetMaxEntries(n)` calls with `n >= 0`, the cache is
within its bound: `MaxEntries = 0` (no limit) or `Len() <= MaxEntries`. -/
theorem C8_within_bound (C : Int) (ops : List (CacheOp K V)) (hC : 0 ≤ C)
    (hops : ∀ op ∈ ops, op.nonneg) :
    (runCacheOps (NewLRUCache K V C) ops).MaxEntries = 0 ∨
      (runCacheOps (NewLRUCache K V C) ops).Len ≤
        (runCacheOps (NewLRUCache K V C) ops).MaxEntries := by
  have h0 : (NewLRUCache K V C).WF ∧ (NewLRUCache K V C).OnValueUpdate = none ∧
      0 ≤ (NewLRUCache K V C).MaxEntries ∧
      ((NewLRUCache K V C).MaxEntries = 0 ∨
        (NewLRUCache K V C).Len ≤ (NewLRUCache K V C).MaxEntries) := by
    refine ⟨LRUCache.NewLRUCache_WF C, rfl, hC, Or.inr ?_⟩
    show ((([] : List (Element K V)).length : Int)) ≤ C
    simpa using hC
  exact (runCacheOps_invariant ops (NewLRUCache K V C) hops h0).2.2.2

/-- Witness of C8: a run that fills a cache of capacity 2, shrinks it, clears it and
uses it again. -/
theorem C8_within_bound_witness :
    (0 : Int) ≤ 2 ∧
    (∀ op ∈ [CacheOp.add "a" 1, CacheOp.add "b" 2, CacheOp.add "c" 3,
        CacheOp.setMaxEntries 1, CacheOp.clear, CacheOp.add "d" 4, CacheOp.remove "d",
        CacheOp.removeOldest, CacheOp.setMaxEntries 0, CacheOp.add "e" (5 : Nat)],
      CacheOp.nonneg op) ∧
    ((runCacheOps (NewLRUCache String Nat 2)
        [CacheOp.add "a" 1, CacheOp.add "b" 2, CacheOp.add "c" 3,
         CacheOp.setMaxEntries 1, CacheOp.clear, CacheOp.add "d" 4, CacheOp.remove "d",
         CacheOp.removeOldest, CacheOp.setMaxEntries 0, CacheOp.add "e" 5]).MaxEntries = 0 ∨
      (runCacheOps (NewLRUCache String Nat 2)
        [CacheOp.add "a" 1, CacheOp.add "b" 2, CacheOp.add "c" 3,
         CacheOp.setMaxEntries 1, CacheOp.clear, CacheOp.add "d" 4, CacheOp.remove "d",
         CacheOp.removeOldest, CacheOp.setMaxEntries 0, CacheOp.add "e" 5]).Len ≤
        (runCacheOps (NewLRUCache String Nat 2)
          [CacheOp.add "a" 1, CacheOp.add "b" 2, CacheOp.add "c" 3,
           CacheOp.setMaxEntries 1, CacheOp.clear, CacheOp.add "d" 4, CacheOp.remove "d",
           CacheOp.removeOldest, CacheOp.setMaxEntries 0, CacheOp.add "e" 5]).MaxEntries) :=
  ⟨by decide, by simp [CacheOp.nonneg],
    C8_within_bound 2
      [CacheOp.add "a" 1, CacheOp.add "b" 2, CacheOp.add "c" 3,
       CacheOp.setMaxEntries 1, CacheOp.clear, CacheOp.add "d" 4, CacheOp.remove "d",
       CacheOp.removeOldest, CacheOp.setMaxEntries 0, CacheOp.add "e" 5]
      (by decide) (by simp [CacheOp.nonneg])⟩

end

/-! ## Reading the rolling cache -/

theorem GetQueryStats_eq (L : Lib) (m : SqlMonitor) (c : LRUCache String SqlStats)
    (limit offset : Int) (hs : m.status ≠ uninited) (hc : m.sqlDigestCache = some c)
    (hwf : c.WF) :
    SqlMonitor.GetQueryStats L m limit offset =
      some (columnNames,
        ((c.entries.drop offset.toNat).take
          (if 0 = limit then c.entries.length else limit.toNat)).map (fun p => rowOf L p.2)) := by
  unfold SqlMonitor.GetQueryStats
  rw [if_neg (fun h => hs h.symm), hc]
  simp only
  rw [valListToSQLStats_eq, LRUCache.GetVals_eq hwf, LRUCache.Len_eq_length hwf, List.map_map]
  congr 3
  split_ifs <;> simp

/-- C10. For a started monitor whose rolling cache holds the entries `e_0 .. e_(L-1)`,
most recent first, `GetQueryStats(limit, offset)` returns the rows of
`e_offset, e_(offset+1), ...` in that order, `min(limit, L - offset)` of them when
`limit > 0` and `L - offset` of them when `limit = 0`, and no rows when `offset >= L`
(`toNat` is the identity on `limit >= 0` and `offset >= 0`, the arguments of the claim).  The two loops of `getElementAt` stop at the same element: for every
position in the list, the walk from the front and the walk from the back both end on the
element at that position, which is the one `getElementAt` returns. -/
theorem C10_GetQueryStats_range (L : Lib) (m : SqlMonitor) (c : LRUCache String SqlStats)
    (limit offset : Int) (hs : m.status ≠ uninited) (hc : m.sqlDigestCache = some c)
    (hwf : c.WF) :
    (∃ rows, SqlMonitor.GetQueryStats L m limit offset = some (columnNames, rows) ∧
      rows = ((c.entries.drop offset.toNat).take
          (if limit = 0 then c.entries.length - offset.toNat
           else min limit.toNat (c.entries.length - offset.toNat))).map (fun p => rowOf L p.2) ∧
      rows.length = (if limit = 0 then c.entries.length - offset.toNat
           else min limit.toNat (c.entries.length - offset.toNat)) ∧
      (offset ≥ (c.entries.length : Int) → rows = [])) ∧
    (∀ (pre post : List (Element String SqlStats)) (x : Element String SqlStats),
      c.ll = pre ++ x :: post →
      LRUCache.walkNext (pre.length : Int) [] c.ll 0 =
        some { before := pre.reverse, here := x, after := post } ∧
      LRUCache.walkPrev ((c.ll.length : Int) - (pre.length : Int) - 1) c.ll.reverse [] 0 =
        some { before := pre.reverse, here := x, after := post } ∧
      c.getElementAt (pre.length : Int) =
        some { before := pre.reverse, here := x, after := post }) := by
  constructor
  · have hrows : ((c.entries.drop offset.toNat).take
          (if 0 = limit then c.entries.length else limit.toNat)) =
        ((c.entries.drop offset.toNat).take
          (if limit = 0 then c.entries.length - offset.toNat
           else min limit.toNat (c.entries.length - offset.toNat))) := by
      rw [List.take_eq_take]
      simp only [List.length_drop]
      split_ifs with h1 h2 h2
      · simp
      · exact absurd h1.symm h2
      · exact absurd h2.symm h1
      · simp
    refine ⟨_, GetQueryStats_eq L m c limit offset hs hc hwf, ?_, ?_, ?_⟩
    · rw [hrows]
    · rw [hrows, List.length_map, List.length_take, List.length_drop]
      split_ifs <;> simp
    · intro hge
      rw [List.drop_of_length_le (by omega)]
      simp
  · intro pre post x hll
    have hw := LRUCache.walk_front_back pre post x
    rw [← hll] at hw
    exact ⟨hw.1, hw.2, LRUCache.getElementAt_append c pre post x hll⟩

/-- Witness of C10: the second and third of four rows. -/
theorem C10_GetQueryStats_range_witness :
    ∃ m c,
      RecordAll exampleLib
        (Option.getD
          (SqlMonitor.Start exampleLib (fun _ => none) SqlMonitor.zero syncMode 10 10 "" false)
          SqlMonitor.zero)
        [exampleEvent "a" true (Float64.fin 1) 1, exampleEvent "b" true (Float64.fin 2) 2,
         exampleEvent "c" true (Float64.fin 3) 3, exampleEvent "d" true (Float64.fin 4) 4]
        = some (m, [true, true, true, true]) ∧
      m.status ≠ uninited ∧ m.sqlDigestCache = some c ∧ c.WF ∧
      ((∃ rows, SqlMonitor.GetQueryStats exampleLib m 2 1 = some (columnNames, rows) ∧
        rows = ((c.entries.drop (1 : Int).toNat).take
            (if (2 : Int) = 0 then c.entries.length - (1 : Int).toNat
             else min (2 : Int).toNat (c.entries.length - (1 : Int).toNat))).map
              (fun p => rowOf exampleLib p.2) ∧
        rows.length = (if (2 : Int) = 0 then c.entries.length - (1 : Int).toNat
             else min (2 : Int).toNat (c.entries.length - (1 : Int).toNat)) ∧
        ((1 : Int) ≥ (c.entries.length : Int) → rows = [])) ∧
      (∀ (pre post : List (Element String SqlStats)) (x : Element String SqlStats),
        c.ll = pre ++ x :: post →
        LRUCache.walkNext (pre.length : Int) [] c.ll 0 =
          some { before := pre.reverse, here := x, after := post } ∧
        LRUCache.walkPrev ((c.ll.length : Int) - (pre.length : Int) - 1) c.ll.reverse [] 0 =
          some { before := pre.reverse, here := x, after := post } ∧
        c.getElementAt (pre.length : Int) =
          some { before := pre.reverse, here := x, after := post })) :=
  ⟨_, _, rfl, by decide, rfl, by decide,
    C10_GetQueryStats_range exampleLib _ _ 2 1 (by decide) rfl (by decide)⟩

/-! ## The number of rows -/

theorem addToCache_keys {c : LRUCache String SqlStats} (h : c.WF)
    (hu : c.OnValueUpdate = none) (e : SqlExecInfo) (d t : String) :
    (∀ k ∈ (addToCache c e d t).keys,
      k = cacheKeyOf e.DBHost e.SchemaName e.UserName d ∨ k ∈ c.keys) ∧
    ((cacheKeyOf e.DBHost e.SchemaName e.UserName d ∈ c.keys ∨
        ¬ (c.MaxEntries ≠ 0 ∧ ((c.entries.length : Int) + 1) > c.MaxEntries)) →
      cacheKeyOf e.DBHost e.SchemaName e.UserName d ∈ (addToCache c e d t).keys ∧
      ∀ k ∈ c.keys, k ∈ (addToCache c e d t).keys) ∧
    ((addToCache c e d t).entries.length : Int) =
      (if cacheKeyOf e.DBHost e.SchemaName e.UserName d ∈ c.keys then (c.entries.length : Int)
       else if c.MaxEntries ≠ 0 ∧ ((c.entries.length : Int) + 1) > c.MaxEntries then
         (c.entries.length : Int)
       else (c.entries.length : Int) + 1) := by
  by_cases hk : cacheKeyOf e.DBHost e.SchemaName e.UserName d ∈ c.keys
  · obtain ⟨old, hg⟩ := Option.isSome_iff_exists.1 ((LRUCache.Get_isSome_iff h _).2 hk)
    have hent := addToCache_entries_of_mem h hu e d t hg
    have hkeys : (addToCache c e d t).keys =
        cacheKeyOf e.DBHost e.SchemaName e.UserName d ::
          (c.entries.filter (fun p =>
            decide (p.1 ≠ cacheKeyOf e.DBHost e.SchemaName e.UserName d))).map Prod.fst := by
      rw [LRUCache.keys_eq_map_entries, hent]
      rfl
    refine ⟨?_, ?_, ?_⟩
    · intro k hmem
      rw [hkeys] at hmem
      rcases List.mem_cons.1 hmem with h1 | h1
      · exact Or.inl h1
      · right
        obtain ⟨p, hp, rfl⟩ := List.mem_map.1 h1
        rw [LRUCache.keys_eq_map_entries]
        exact List.mem_map_of_mem Prod.fst (List.mem_of_mem_filter hp)
    · intro _
      rw [hkeys]
      refine ⟨List.mem_cons_self _ _, ?_⟩
      intro k hmem
      by_cases hkk : k = cacheKeyOf e.DBHost e.SchemaName e.UserName d
      · rw [hkk]; exact List.mem_cons_self _ _
      · rw [LRUCache.keys_eq_map_entries] at hmem
        obtain ⟨p, hp, rfl⟩ := List.mem_map.1 hmem
        exact List.mem_cons_of_mem _ (List.mem_map_of_mem Prod.fst
          (List.mem_filter.2 ⟨hp, by simpa using hkk⟩))
    · rw [if_pos hk, hent]
      rw [LRUCache.keys_eq_map_entries] at hk
      obtain ⟨p, hp, hpk⟩ := List.mem_map.1 hk
      have := length_filter_ne_of_nodup_map (Prod.fst : String × SqlStats → String) c.entries
        (by rw [← LRUCache.keys_eq_map_entries]; exact h.nodup_keys) p hp
      rw [hpk] at this
      rw [List.length_cons]
      exact_mod_cast this
  · have hent := addToCache_entries_of_not_mem h hu e d t hk
    refine ⟨?_, ?_, ?_⟩
    · intro k hmem
      rw [LRUCache.keys_eq_map_entries, hent] at hmem
      obtain ⟨p, hp, rfl⟩ := List.mem_map.1 hmem
      have hp2 : p ∈ (cacheKeyOf e.DBHost e.SchemaName e.UserName d, newStats e d t) ::
          c.entries := by
        split_ifs at hp
        · exact List.mem_of_mem_dropLast hp
        · exact hp
      rcases List.mem_cons.1 hp2 with rfl | hp2
      · exact Or.inl rfl
      · right
        rw [LRUCache.keys_eq_map_entries]
        exact List.mem_map_of_mem Prod.fst hp2
    · intro hor
      have hc : ¬ (c.MaxEntries ≠ 0 ∧ ((c.entries.length : Int) + 1) > c.MaxEntries) := by
        rcases hor with h1 | h1
        · exact absurd h1 hk
        · exact h1
      rw [if_neg hc] at hent
      rw [LRUCache.keys_eq_map_entries, hent]
      refine ⟨by simp, ?_⟩
      intro k hmem
      rw [LRUCache.keys_eq_map_entries] at hmem
      simp only [List.map_cons, List.mem_cons]
      exact Or.inr hmem
    · rw [if_neg hk, hent]
      split_ifs with hc
      · simp
      · simp

/-- The keys held after a run of `statistics` from a cache with `MaxEntries >= 0`: they
are keys of recorded events, all of these are held while the cache is not full, and the
cache never exceeds its bound. -/
theorem aggregate_keys (L : Lib) :
    ∀ (rest seen : List SqlExecInfo) (c : LRUCache String SqlStats),
      c.WF → c.OnValueUpdate = none → 0 ≤ c.MaxEntries →
      (∀ k ∈ c.keys, k ∈ seen.map (eventKey L)) →
      ((c.MaxEntries = 0 ∨ (c.entries.length : Int) < c.MaxEntries) →
        ∀ k ∈ seen.map (eventKey L), k ∈ c.keys) →
      (c.MaxEntries ≠ 0 → (c.entries.length : Int) ≤ c.MaxEntries) →
      (∀ k ∈ (aggregate L c rest).keys, k ∈ (seen ++ rest).map (eventKey L)) ∧
      (((aggregate L c rest).MaxEntries = 0 ∨
          ((aggregate L c rest).entries.length : Int) < (aggregate L c rest).MaxEntries) →
        ∀ k ∈ (seen ++ rest).map (eventKey L), k ∈ (aggregate L c rest).keys) ∧
      ((aggregate L c rest).MaxEntries ≠ 0 →
        ((aggregate L c rest).entries.length : Int) ≤ (aggregate L c rest).MaxEntries) := by
  intro rest
  induction rest with
  | nil =>
    intro seen c _ _ _ h1 h2 h3
    simp only [List.append_nil]
    exact ⟨h1, h2, h3⟩
  | cons e rest ih =>
    intro seen c hwf hu hmax h1 h2 h3
    rw [aggregate_cons]
    have happ : seen ++ e :: rest = (seen ++ [e]) ++ rest := by simp
    rw [happ]
    have hwf1 := addToCache_WF hwf e (L.Id (L.Fingerprint e.Sql)) (L.Fingerprint e.Sql)
    have hu1 := (addToCache_OnValueUpdate c e (L.Id (L.Fingerprint e.Sql))
      (L.Fingerprint e.Sql)).trans hu
    have hmax1 := addToCache_MaxEntries c e (L.Id (L.Fingerprint e.Sql)) (L.Fingerprint e.Sql)
    obtain ⟨k1, k2, k3⟩ := addToCache_keys hwf hu e (L.Id (L.Fingerprint e.Sql))
      (L.Fingerprint e.Sql)
    have hkeq : cacheKeyOf e.DBHost e.SchemaName e.UserName (L.Id (L.Fingerprint e.Sql)) =
        eventKey L e := rfl
    rw [hkeq] at k1 k2 k3
    apply ih (seen ++ [e]) _ hwf1 hu1 (by rw [hmax1]; exact hmax)
    · intro k hk
      simp only [List.map_append, List.map_cons, List.map_nil, List.mem_append,
        List.mem_singleton]
      rcases k1 k hk with h | h
      · exact Or.inr h
      · exact Or.inl (h1 k h)
    · rw [hmax1]
      intro hroom k hk
      simp only [List.map_append, List.map_cons, List.map_nil, List.mem_append,
        List.mem_singleton] at hk
      by_cases hin : eventKey L e ∈ c.keys
      · rw [if_pos hin] at k3
        rw [k3] at hroom
        obtain ⟨k2a, k2b⟩ := k2 (Or.inl hin)
        rcases hk with hk | hk
        · exact k2b k (h2 hroom k hk)
        · rw [hk]; exact k2a
      · rw [if_neg hin] at k3
        by_cases hc : c.MaxEntries ≠ 0 ∧ ((c.entries.length : Int) + 1) > c.MaxEntries
        · exfalso
          rw [if_pos hc] at k3
          rw [k3] at hroom
          have := h3 hc.1
          rcases hroom with hroom | hroom
          · exact hc.1 hroom
          · omega
        · rw [if_neg hc] at k3
          obtain ⟨k2a, k2b⟩ := k2 (Or.inr hc)
          have hroom0 : c.MaxEntries = 0 ∨ (c.entries.length : Int) < c.MaxEntries := by
            rcases hroom with hroom | hroom
            · exact Or.inl hroom
            · right; omega
          rcases hk with hk | hk
          · exact k2b k (h2 hroom0 k hk)
          · rw [hk]; exact k2a
    · rw [hmax1]
      intro hne
      have := h3 hne
      rw [k3]
      split_ifs with hin hc
      · exact this
      · exact this
      · have : ¬ ((c.entries.length : Int) + 1 > c.MaxEntries) := fun hgt => hc ⟨hne, hgt⟩
        omega

/-- C9. In inline mode, from a `Start` with cache capacity `C` (`C >= 1`, or `0` for
unbounded), an empty storage path and the filter off, after any sequence of `Record`
calls `GetQueryStats(0, 0)` returns one row per entry of the rolling cache;
their number is the number of distinct cache keys of the recorded events when the cache
is unbounded, and the smaller of `C` and that number otherwise; when the distinct keys do
not exceed `C`, the keys of the entries are exactly the distinct keys of the events, each
once. -/
theorem C9_row_count (L : Lib) (fs : String → Option String) (recv : SqlMonitor)
    (cacheSize chanSize : Int) (events : List SqlExecInfo) (hch : 0 ≤ chanSize)
    (hcap : 0 ≤ cacheCapacity cacheSize) :
    ∃ m0 m oks c rows,
      SqlMonitor.Start L fs recv syncMode cacheSize chanSize "" false = some m0 ∧
      RecordAll L m0 events = some (m, oks) ∧ m.sqlDigestCache = some c ∧
      SqlMonitor.GetQueryStats L m 0 0 = some (columnNames, rows) ∧
      rows = c.entries.map (fun p => rowOf L p.2) ∧
      (rows.length : Int) =
        (if cacheCapacity cacheSize = 0 then (((events.map (eventKey L)).dedup.length : Int))
         else min (cacheCapacity cacheSize) (((events.map (eventKey L)).dedup.length : Int))) ∧
      ((cacheCapacity cacheSize = 0 ∨
          (((events.map (eventKey L)).dedup.length : Int)) ≤ cacheCapacity cacheSize) →
        List.Perm c.keys (events.map (eventKey L)).dedup) := by
  obtain ⟨m0, m, hstart, hrun, hc, _, hst⟩ := sync_run L fs recv cacheSize chanSize events hch
  have hwf0 : (NewLRUCache String SqlStats (cacheCapacity cacheSize)).WF :=
    LRUCache.NewLRUCache_WF _
  have hwf := aggregate_WF L events hwf0
  have hmaxeq := aggregate_MaxEntries L events
    (NewLRUCache String SqlStats (cacheCapacity cacheSize))
  have hmax0 : (NewLRUCache String SqlStats (cacheCapacity cacheSize)).MaxEntries =
      cacheCapacity cacheSize := rfl
  obtain ⟨i1, i2, i3⟩ := aggregate_keys L events []
    (NewLRUCache String SqlStats (cacheCapacity cacheSize)) hwf0 rfl hcap
    (by simp [NewLRUCache, LRUCache.keys]) (by simp)
    (by intro _; simpa [NewLRUCache, LRUCache.entries] using hcap)
  rw [hmaxeq, hmax0] at i2 i3
  simp only [List.nil_append] at i1 i2
  have hstatus : m.status ≠ uninited := by rw [hst]; decide
  have hrows := GetQueryStats_eq L m _ 0 0 hstatus hc hwf
  simp only [if_true, Int.toNat_zero, List.drop_zero, List.take_length] at hrows
  have hnd := hwf.nodup_keys
  have hsub : (aggregate L (NewLRUCache String SqlStats (cacheCapacity cacheSize)) events).keys ⊆
      (events.map (eventKey L)).dedup := fun k hk => List.mem_dedup.2 (i1 k hk)
  have hle := (hnd.subperm hsub).length_le
  have hklen : (aggregate L (NewLRUCache String SqlStats (cacheCapacity cacheSize))
      events).keys.length =
      (aggregate L (NewLRUCache String SqlStats (cacheCapacity cacheSize))
        events).entries.length := by
    rw [LRUCache.keys_eq_map_entries, List.length_map]
  have hfull : (cacheCapacity cacheSize = 0 ∨
      ((aggregate L (NewLRUCache String SqlStats (cacheCapacity cacheSize))
        events).entries.length : Int) < cacheCapacity cacheSize) →
      List.Perm (aggregate L (NewLRUCache String SqlStats (cacheCapacity cacheSize))
        events).keys (events.map (eventKey L)).dedup := by
    intro hroom
    rw [List.perm_ext_iff_of_nodup hnd (List.nodup_dedup _)]
    intro k
    rw [List.mem_dedup]
    exact ⟨i1 k, i2 hroom k⟩
  refine ⟨m0, m, _, _, _, hstart, hrun, hc, hrows, rfl, ?_, ?_⟩
  · rw [List.length_map]
    by_cases h0 : cacheCapacity cacheSize = 0
    · rw [if_pos h0, ← hklen, (hfull (Or.inl h0)).length_eq]
    · rw [if_neg h0]
      have hb := i3 h0
      by_cases hlt : ((aggregate L (NewLRUCache String SqlStats (cacheCapacity cacheSize))
          events).entries.length : Int) < cacheCapacity cacheSize
      · have := (hfull (Or.inr hlt)).length_eq
        rw [hklen] at this
        rw [← this]
        omega
      · rw [hklen] at hle
        omega
  · intro hfit
    by_cases hroom : cacheCapacity cacheSize = 0 ∨
        ((aggregate L (NewLRUCache String SqlStats (cacheCapacity cacheSize))
          events).entries.length : Int) < cacheCapacity cacheSize
    · exact hfull hroom
    · apply (hnd.subperm hsub).perm_of_length_le
      rw [hklen]
      have h0 : cacheCapacity cacheSize ≠ 0 := fun h => hroom (Or.inl h)
      have hge : ¬ ((aggregate L (NewLRUCache String SqlStats (cacheCapacity cacheSize))
          events).entries.length : Int) < cacheCapacity cacheSize := fun h => hroom (Or.inr h)
      rcases hfit with hfit | hfit
      · exact absurd hfit h0
      · omega

/-- Witness of C9: five events on three keys in a cache of capacity 2. -/
theorem C9_row_count_witness :
    (0 : Int) ≤ 10 ∧ 0 ≤ cacheCapacity 2 ∧
    ∃ m0 m oks c rows,
      SqlMonitor.Start exampleLib (fun _ => none) SqlMonitor.zero syncMode 2 10 "" false
        = some m0 ∧
      RecordAll exampleLib m0
        [exampleEvent "a" true (Float64.fin 1) 1, exampleEvent "b" true (Float64.fin 2) 2,
         exampleEvent "a" true (Float64.fin 3) 3, exampleEvent "c" true (Float64.fin 4) 4,
         exampleEvent "b" true (Float64.fin 5) 5] = some (m, oks) ∧
      m.sqlDigestCache = some c ∧
      SqlMonitor.GetQueryStats exampleLib m 0 0 = some (columnNames, rows) ∧
      rows = c.entries.map (fun p => rowOf exampleLib p.2) ∧
      (rows.length : Int) =
        (if cacheCapacity 2 = 0 then
          ((([exampleEvent "a" true (Float64.fin 1) 1, exampleEvent "b" true (Float64.fin 2) 2,
             exampleEvent "a" true (Float64.fin 3) 3, exampleEvent "c" true (Float64.fin 4) 4,
             exampleEvent "b" true (Float64.fin 5) 5].map (eventKey exampleLib)).dedup.length : Int))
         else min (cacheCapacity 2)
          ((([exampleEvent "a" true (Float64.fin 1) 1, exampleEvent "b" true (Float64.fin 2) 2,
             exampleEvent "a" true (Float64.fin 3) 3, exampleEvent "c" true (Float64.fin 4) 4,
             exampleEvent "b" true (Float64.fin 5) 5].map (eventKey exampleLib)).dedup.length : Int))) ∧
      ((cacheCapacity 2 = 0 ∨
          ((([exampleEvent "a" true (Float64.fin 1) 1, exampleEvent "b" true (Float64.fin 2) 2,
             exampleEvent "a" true (Float64.fin 3) 3, exampleEvent "c" true (Float64.fin 4) 4,
             exampleEvent "b" true (Float64.fin 5) 5].map (eventKey exampleLib)).dedup.length : Int))
            ≤ cacheCapacity 2) →
        List.Perm c.keys
          ([exampleEvent "a" true (Float64.fin 1) 1, exampleEvent "b" true (Float64.fin 2) 2,
            exampleEvent "a" true (Float64.fin 3) 3, exampleEvent "c" true (Float64.fin 4) 4,
            exampleEvent "b" true (Float64.fin 5) 5].map (eventKey exampleLib)).dedup) :=
  ⟨by decide, by decide,
    C9_row_count exampleLib (fun _ => none) SqlMonitor.zero 2 10
      [exampleEvent "a" true (Float64.fin 1) 1, exampleEvent "b" true (Float64.fin 2) 2,
       exampleEvent "a" true (Float64.fin 3) 3, exampleEvent "c" true (Float64.fin 4) 4,
       exampleEvent "b" true (Float64.fin 5) 5] (by decide) (by decide)⟩

/-! ## Draining and resizing -/

theorem GetResetQueryStats_eq (L : Lib) (m : SqlMonitor) (c : LRUCache String SqlStats)
    (limit : Int) (hs : m.status ≠ uninited) (hc : m.sqlDigestResetCache = some c)
    (hwf : c.WF) :
    ∃ c1 : LRUCache String SqlStats,
      SqlMonitor.GetResetQueryStats L m limit =
        some ((columnNames,
            ((c.entries.drop
                (c.entries.length - (if 0 = limit then c.entries.length else limit.toNat))).reverse.map
              (fun p => rowOf L p.2))),
          { m with sqlDigestResetCache := some c1 }) ∧
      c1.WF ∧ c1.MaxEntries = c.MaxEntries ∧ c1.OnValueUpdate = c.OnValueUpdate ∧
      c1.entries =
        c.entries.take
          (c.entries.length - (if 0 = limit then c.entries.length else limit.toNat)) := by
  have hn : (if 0 = limit then c.Len else limit).toNat =
      (if 0 = limit then c.entries.length else limit.toNat) := by
    rw [LRUCache.Len_eq_length hwf]
    split_ifs <;> simp
  obtain ⟨h1, h2, h3, h4, h5⟩ :=
    drainLoop_eq (if 0 = limit then c.Len else limit).toNat c [] hwf
  refine ⟨(SqlMonitor.drainLoop (if 0 = limit then c.Len else limit).toNat c []).2, ?_,
    h1, h3, h2, by rw [h4, hn]⟩
  unfold SqlMonitor.GetResetQueryStats
  rw [if_neg (fun h => hs h.symm), hc]
  simp only
  rw [valListToSQLStats_eq, h5, hn]
  simp [List.map_map, Function.comp_def]

/-- C11. For a started monitor whose drain cache holds `L` entries and for every
`limit` (`toNat` is the identity on the `limit >= 0` of the claim), with `k = L` when
`limit = 0` and `k = min(limit, L)` otherwise:
`GetResetQueryStats(limit)` returns exactly `k` rows, those of the `k` least recently
written entries, oldest first, and leaves the drain cache with the other `L - k` entries
in unchanged order; after `GetResetQueryStats(0)` the drain cache is empty and a further
`GetResetQueryStats(0)` returns zero rows. -/
theorem C11_drain (L : Lib) (m : SqlMonitor) (c : LRUCache String SqlStats) (limit : Int)
    (hs : m.status ≠ uninited) (hc : m.sqlDigestResetCache = some c) (hwf : c.WF) :
    ∃ (rows : List (List String)) (m1 : SqlMonitor) (c1 : LRUCache String SqlStats),
      SqlMonitor.GetResetQueryStats L m limit = some ((columnNames, rows), m1) ∧
      m1.sqlDigestResetCache = some c1 ∧
      rows = ((c.entries.drop (c.entries.length -
          (if limit = 0 then c.entries.length else min limit.toNat c.entries.length))).reverse.map
        (fun p => rowOf L p.2)) ∧
      rows.length = (if limit = 0 then c.entries.length else min limit.toNat c.entries.length) ∧
      c1.entries = c.entries.take (c.entries.length -
          (if limit = 0 then c.entries.length else min limit.toNat c.entries.length)) ∧
      (limit = 0 → c1.entries = [] ∧
        ∃ m2, SqlMonitor.GetResetQueryStats L m1 0 = some ((columnNames, []), m2)) := by
  obtain ⟨c1, hget, hwf1, _, _, hent⟩ := GetResetQueryStats_eq L m c limit hs hc hwf
  have hk : c.entries.length - (if 0 = limit then c.entries.length else limit.toNat) =
      c.entries.length -
        (if limit = 0 then c.entries.length else min limit.toNat c.entries.length) := by
    split_ifs with h1 h2 h2
    · rfl
    · exact absurd h1.symm h2
    · exact absurd h2.symm h1
    · omega
  rw [hk] at hget hent
  refine ⟨_, _, c1, hget, rfl, rfl, ?_, hent, ?_⟩
  · rw [List.length_map, List.length_reverse, List.length_drop]
    split_ifs <;> omega
  · intro h0
    have hnil : c1.entries = [] := by
      rw [hent, if_pos h0]
      simp
    refine ⟨hnil, ?_⟩
    obtain ⟨c2, hget2, _, _, _, _⟩ := GetResetQueryStats_eq L
      { m with sqlDigestResetCache := some c1 } c1 0 hs rfl hwf1
    rw [hnil] at hget2
    exact ⟨_, hget2⟩

/-- Witness of C11: draining two of three entries. -/
theorem C11_drain_witness :
    ∃ m c,
      RecordAll exampleLib
        (Option.getD
          (SqlMonitor.Start exampleLib (fun _ => none) SqlMonitor.zero syncMode 10 10 "" false)
          SqlMonitor.zero)
        [exampleEvent "a" true (Float64.fin 1) 1, exampleEvent "b" true (Float64.fin 2) 2,
         exampleEvent "c" true (Float64.fin 3) 3] = some (m, [true, true, true]) ∧
      m.status ≠ uninited ∧ m.sqlDigestResetCache = some c ∧ c.WF ∧
      ∃ (rows : List (List String)) (m1 : SqlMonitor) (c1 : LRUCache String SqlStats),
        SqlMonitor.GetResetQueryStats exampleLib m 2 = some ((columnNames, rows), m1) ∧
        m1.sqlDigestResetCache = some c1 ∧
        rows = ((c.entries.drop (c.entries.length -
            (if (2 : Int) = 0 then c.entries.length
             else min (2 : Int).toNat c.entries.length))).reverse.map
          (fun p => rowOf exampleLib p.2)) ∧
        rows.length =
          (if (2 : Int) = 0 then c.entries.length else min (2 : Int).toNat c.entries.length) ∧
        c1.entries = c.entries.take (c.entries.length -
            (if (2 : Int) = 0 then c.entries.length
             else min (2 : Int).toNat c.entries.length)) ∧
        ((2 : Int) = 0 → c1.entries = [] ∧
          ∃ m2, SqlMonitor.GetResetQueryStats exampleLib m1 0 = some ((columnNames, []), m2)) :=
  ⟨_, _, rfl, by decide, rfl, by decide,
    C11_drain exampleLib _ _ 2 (by decide) rfl (by decide)⟩

section
variable {K V : Type} [DecidableEq K]

/-- C12. For a cache holding `L` entries and `1 <= N <= L`, `SetMaxEntries(N)` leaves
exactly the `N` most recently written entries, in unchanged order and with unchanged
values; a following `SetMaxEntries(M)` with `M >= N` changes no entry, so an evicted key
is absent until it is added again.  `SetCacheSize(N)` does this on both caches of the
monitor. -/
theorem C12_resize (c : LRUCache K V) (N M : Int) (hwf : c.WF) (hN : 1 ≤ N)
    (hNL : N ≤ c.Len) (hM : N ≤ M) :
    (c.SetMaxEntries N).entries = c.entries.take N.toNat ∧
    ((c.SetMaxEntries N).entries.length : Int) = N ∧
    ((c.SetMaxEntries N).SetMaxEntries M).entries = (c.SetMaxEntries N).entries ∧
    (∀ key, key ∉ (c.SetMaxEntries N).keys → key ∉ ((c.SetMaxEntries N).SetMaxEntries M).keys) ∧
    (∀ (m : SqlMonitor) (c1 c2 : LRUCache String SqlStats),
      m.sqlDigestCache = some c1 → m.sqlDigestResetCache = some c2 →
      ∃ m1, SqlMonitor.SetCacheSize m N = some m1 ∧
        m1.sqlDigestCache = some (c1.SetMaxEntries N) ∧
        m1.sqlDigestResetCache = some (c2.SetMaxEntries N)) := by
  have hlen := LRUCache.Len_eq_length hwf
  have h1 := LRUCache.SetMaxEntries_entries hwf N
  have hwf1 := LRUCache.SetMaxEntries_WF hwf N
  have h2 := LRUCache.SetMaxEntries_entries hwf1 M
  have hl1 : ((c.SetMaxEntries N).entries.length : Int) = N := by
    rw [h1, List.length_take]
    rw [hlen] at hNL
    omega
  have h3 : ((c.SetMaxEntries N).SetMaxEntries M).entries = (c.SetMaxEntries N).entries := by
    rw [h2, List.take_of_length_le]
    omega
  refine ⟨h1, hl1, h3, ?_, ?_⟩
  · intro key hk
    rw [LRUCache.keys_eq_map_entries, h3, ← LRUCache.keys_eq_map_entries]
    exact hk
  · intro m c1 c2 hc1 hc2
    refine ⟨{ m with sqlDigestCache := some (c1.SetMaxEntries N),
                     sqlDigestResetCache := some (c2.SetMaxEntries N) }, ?_, rfl, rfl⟩
    unfold SqlMonitor.SetCacheSize
    rw [hc1, hc2]

/-- Witness of C12: a cache of three entries resized to 2, then to 5. -/
theorem C12_resize_witness :
    ((((NewLRUCache String Nat 0).Add "a" 1).Add "b" 2).Add "c" 3).WF ∧ (1 : Int) ≤ 2 ∧
    (2 : Int) ≤ ((((NewLRUCache String Nat 0).Add "a" 1).Add "b" 2).Add "c" 3).Len ∧
    (2 : Int) ≤ 5 ∧
    (((((NewLRUCache String Nat 0).Add "a" 1).Add "b" 2).Add "c" 3).SetMaxEntries 2).entries =
        ((((NewLRUCache String Nat 0).Add "a" 1).Add "b" 2).Add "c" 3).entries.take
          (2 : Int).toNat ∧
      ((((((NewLRUCache String Nat 0).Add "a" 1).Add "b" 2).Add "c" 3).SetMaxEntries
          2).entries.length : Int) = 2 ∧
      ((((((NewLRUCache String Nat 0).Add "a" 1).Add "b" 2).Add "c" 3).SetMaxEntries
          2).SetMaxEntries 5).entries =
        (((((NewLRUCache String Nat 0).Add "a" 1).Add "b" 2).Add "c" 3).SetMaxEntries 2).entries ∧
      (∀ key,
        key ∉ (((((NewLRUCache String Nat 0).Add "a" 1).Add "b" 2).Add "c" 3).SetMaxEntries
          2).keys →
        key ∉ ((((((NewLRUCache String Nat 0).Add "a" 1).Add "b" 2).Add "c" 3).SetMaxEntries
          2).SetMaxEntries 5).keys) ∧
      (∀ (m : SqlMonitor) (c1 c2 : LRUCache String SqlStats),
        m.sqlDigestCache = some c1 → m.sqlDigestResetCache = some c2 →
        ∃ m1, SqlMonitor.SetCacheSize m 2 = some m1 ∧
          m1.sqlDigestCache = some (c1.SetMaxEntries 2) ∧
          m1.sqlDigestResetCache = some (c2.SetMaxEntries 2)) :=
  ⟨by decide, by decide, by decide, by decide,
    C12_resize ((((NewLRUCache String Nat 0).Add "a" 1).Add "b" 2).Add "c" 3) 2 5
      (by decide) (by decide) (by decide) (by decide)⟩

end

/-! ## The two caches side by side -/

/-- Both caches are allocated and equal. -/
theorem statistics_same (L : Lib) (m : SqlMonitor) (e : SqlExecInfo)
    (h : ∃ c, m.sqlDigestCache = some c ∧ m.sqlDigestResetCache = some c) :
    ∃ c, (SqlMonitor.statistics L m e).1.sqlDigestCache = some c ∧
      (SqlMonitor.statistics L m e).1.sqlDigestResetCache = some c := by
  obtain ⟨c, h1, h2⟩ := h
  refine ⟨addToCache c e (L.Id (L.Fingerprint e.Sql)) (L.Fingerprint e.Sql), ?_, ?_⟩ <;>
    simp only [SqlMonitor.statistics, h1, h2]

theorem Record_same (L : Lib) (m m1 : SqlMonitor) (e : SqlExecInfo) (ok : Bool)
    (hr : SqlMonitor.Record L m e = some (m1, ok))
    (h : ∃ c, m.sqlDigestCache = some c ∧ m.sqlDigestResetCache = some c) :
    ∃ c, m1.sqlDigestCache = some c ∧ m1.sqlDigestResetCache = some c := by
  unfold SqlMonitor.Record at hr
  split_ifs at hr with h0 h1 h2 h3
  · cases hr; exact h
  · revert hr
    cases m.sqlExecInfoChan with
    | none => intro hr; cases hr; exact h
    | some ch =>
      intro hr
      simp only at hr
      split_ifs at hr <;> cases hr <;> exact h
  · revert hr
    cases m.sqlExecInfoChan with
    | none => intro hr; cases hr
    | some ch =>
      intro hr
      simp only at hr
      split_ifs at hr <;> cases hr <;> exact h
  · have h4 := Option.some.inj hr
    have h5 : (SqlMonitor.statistics L m e).1 = m1 := by rw [h4]
    rw [← h5]
    exact statistics_same L m e h
  · cases hr; exact h

theorem statisticsThreadRecv_same (L : Lib) (m m1 : SqlMonitor)
    (hr : SqlMonitor.statisticsThreadRecv L m = some m1)
    (h : ∃ c, m.sqlDigestCache = some c ∧ m.sqlDigestResetCache = some c) :
    ∃ c, m1.sqlDigestCache = some c ∧ m1.sqlDigestResetCache = some c := by
  unfold SqlMonitor.statisticsThreadRecv at hr
  split_ifs at hr
  revert hr
  cases m.sqlExecInfoChan with
  | none => intro hr; cases hr
  | some ch =>
    cases hb : ch.buf with
    | nil => intro hr; simp only [hb] at hr; cases hr
    | cons e rest =>
      intro hr
      simp only [hb] at hr
      have hs := statistics_same L { m with sqlExecInfoChan := some { ch with buf := rest } } e h
      revert hr hs
      cases SqlMonitor.statistics L { m with sqlExecInfoChan := some { ch with buf := rest } } e with
      | mk m2 ok =>
        cases ok with
        | false => intro hr; cases hr
        | true => intro hr hs; cases hr; exact hs

theorem MonitorOp_apply_same (L : Lib) (m m1 : SqlMonitor) (op : MonitorOp)
    (hop : op.isDrain = false) (hr : op.apply L m = some m1)
    (h : ∃ c, m.sqlDigestCache = some c ∧ m.sqlDigestResetCache = some c) :
    ∃ c, m1.sqlDigestCache = some c ∧ m1.sqlDigestResetCache = some c := by
  cases op with
  | record e =>
    simp only [MonitorOp.apply, Option.map_eq_some'] at hr
    obtain ⟨⟨m2, ok⟩, hr, rfl⟩ := hr
    exact Record_same L m m2 e ok hr h
  | workerBegin =>
    simp only [MonitorOp.apply, SqlMonitor.statisticsThreadBegin] at hr
    split_ifs at hr
    cases hr
    exact h
  | workerRecv => exact statisticsThreadRecv_same L m m1 hr h
  | setCacheSize n =>
    obtain ⟨c, h1, h2⟩ := h
    simp only [MonitorOp.apply, SqlMonitor.SetCacheSize, h1, h2] at hr
    cases hr
    exact ⟨_, rfl, rfl⟩
  | getQueryStats l o =>
    simp only [MonitorOp.apply, Option.map_eq_some'] at hr
    obtain ⟨_, _, rfl⟩ := hr
    exact h
  | getResetQueryStats l => cases hop

theorem runMonitorOps_same (L : Lib) (ops : List MonitorOp) :
    ∀ (m m1 : SqlMonitor), (∀ op ∈ ops, op.isDrain = false) →
      runMonitorOps L m ops = some m1 →
      (∃ c, m.sqlDigestCache = some c ∧ m.sqlDigestResetCache = some c) →
      ∃ c, m1.sqlDigestCache = some c ∧ m1.sqlDigestResetCache = some c := by
  induction ops with
  | nil =>
    intro m m1 _ hr h
    simp only [runMonitorOps] at hr
    cases hr
    exact h
  | cons op ops ih =>
    intro m m1 hops hr h
    simp only [runMonitorOps] at hr
    cases hm : op.apply L m with
    | none => rw [hm] at hr; cases hr
    | some m2 =>
      rw [hm] at hr
      exact ih m2 m1 (fun o ho => hops o (List.mem_cons_of_mem _ ho)) hr
        (MonitorOp_apply_same L m m2 op (hops op (List.mem_cons_self _ _)) hm h)

theorem Start_same (L : Lib) (fs : String → Option String) (recv m0 : SqlMonitor)
    (mode cacheSize chanSize : Int) (successOnly : Bool)
    (hstart : SqlMonitor.Start L fs recv mode cacheSize chanSize "" successOnly = some m0) :
    m0.sqlDigestCache = some (NewLRUCache String SqlStats (cacheCapacity cacheSize)) ∧
    m0.sqlDigestResetCache = some (NewLRUCache String SqlStats (cacheCapacity cacheSize)) := by
  unfold SqlMonitor.Start at hstart
  simp only [SqlMonitor.recoverCacheFormFile, if_true] at hstart
  split_ifs at hstart <;> cases hstart <;> exact ⟨rfl, rfl⟩

/-- C13. In every state reached from `Start` with an empty storage path by steps that
are `Record` calls, steps of the background worker (which applies `statistics` to one
queued event at a time), `SetCacheSize` calls and `GetQueryStats` calls, with no
`GetResetQueryStats` call, the rolling cache and the drain cache are equal: they hold the
same keys in the same recency order with equal records. -/
theorem C13_caches_agree (L : Lib) (fs : String → Option String) (recv m0 m : SqlMonitor)
    (mode cacheSize chanSize : Int) (successOnly : Bool) (ops : List MonitorOp)
    (hstart : SqlMonitor.Start L fs recv mode cacheSize chanSize "" successOnly = some m0)
    (hops : ∀ op ∈ ops, op.isDrain = false)
    (hrun : runMonitorOps L m0 ops = some m) :
    ∃ c1 c2, m.sqlDigestCache = some c1 ∧ m.sqlDigestResetCache = some c2 ∧
      c1.entries = c2.entries ∧ c1.keys = c2.keys ∧ c1 = c2 := by
  obtain ⟨h1, h2⟩ := Start_same L fs recv m0 mode cacheSize chanSize successOnly hstart
  obtain ⟨c, hc1, hc2⟩ := runMonitorOps_same L ops m0 m hops hrun ⟨_, h1, h2⟩
  exact ⟨c, c, hc1, hc2, rfl, rfl, rfl⟩

/-- Witness of C13: a drop-on-full monitor, three events of two keys moved through the
queue by the worker, and a resize. -/
theorem C13_caches_agree_witness :
    ∃ m0 m,
      SqlMonitor.Start exampleLib (fun _ => none) SqlMonitor.zero fullAsyncMode 10 10 "" false =
        some m0 ∧
      (∀ op ∈ [MonitorOp.record (exampleEvent "a" true (Float64.fin 1) 1),
               MonitorOp.workerBegin, MonitorOp.workerRecv,
               MonitorOp.record (exampleEvent "b" false (Float64.fin 2) 2),
               MonitorOp.record (exampleEvent "a" true (Float64.fin 3) 3),
               MonitorOp.workerRecv, MonitorOp.workerRecv,
               MonitorOp.setCacheSize 1], op.isDrain = false) ∧
      runMonitorOps exampleLib m0
        [MonitorOp.record (exampleEvent "a" true (Float64.fin 1) 1),
         MonitorOp.workerBegin, MonitorOp.workerRecv,
         MonitorOp.record (exampleEvent "b" false (Float64.fin 2) 2),
         MonitorOp.record (exampleEvent "a" true (Float64.fin 3) 3),
         MonitorOp.workerRecv, MonitorOp.workerRecv,
         MonitorOp.setCacheSize 1] = some m ∧
      ∃ c1 c2, m.sqlDigestCache = some c1 ∧ m.sqlDigestResetCache = some c2 ∧
        c1.entries = c2.entries ∧ c1.keys = c2.keys ∧ c1 = c2 :=
  ⟨_, _, rfl, by decide, rfl,
    C13_caches_agree exampleLib (fun _ => none) SqlMonitor.zero _ _ fullAsyncMode 10 10 false
      [MonitorOp.record (exampleEvent "a" true (Float64.fin 1) 1),
       MonitorOp.workerBegin, MonitorOp.workerRecv,
       MonitorOp.record (exampleEvent "b" false (Float64.fin 2) 2),
       MonitorOp.record (exampleEvent "a" true (Float64.fin 3) 3),
       MonitorOp.workerRecv, MonitorOp.workerRecv,
       MonitorOp.setCacheSize 1]
      rfl (by decide) rfl⟩

/-! ## Reading and draining do not disturb the other cache -/

/-- C14. On a monitor with both caches allocated and for every `limit`,
`GetResetQueryStats(limit)` returns and leaves the rolling cache (entries, order and
values) as it was, so that `GetQueryStats(l, o)` gives the same result before and after
the drain for all `l` and `o`; and `GetQueryStats` returns and leaves the whole monitor,
the drain cache included, as it was. -/
theorem C14_frame (L : Lib) (m : SqlMonitor) (c1 c2 : LRUCache String SqlStats) (limit : Int)
    (h1 : m.sqlDigestCache = some c1) (h2 : m.sqlDigestResetCache = some c2) :
    (∃ r m1, SqlMonitor.GetResetQueryStats L m limit = some (r, m1) ∧
      m1.sqlDigestCache = some c1 ∧
      ∀ l o, SqlMonitor.GetQueryStats L m1 l o = SqlMonitor.GetQueryStats L m l o) ∧
    (∀ l o, ∃ r, SqlMonitor.GetQueryStats L m l o = some r ∧
      (MonitorOp.getQueryStats l o).apply L m = some m) := by
  constructor
  · unfold SqlMonitor.GetResetQueryStats
    by_cases hs : uninited = m.status
    · rw [if_pos hs]
      exact ⟨_, _, rfl, h1, fun _ _ => rfl⟩
    · rw [if_neg hs, h2]
      simp only
      cases SqlMonitor.drainLoop (if 0 = limit then c2.Len else limit).toNat c2 [] with
      | mk valList c =>
        refine ⟨_, _, rfl, h1, ?_⟩
        intro l o
        simp only [SqlMonitor.GetQueryStats]
  · intro l o
    have h : ∃ r, SqlMonitor.GetQueryStats L m l o = some r := by
      unfold SqlMonitor.GetQueryStats
      by_cases hs : uninited = m.status
      · rw [if_pos hs]; exact ⟨_, rfl⟩
      · rw [if_neg hs, h1]; exact ⟨_, rfl⟩
    obtain ⟨r, hr⟩ := h
    exact ⟨r, hr, by simp only [MonitorOp.apply, hr, Option.map_some']⟩

/-- Witness of C14: a monitor with three records, drained of two. -/
theorem C14_frame_witness :
    ∃ m c1 c2,
      RecordAll exampleLib
        (Option.getD
          (SqlMonitor.Start exampleLib (fun _ => none) SqlMonitor.zero syncMode 10 10 "" false)
          SqlMonitor.zero)
        [exampleEvent "a" true (Float64.fin 1) 1, exampleEvent "b" true (Float64.fin 2) 2,
         exampleEvent "c" true (Float64.fin 3) 3] = some (m, [true, true, true]) ∧
      m.sqlDigestCache = some c1 ∧ m.sqlDigestResetCache = some c2 ∧ c1.entries.length = 3 ∧
      ((∃ r m1, SqlMonitor.GetResetQueryStats exampleLib m 2 = some (r, m1) ∧
        m1.sqlDigestCache = some c1 ∧
        ∀ l o, SqlMonitor.GetQueryStats exampleLib m1 l o =
          SqlMonitor.GetQueryStats exampleLib m l o) ∧
      (∀ l o, ∃ r, SqlMonitor.GetQueryStats exampleLib m l o = some r ∧
        (MonitorOp.getQueryStats l o).apply exampleLib m = some m)) :=
  ⟨_, _, _, rfl, rfl, rfl, by decide, C14_frame exampleLib _ _ _ 2 rfl rfl⟩

/-! ## The cache key -/

theorem append_cons_inj {α : Type} (c : α) :
    ∀ (l1 l2 r1 r2 : List α), c ∉ l1 → c ∉ l2 → l1 ++ c :: r1 = l2 ++ c :: r2 →
      l1 = l2 ∧ r1 = r2 := by
  intro l1
  induction l1 with
  | nil =>
    intro l2 r1 r2 _ h2 h
    cases l2 with
    | nil => exact ⟨rfl, (List.cons.inj h).2⟩
    | cons b l2 =>
      have hb := (List.cons.inj h).1
      exact absurd (hb ▸ List.mem_cons_self _ _) h2
  | cons a l1 ih =>
    intro l2 r1 r2 h1 h2 h
    cases l2 with
    | nil =>
      have ha := (List.cons.inj h).1
      exact absurd (ha ▸ List.mem_cons_self _ _) h1
    | cons b l2 =>
      obtain ⟨hab, ht⟩ := List.cons.inj h
      obtain ⟨hl, hr⟩ := ih l2 r1 r2 (fun hm => h1 (List.mem_cons_of_mem _ hm))
        (fun hm => h2 (List.mem_cons_of_mem _ hm)) ht
      exact ⟨by rw [hab, hl], hr⟩

theorem cacheKeyOf_data (host schema user digest : String) :
    (cacheKeyOf host schema user digest).data =
      host.data ++ ',' :: (schema.data ++ ',' :: (user.data ++ ',' :: digest.data)) := by
  simp [cacheKeyOf, String.data_append]

theorem cacheKeyOf_inj (h1 s1 u1 d1 h2 s2 u2 d2 : String)
    (hh1 : ',' ∉ h1.data) (hs1 : ',' ∉ s1.data) (hu1 : ',' ∉ u1.data)
    (hh2 : ',' ∉ h2.data) (hs2 : ',' ∉ s2.data) (hu2 : ',' ∉ u2.data) :
    cacheKeyOf h1 s1 u1 d1 = cacheKeyOf h2 s2 u2 d2 ↔
      h1 = h2 ∧ s1 = s2 ∧ u1 = u2 ∧ d1 = d2 := by
  constructor
  · intro h
    have hd := congrArg String.data h
    rw [cacheKeyOf_data, cacheKeyOf_data] at hd
    obtain ⟨e1, hd⟩ := append_cons_inj ',' _ _ _ _ hh1 hh2 hd
    obtain ⟨e2, hd⟩ := append_cons_inj ',' _ _ _ _ hs1 hs2 hd
    obtain ⟨e3, e4⟩ := append_cons_inj ',' _ _ _ _ hu1 hu2 hd
    exact ⟨String.ext e1, String.ext e2, String.ext e3, String.ext e4⟩
  · rintro ⟨rfl, rfl, rfl, rfl⟩
    rfl

/-- C18, as stated, fails: the events of host `a,b`, schema `c` and of host `a`, schema
`b,c` (same user, same statement) get the same cache key, and `statistics` merges them
into one record. -/
theorem C18_key_collision :
    eventKey exampleLib
        { Sql := "q", SuccessExec := true, DBHost := "a,b", SchemaName := "c", UserName := "u",
          ExecTime := Float64.fin 1, SeenTime := 1 } =
      eventKey exampleLib
        { Sql := "q", SuccessExec := true, DBHost := "a", SchemaName := "b,c", UserName := "u",
          ExecTime := Float64.fin 1, SeenTime := 2 } ∧
    ("a,b" : String) ≠ "a" ∧ ("c" : String) ≠ "b,c" ∧
    ((aggregate exampleLib (NewLRUCache String SqlStats 0)
        [{ Sql := "q", SuccessExec := true, DBHost := "a,b", SchemaName := "c", UserName := "u",
           ExecTime := Float64.fin 1, SeenTime := 1 },
         { Sql := "q", SuccessExec := true, DBHost := "a", SchemaName := "b,c", UserName := "u",
           ExecTime := Float64.fin 1, SeenTime := 2 }]).entries.map
      (fun p => (p.1, p.2.hostAddr, p.2.schemaName, p.2.countStar))) =
      [("a,b,c,u,q", "a,b", "c", 2)] := by
  decide

/-- C18, amended. When the host, the schema and the user of two events contain no
comma, the key `statistics` builds for the first equals the key built for the second if
and only if they have the same host, the same schema, the same user and the same digest;
the same holds of the key `recoverCacheFormFile` builds from the fields of a record.
Without the condition, equal fields still give equal keys. -/
theorem C18_key_iff (L : Lib) (a b : SqlExecInfo) (s t : SqlStats)
    (ha : ',' ∉ a.DBHost.data ∧ ',' ∉ a.SchemaName.data ∧ ',' ∉ a.UserName.data)
    (hb : ',' ∉ b.DBHost.data ∧ ',' ∉ b.SchemaName.data ∧ ',' ∉ b.UserName.data)
    (hs : ',' ∉ s.hostAddr.data ∧ ',' ∉ s.schemaName.data ∧ ',' ∉ s.userName.data)
    (ht : ',' ∉ t.hostAddr.data ∧ ',' ∉ t.schemaName.data ∧ ',' ∉ t.userName.data) :
    (eventKey L a = eventKey L b ↔
      a.DBHost = b.DBHost ∧ a.SchemaName = b.SchemaName ∧ a.UserName = b.UserName ∧
        L.Id (L.Fingerprint a.Sql) = L.Id (L.Fingerprint b.Sql)) ∧
    (cacheKeyOf s.hostAddr s.schemaName s.userName s.digest =
        cacheKeyOf t.hostAddr t.schemaName t.userName t.digest ↔
      s.hostAddr = t.hostAddr ∧ s.schemaName = t.schemaName ∧ s.userName = t.userName ∧
        s.digest = t.digest) :=
  ⟨cacheKeyOf_inj _ _ _ _ _ _ _ _ ha.1 ha.2.1 ha.2.2 hb.1 hb.2.1 hb.2.2,
   cacheKeyOf_inj _ _ _ _ _ _ _ _ hs.1 hs.2.1 hs.2.2 ht.1 ht.2.1 ht.2.2⟩

/-- Witness of C18, amended: two events of the same host, schema and user. -/
theorem C18_key_iff_witness :
    (',' ∉ (exampleEvent "a" true (Float64.fin 1) 1).DBHost.data ∧
      ',' ∉ (exampleEvent "a" true (Float64.fin 1) 1).SchemaName.data ∧
      ',' ∉ (exampleEvent "a" true (Float64.fin 1) 1).UserName.data) ∧
    (',' ∉ (exampleEvent "b" false (Float64.fin 2) 2).DBHost.data ∧
      ',' ∉ (exampleEvent "b" false (Float64.fin 2) 2).SchemaName.data ∧
      ',' ∉ (exampleEvent "b" false (Float64.fin 2) 2).UserName.data) ∧
    (',' ∉ (newStats (exampleEvent "a" true (Float64.fin 1) 1) "a" "a").hostAddr.data ∧
      ',' ∉ (newStats (exampleEvent "a" true (Float64.fin 1) 1) "a" "a").schemaName.data ∧
      ',' ∉ (newStats (exampleEvent "a" true (Float64.fin 1) 1) "a" "a").userName.data) ∧
    (',' ∉ (newStats (exampleEvent "b" false (Float64.fin 2) 2) "b" "b").hostAddr.data ∧
      ',' ∉ (newStats (exampleEvent "b" false (Float64.fin 2) 2) "b" "b").schemaName.data ∧
      ',' ∉ (newStats (exampleEvent "b" false (Float64.fin 2) 2) "b" "b").userName.data) ∧
    ((eventKey exampleLib (exampleEvent "a" true (Float64.fin 1) 1) =
        eventKey exampleLib (exampleEvent "b" false (Float64.fin 2) 2) ↔
      (exampleEvent "a" true (Float64.fin 1) 1).DBHost =
          (exampleEvent "b" false (Float64.fin 2) 2).DBHost ∧
        (exampleEvent "a" true (Float64.fin 1) 1).SchemaName =
          (exampleEvent "b" false (Float64.fin 2) 2).SchemaName ∧
        (exampleEvent "a" true (Float64.fin 1) 1).UserName =
          (exampleEvent "b" false (Float64.fin 2) 2).UserName ∧
        exampleLib.Id (exampleLib.Fingerprint (exampleEvent "a" true (Float64.fin 1) 1).Sql) =
          exampleLib.Id
            (exampleLib.Fingerprint (exampleEvent "b" false (Float64.fin 2) 2).Sql)) ∧
    (cacheKeyOf (newStats (exampleEvent "a" true (Float64.fin 1) 1) "a" "a").hostAddr
          (newStats (exampleEvent "a" true (Float64.fin 1) 1) "a" "a").schemaName
          (newStats (exampleEvent "a" true (Float64.fin 1) 1) "a" "a").userName
          (newStats (exampleEvent "a" true (Float64.fin 1) 1) "a" "a").digest =
        cacheKeyOf (newStats (exampleEvent "b" false (Float64.fin 2) 2) "b" "b").hostAddr
          (newStats (exampleEvent "b" false (Float64.fin 2) 2) "b" "b").schemaName
          (newStats (exampleEvent "b" false (Float64.fin 2) 2) "b" "b").userName
          (newStats (exampleEvent "b" false (Float64.fin 2) 2) "b" "b").digest ↔
      (newStats (exampleEvent "a" true (Float64.fin 1) 1) "a" "a").hostAddr =
          (newStats (exampleEvent "b" false (Float64.fin 2) 2) "b" "b").hostAddr ∧
        (newStats (exampleEvent "a" true (Float64.fin 1) 1) "a" "a").schemaName =
          (newStats (exampleEvent "b" false (Float64.fin 2) 2) "b" "b").schemaName ∧
        (newStats (exampleEvent "a" true (Float64.fin 1) 1) "a" "a").userName =
          (newStats (exampleEvent "b" false (Float64.fin 2) 2) "b" "b").userName ∧
        (newStats (exampleEvent "a" true (Float64.fin 1) 1) "a" "a").digest =
          (newStats (exampleEvent "b" false (Float64.fin 2) 2) "b" "b").digest)) :=
  ⟨by decide, by decide, by decide, by decide,
    C18_key_iff exampleLib (exampleEvent "a" true (Float64.fin 1) 1)
      (exampleEvent "b" false (Float64.fin 2) 2)
      (newStats (exampleEvent "a" true (Float64.fin 1) 1) "a" "a")
      (newStats (exampleEvent "b" false (Float64.fin 2) 2) "b" "b")
      (by decide) (by decide) (by decide) (by decide)⟩

/-! ## The success-only filter -/

theorem Record_filtered (L : Lib) (m : SqlMonitor) (e : SqlExecInfo)
    (hso : m.successOnly = true) (hf : e.SuccessExec = false) :
    SqlMonitor.Record L m e = some (m, true) := by
  unfold SqlMonitor.Record
  simp only [hso, hf, Bool.not_false, Bool.and_self, if_true]

theorem Record_sync_success (L : Lib) (m : SqlMonitor) (e : SqlExecInfo)
    (c1 c2 : LRUCache String SqlStats) (hmode : m.mode = syncMode)
    (hok : e.SuccessExec = true) (h1 : m.sqlDigestCache = some c1)
    (h2 : m.sqlDigestResetCache = some c2) :
    SqlMonitor.Record L m e =
      some ({ m with
              sqlDigestCache :=
                some (addToCache c1 e (L.Id (L.Fingerprint e.Sql)) (L.Fingerprint e.Sql))
              sqlDigestResetCache :=
                some (addToCache c2 e (L.Id (L.Fingerprint e.Sql)) (L.Fingerprint e.Sql)) },
            true) := by
  have h3 : ¬ (syncMode = fullAsyncMode) := by decide
  have h4 : ¬ (syncMode = asyncMode) := by decide
  unfold SqlMonitor.Record
  simp only [hok, hmode, h3, h4, Bool.not_true, Bool.and_false, Bool.false_eq_true, if_false,
    if_true, SqlMonitor.statistics, h1, h2]

/-- The first event recorded in a fresh cache of capacity `0` or more. -/
theorem addToCache_fresh (capacity : Int) (hcap : 0 ≤ capacity) (e : SqlExecInfo)
    (d t : String) :
    (addToCache (NewLRUCache String SqlStats capacity) e d t).entries =
      [(cacheKeyOf e.DBHost e.SchemaName e.UserName d, newStats e d t)] := by
  have hwf : (NewLRUCache String SqlStats capacity).WF := LRUCache.NewLRUCache_WF capacity
  have h := addToCache_entries_of_not_mem hwf rfl e d t
    (by simp [NewLRUCache, LRUCache.keys])
  have he : (NewLRUCache String SqlStats capacity).entries = [] := by
    simp [NewLRUCache, LRUCache.entries]
  have hm : (NewLRUCache String SqlStats capacity).MaxEntries = capacity := rfl
  rw [h, he, hm, if_neg]
  simp only [List.length_nil, Nat.cast_zero, zero_add, gt_iff_lt, not_and, not_lt]
  intro _
  omega

/-- C19. With the success-only filter on, in every mode, `Record` of an event whose
success flag is false returns `true` and leaves the monitor (both caches and the queue)
as it was.  As a consequence, on an inline monitor started with the filter on, an empty
storage path and a capacity of `0` (no limit) or more, one failed and one successful
event, recorded in either order, leave one record, that of the successful event, with
`countStar = 1` and `countError = 0`. -/
theorem C19_success_only (L : Lib) (m : SqlMonitor) (e : SqlExecInfo)
    (hso : m.successOnly = true) (hf : e.SuccessExec = false) :
    SqlMonitor.Record L m e = some (m, true) ∧
    ∀ (fs : String → Option String) (recv : SqlMonitor) (cacheSize chanSize : Int)
      (e2 : SqlExecInfo), 0 ≤ chanSize → 0 ≤ cacheCapacity cacheSize →
      e2.SuccessExec = true →
      ∃ m0 m2 c s,
        SqlMonitor.Start L fs recv syncMode cacheSize chanSize "" true = some m0 ∧
        RecordAll L m0 [e, e2] = some (m2, [true, true]) ∧
        RecordAll L m0 [e2, e] = some (m2, [true, true]) ∧
        m2.sqlDigestCache = some c ∧ c.entries = [(eventKey L e2, s)] ∧
        c.Get (eventKey L e2) = some s ∧ s.countStar = 1 ∧ s.countError = 0 := by
  refine ⟨Record_filtered L m e hso hf, ?_⟩
  intro fs recv cacheSize chanSize e2 hch hcap hok
  obtain ⟨m0, hstart, h1, h2, hmode, hso0, _⟩ :=
    Start_sync L fs recv cacheSize chanSize true hch
  have hr1 := Record_filtered L m0 e hso0 hf
  have hr2 := Record_sync_success L m0 e2 _ _ hmode hok h1 h2
  have hent := addToCache_fresh (cacheCapacity cacheSize) hcap e2
    (L.Id (L.Fingerprint e2.Sql)) (L.Fingerprint e2.Sql)
  have hwf := addToCache_WF (LRUCache.NewLRUCache_WF (cacheCapacity cacheSize)) e2
    (L.Id (L.Fingerprint e2.Sql)) (L.Fingerprint e2.Sql)
  refine ⟨m0,
    { m0 with
      sqlDigestCache :=
        some (addToCache (NewLRUCache String SqlStats (cacheCapacity cacheSize)) e2
          (L.Id (L.Fingerprint e2.Sql)) (L.Fingerprint e2.Sql))
      sqlDigestResetCache :=
        some (addToCache (NewLRUCache String SqlStats (cacheCapacity cacheSize)) e2
          (L.Id (L.Fingerprint e2.Sql)) (L.Fingerprint e2.Sql)) },
    _, _, hstart, ?_, ?_, rfl, hent, ?_, newStats_countStar _ _ _, ?_⟩
  · simp only [RecordAll, hr1, hr2]
  · simp only [RecordAll, hr2]
    rw [Record_filtered L _ e (by exact hso0) hf]
  · have hmem : (eventKey L e2, newStats e2 (L.Id (L.Fingerprint e2.Sql))
        (L.Fingerprint e2.Sql)) ∈ (addToCache (NewLRUCache String SqlStats
          (cacheCapacity cacheSize)) e2 (L.Id (L.Fingerprint e2.Sql))
          (L.Fingerprint e2.Sql)).entries := by
      rw [hent]
      exact List.mem_singleton.2 rfl
    exact Get_of_mem_entries hwf hmem
  · rw [newStats_countError, hok]
    rfl

/-- Witness of C19: a drop-on-full monitor started with the filter on, and a failed
event. -/
theorem C19_success_only_witness :
    (Option.getD
        (SqlMonitor.Start exampleLib (fun _ => none) SqlMonitor.zero fullAsyncMode 10 10 "" true)
        SqlMonitor.zero).successOnly = true ∧
    (exampleEvent "a" false (Float64.fin 1) 1).SuccessExec = false ∧
    (SqlMonitor.Record exampleLib
        (Option.getD
          (SqlMonitor.Start exampleLib (fun _ => none) SqlMonitor.zero fullAsyncMode 10 10 ""
            true)
          SqlMonitor.zero)
        (exampleEvent "a" false (Float64.fin 1) 1) =
      some (Option.getD
          (SqlMonitor.Start exampleLib (fun _ => none) SqlMonitor.zero fullAsyncMode 10 10 ""
            true)
          SqlMonitor.zero, true) ∧
    ∀ (fs : String → Option String) (recv : SqlMonitor) (cacheSize chanSize : Int)
      (e2 : SqlExecInfo), 0 ≤ chanSize → 0 ≤ cacheCapacity cacheSize →
      e2.SuccessExec = true →
      ∃ m0 m2 c s,
        SqlMonitor.Start exampleLib fs recv syncMode cacheSize chanSize "" true = some m0 ∧
        RecordAll exampleLib m0 [exampleEvent "a" false (Float64.fin 1) 1, e2] =
          some (m2, [true, true]) ∧
        RecordAll exampleLib m0 [e2, exampleEvent "a" false (Float64.fin 1) 1] =
          some (m2, [true, true]) ∧
        m2.sqlDigestCache = some c ∧ c.entries = [(eventKey exampleLib e2, s)] ∧
        c.Get (eventKey exampleLib e2) = some s ∧ s.countStar = 1 ∧ s.countError = 0) :=
  ⟨by decide, by decide,
    C19_success_only exampleLib _ (exampleEvent "a" false (Float64.fin 1) 1)
      (by decide) (by decide)⟩

/-! ## The queue in drop-on-full mode -/

/-- C20. In `fullAsyncMode`, on a monitor whose queue is allocated, not closed, of
capacity `1` or more and holding no more events than its capacity, for every event the
filter lets through: `Record` returns; it returns `false` if and only if the queue holds
as many events as its capacity, and then the monitor (queue and both caches) is as it
was; otherwise it returns `true`, the event is appended at the tail of the queue, and
nothing else changes. -/
theorem C20_drop_on_full (L : Lib) (m : SqlMonitor) (ch : Chan) (e : SqlExecInfo)
    (hmode : m.mode = fullAsyncMode) (hch : m.sqlExecInfoChan = some ch)
    (hopen : ch.closed = false) (hcap : 1 ≤ ch.cap) (hle : ch.buf.length ≤ ch.cap)
    (hfilter : ¬ (m.successOnly = true ∧ e.SuccessExec = false)) :
    ∃ m1 ok, SqlMonitor.Record L m e = some (m1, ok) ∧
      (ok = false ↔ ch.buf.length = ch.cap) ∧
      (ok = false → m1 = m) ∧
      (ok = true →
        m1 = { m with sqlExecInfoChan := some { ch with buf := ch.buf ++ [e] } }) ∧
      m1.sqlDigestCache = m.sqlDigestCache ∧
      m1.sqlDigestResetCache = m.sqlDigestResetCache := by
  have hc : (m.successOnly && !e.SuccessExec) = false := by
    cases h1 : m.successOnly <;> cases h2 : e.SuccessExec <;> simp_all
  have _hpos : 0 < ch.cap := hcap
  unfold SqlMonitor.Record
  simp only [hc, Bool.false_eq_true, if_false, hmode, if_true, hch, hopen]
  by_cases hlt : ch.buf.length < ch.cap
  · rw [if_pos hlt]
    refine ⟨_, true, rfl, ?_, ?_, fun _ => rfl, rfl, rfl⟩
    · constructor
      · intro h; cases h
      · intro h; omega
    · intro h; cases h
  · rw [if_neg hlt]
    refine ⟨_, false, rfl, ?_, fun _ => rfl, ?_, rfl, rfl⟩
    · constructor
      · intro _; omega
      · intro _; rfl
    · intro h; cases h

/-- Witness of C20: a queue of capacity 2 that holds two events. -/
theorem C20_drop_on_full_witness :
    ∃ m ch,
      RecordAll exampleLib
        (Option.getD
          (SqlMonitor.Start exampleLib (fun _ => none) SqlMonitor.zero fullAsyncMode 10 2 ""
            false)
          SqlMonitor.zero)
        [exampleEvent "a" true (Float64.fin 1) 1, exampleEvent "b" true (Float64.fin 2) 2] =
        some (m, [true, true]) ∧
      m.mode = fullAsyncMode ∧ m.sqlExecInfoChan = some ch ∧ ch.closed = false ∧ 1 ≤ ch.cap ∧
      ch.buf.length ≤ ch.cap ∧
      ¬ (m.successOnly = true ∧ (exampleEvent "c" true (Float64.fin 3) 3).SuccessExec = false) ∧
      ∃ m1 ok,
        SqlMonitor.Record exampleLib m (exampleEvent "c" true (Float64.fin 3) 3) =
          some (m1, ok) ∧
        (ok = false ↔ ch.buf.length = ch.cap) ∧
        (ok = false → m1 = m) ∧
        (ok = true →
          m1 = { m with
                 sqlExecInfoChan :=
                   some { ch with buf := ch.buf ++ [exampleEvent "c" true (Float64.fin 3) 3] } }) ∧
        m1.sqlDigestCache = m.sqlDigestCache ∧
        m1.sqlDigestResetCache = m.sqlDigestResetCache :=
  ⟨_, _, rfl, rfl, rfl, rfl, by decide, by decide, by decide,
    C20_drop_on_full exampleLib _ _ (exampleEvent "c" true (Float64.fin 3) 3)
      rfl rfl rfl (by decide) (by decide) (by decide)⟩

/-! ## The text written by `saveCacheToFile` -/

theorem saveLine_rowOf (L : Lib) (s : SqlStats) :
    saveLine (rowOf L s) = joinTabs (savedFields L s) ++ "\n" := by
  simp only [saveLine, rowOf, savedFields, joinTabs, List.getD_cons_zero, List.getD_cons_succ,
    String.append_assoc]

theorem digestTextLast_rowOf (L : Lib) (s : SqlStats) :
    digestTextLast (rowOf L s) = savedFields L s := rfl

theorem writeFromStart_of_le (old : Option String) (written : String)
    (h : (old.getD "").length ≤ written.length) : writeFromStart old written = written := by
  unfold writeFromStart
  have h1 : (old.getD "").data.drop written.length = [] :=
    List.drop_eq_nil_of_le h
  rw [h1]
  apply String.ext
  simp [String.data_append]

theorem GetQueryStats_all (L : Lib) (m : SqlMonitor) (c : LRUCache String SqlStats)
    (hs : m.status ≠ uninited) (hc : m.sqlDigestCache = some c) (hwf : c.WF) :
    SqlMonitor.GetQueryStats L m 0 0 =
      some (columnNames, c.entries.map (fun p => rowOf L p.2)) := by
  rw [GetQueryStats_eq L m c 0 0 hs hc hwf]
  simp

theorem saveCacheToFile_eq (L : Lib) (writable : String → Bool) (fs : String → Option String)
    (m : SqlMonitor) (c : LRUCache String SqlStats) (hs : m.status ≠ uninited)
    (hp : m.dataPath ≠ "") (hw : writable m.dataPath = true) (hc : m.sqlDigestCache = some c)
    (hwf : c.WF) :
    SqlMonitor.saveCacheToFile L writable fs m =
      some (fun path =>
        if path = m.dataPath then
          some (writeFromStart (fs path)
            (writeAll (c.entries.reverse.map (fun p => joinTabs (savedFields L p.2) ++ "\n"))))
        else fs path) := by
  have h1 : ¬ (uninited = m.status ∨ "" = m.dataPath) := by
    rintro (h | h)
    · exact hs h.symm
    · exact hp h.symm
  have h2 : ¬ (writable m.dataPath = false) := by rw [hw]; exact Bool.noConfusion
  have h3 : (c.entries.map (fun p => rowOf L p.2)).reverse.map saveLine =
      c.entries.reverse.map (fun p => joinTabs (savedFields L p.2) ++ "\n") := by
    rw [← List.map_reverse, List.map_map]
    apply List.map_congr_left
    intro p _
    exact saveLine_rowOf L p.2
  unfold SqlMonitor.saveCacheToFile
  rw [if_neg h1, if_neg h2, GetQueryStats_all L m c hs hc hwf]
  simp only [h3]

/-- C17. On a started monitor with a non-empty storage path that can be opened for
writing, `saveCacheToFile` returns and writes, from the start of the file, one line per
record of the rolling cache and nothing else: the eighteen fields host, schema, user,
digest, countStar, countError, firstSeen, lastSeen, sumTime, minTime, maxTime, count1ms,
count10ms, count100ms, count1s, count5s, countOthers, digestText joined by single tabs
and ended by a newline.  The fields of a line are the row of `GetQueryStats(0, 0)` with
column 5 moved to the end, and the lines go from the least recently written record to
the most recently written one.  Other files are left as they were. -/
theorem C17_saved_lines (L : Lib) (writable : String → Bool) (fs : String → Option String)
    (m : SqlMonitor) (c : LRUCache String SqlStats) (hs : m.status ≠ uninited)
    (hp : m.dataPath ≠ "") (hw : writable m.dataPath = true) (hc : m.sqlDigestCache = some c)
    (hwf : c.WF) :
    ∃ fs1 rows,
      SqlMonitor.saveCacheToFile L writable fs m = some fs1 ∧
      SqlMonitor.GetQueryStats L m 0 0 = some (columnNames, rows) ∧
      rows.length = c.entries.length ∧
      fs1 m.dataPath = some (writeFromStart (fs m.dataPath)
        (writeAll (rows.reverse.map (fun row => joinTabs (digestTextLast row) ++ "\n")))) ∧
      rows.map digestTextLast = c.entries.map (fun p => savedFields L p.2) ∧
      (∀ p ∈ c.entries, (savedFields L p.2).length = 18 ∧
        (savedFields L p.2).getLast? = some p.2.digestText) ∧
      ((fs m.dataPath = none ∨ fs m.dataPath = some "") →
        fs1 m.dataPath =
          some (writeAll (rows.reverse.map (fun row => joinTabs (digestTextLast row) ++ "\n")))) ∧
      (∀ path, path ≠ m.dataPath → fs1 path = fs path) := by
  have hrows : (c.entries.map (fun p => rowOf L p.2)).reverse.map
      (fun row => joinTabs (digestTextLast row) ++ "\n") =
      c.entries.reverse.map (fun p => joinTabs (savedFields L p.2) ++ "\n") := by
    simp only [← List.map_reverse, List.map_map]
    rfl
  refine ⟨_, _, saveCacheToFile_eq L writable fs m c hs hp hw hc hwf,
    GetQueryStats_all L m c hs hc hwf, by simp, ?_, ?_, ?_, ?_, ?_⟩
  · simp only [if_true, hrows]
  · simp only [List.map_map]
    rfl
  · intro p _
    exact ⟨rfl, rfl⟩
  · intro hold
    simp only [if_true, hrows]
    rw [writeFromStart_of_le]
    rcases hold with h | h <;> rw [h] <;> simp
  · intro path hne
    simp only [if_neg hne]

/-- Witness of C17: an inline monitor with the storage path `p`, two records, no file
yet. -/
theorem C17_saved_lines_witness :
    ∃ m c,
      RecordAll decimalLib
        (Option.getD
          (SqlMonitor.Start decimalLib (fun _ => none) SqlMonitor.zero syncMode 10 10 "p" false)
          SqlMonitor.zero)
        [exampleEvent "a" true (Float64.fin 1) 1, exampleEvent "b" false (Float64.fin 20) 2] =
        some (m, [true, true]) ∧
      m.status ≠ uninited ∧ m.dataPath ≠ "" ∧ (fun _ => true) m.dataPath = true ∧
      m.sqlDigestCache = some c ∧ c.WF ∧
      ∃ fs1 rows,
        SqlMonitor.saveCacheToFile decimalLib (fun _ => true) (fun _ => none) m = some fs1 ∧
        SqlMonitor.GetQueryStats decimalLib m 0 0 = some (columnNames, rows) ∧
        rows.length = c.entries.length ∧
        fs1 m.dataPath = some (writeFromStart ((fun _ => none) m.dataPath)
          (writeAll (rows.reverse.map (fun row => joinTabs (digestTextLast row) ++ "\n")))) ∧
        rows.map digestTextLast = c.entries.map (fun p => savedFields decimalLib p.2) ∧
        (∀ p ∈ c.entries, (savedFields decimalLib p.2).length = 18 ∧
          (savedFields decimalLib p.2).getLast? = some p.2.digestText) ∧
        (((fun _ => none) m.dataPath = (none : Option String) ∨
            (fun _ => none) m.dataPath = some "") →
          fs1 m.dataPath =
            some (writeAll
              (rows.reverse.map (fun row => joinTabs (digestTextLast row) ++ "\n")))) ∧
        (∀ path, path ≠ m.dataPath → fs1 path = (fun _ => none) path) :=
  ⟨_, _, rfl, by decide, by decide, rfl, rfl, by decide,
    C17_saved_lines decimalLib (fun _ => true) (fun _ => none) _ _
      (by decide) (by decide) rfl rfl (by decide)⟩

set_option maxRecDepth 100000 in
/-- The file written for two records, evaluated. -/
theorem saveCacheToFile_example :
    (SqlMonitor.saveCacheToFile decimalLib (fun _ => true) (fun _ => none)
      (Option.getD
        (RecordAll decimalLib
          (Option.getD
            (SqlMonitor.Start decimalLib (fun _ => none) SqlMonitor.zero syncMode 10 10 "p"
              false)
            SqlMonitor.zero)
          [exampleEvent "a" true (Float64.fin 1) 1, exampleEvent "b" false (Float64.fin 20) 2])
        (SqlMonitor.zero, [])).1).bind (fun fs1 => fs1 "p") =
      some ("h\ts\tu\ta\t1\t0\t1\t1\t1.000\t1.000\t1.000\t1\t0\t0\t0\t0\t0\ta\n" ++
        "h\ts\tu\tb\t1\t1\t2\t2\t20.000\t20.000\t20.000\t0\t0\t1\t0\t0\t0\tb\n") := by
  decide

/-! ## Splitting a saved line into its fields -/

theorem splitTabs_ne_nil : ∀ (l : List Char), splitTabs l ≠ []
  | [] => by simp [splitTabs]
  | ch :: rest => by
    unfold splitTabs
    split_ifs
    · simp
    · cases splitTabs rest <;> simp

theorem splitTabs_of_not_mem : ∀ (l : List Char), '\t' ∉ l → splitTabs l = [l]
  | [], _ => rfl
  | ch :: rest, h => by
    have h1 : ch ≠ '\t' := fun e => h (e ▸ List.mem_cons_self _ _)
    have h2 := splitTabs_of_not_mem rest (fun hm => h (List.mem_cons_of_mem _ hm))
    unfold splitTabs
    rw [if_neg h1, h2]

theorem splitTabs_append : ∀ (l rest : List Char), '\t' ∉ l →
    splitTabs (l ++ '\t' :: rest) = l :: splitTabs rest
  | [], rest, _ => by
    rw [List.nil_append]
    conv_lhs => unfold splitTabs
    rw [if_pos rfl]
  | ch :: l, rest, h => by
    have h1 : ch ≠ '\t' := fun e => h (e ▸ List.mem_cons_self _ _)
    have h2 := splitTabs_append l rest (fun hm => h (List.mem_cons_of_mem _ hm))
    rw [List.cons_append]
    conv_lhs => unfold splitTabs
    rw [if_neg h1, h2]

theorem joinTabs_cons_cons (a b : String) (rest : List String) :
    joinTabs (a :: b :: rest) = a ++ "\t" ++ joinTabs (b :: rest) := rfl

theorem splitTabs_joinTabs : ∀ (fields : List String), fields ≠ [] →
    (∀ f ∈ fields, '\t' ∉ f.data) →
    splitTabs (joinTabs fields).data = fields.map String.data
  | [], h, _ => absurd rfl h
  | [a], _, hc => by
    simp only [joinTabs, List.map_cons, List.map_nil]
    exact splitTabs_of_not_mem _ (hc a (List.mem_singleton.2 rfl))
  | a :: b :: rest, _, hc => by
    have ih := splitTabs_joinTabs (b :: rest) (by simp)
      (fun f hf => hc f (List.mem_cons_of_mem _ hf))
    rw [joinTabs_cons_cons]
    have hd : (a ++ "\t" ++ joinTabs (b :: rest)).data =
        a.data ++ '\t' :: (joinTabs (b :: rest)).data := by
      simp [String.data_append]
    rw [hd, splitTabs_append _ _ (hc a (List.mem_cons_self _ _)), ih]
    rfl

theorem mem_joinTabs (ch : Char) : ∀ (fields : List String),
    ch ∈ (joinTabs fields).data → ch = '\t' ∨ ∃ f ∈ fields, ch ∈ f.data
  | [], h => by simp [joinTabs] at h
  | [a], h => Or.inr ⟨a, List.mem_singleton.2 rfl, h⟩
  | a :: b :: rest, h => by
    rw [joinTabs_cons_cons] at h
    have hd : (a ++ "\t" ++ joinTabs (b :: rest)).data =
        a.data ++ '\t' :: (joinTabs (b :: rest)).data := by
      simp [String.data_append]
    rw [hd, List.mem_append, List.mem_cons] at h
    rcases h with h | h | h
    · exact Or.inr ⟨a, List.mem_cons_self _ _, h⟩
    · exact Or.inl h
    · rcases mem_joinTabs ch (b :: rest) h with h | ⟨f, hf, h⟩
      · exact Or.inl h
      · exact Or.inr ⟨f, List.mem_cons_of_mem _ hf, h⟩

/-- The record `recoverCacheFormFile` reads from the line saved for a record. -/
theorem parseLine_saved (L : Lib) (s : SqlStats) (r : Float64 → Float64)
    (hclean : ∀ f ∈ savedFields L s, '\t' ∉ f.data)
    (hint : ∀ n ∈ s.ints, L.ParseInt (formatInt n) = some n)
    (hsum : L.ParseFloat (L.FormatFloat s.sumTime) = some (r s.sumTime))
    (hmin : L.ParseFloat (L.FormatFloat s.minTime) = some (r s.minTime))
    (hmax : L.ParseFloat (L.FormatFloat s.maxTime) = some (r s.maxTime)) :
    parseLine L (joinTabs (savedFields L s)) = some (s.mapTimes r) := by
  have hsplit : (splitTabs (joinTabs (savedFields L s)).data).map String.mk =
      savedFields L s := by
    rw [splitTabs_joinTabs _ (by simp [savedFields]) hclean, List.map_map]
    have hid : String.mk ∘ String.data = id := by
      funext x
      rfl
    rw [hid, List.map_id]
  simp only [SqlStats.ints, List.mem_cons, List.mem_singleton, forall_eq_or_imp, forall_eq,
    List.not_mem_nil, false_imp_iff, implies_true, and_true] at hint
  obtain ⟨i1, i2, i3, i4, i5, i6, i7, i8, i9, i10⟩ := hint
  unfold parseLine
  simp only [hsplit]
  simp only [savedFields, List.length_cons, List.length_nil, List.getD_cons_zero,
    List.getD_cons_succ, i1, i2, i3, i4, i5, i6, i7, i8, i9, i10, hsum, hmin, hmax]
  simp [SqlStats.mapTimes]

/-! ## Scanning the saved lines -/

theorem splitNewlines_ne_nil : ∀ (l : List Char), splitNewlines l ≠ []
  | [] => by simp [splitNewlines]
  | ch :: rest => by
    unfold splitNewlines
    split_ifs
    · simp
    · cases splitNewlines rest <;> simp

theorem splitNewlines_append : ∀ (l rest : List Char), '\n' ∉ l →
    splitNewlines (l ++ '\n' :: rest) = l :: splitNewlines rest
  | [], rest, _ => by
    rw [List.nil_append]
    conv_lhs => unfold splitNewlines
    rw [if_pos rfl]
  | ch :: l, rest, h => by
    have h1 : ch ≠ '\n' := fun e => h (e ▸ List.mem_cons_self _ _)
    have h2 := splitNewlines_append l rest (fun hm => h (List.mem_cons_of_mem _ hm))
    rw [List.cons_append]
    conv_lhs => unfold splitNewlines
    rw [if_neg h1, h2]

theorem scanTokens_cons (piece : List Char) (pieces : List (List Char)) (h : pieces ≠ []) :
    scanTokens (piece :: pieces) =
      if MaxScanTokenSize ≤ piece.length then [] else dropCR piece :: scanTokens pieces := by
  cases pieces with
  | nil => exact absurd rfl h
  | cons p ps => rfl

theorem dropCR_of_not_mem (l : List Char) (h : '\r' ∉ l) : dropCR l = l := by
  unfold dropCR
  rw [if_neg]
  intro hl
  obtain ⟨ys, rfl⟩ := List.getLast?_eq_some_iff.1 hl
  exact h (by simp)

theorem writeAll_lines_data : ∀ (lines : List String),
    (writeAll (lines.map (fun l => l ++ "\n"))).data =
      match lines with
      | [] => []
      | l :: rest => l.data ++ '\n' :: (writeAll (rest.map (fun l => l ++ "\n"))).data
  | [] => rfl
  | l :: rest => by
    simp [writeAll, String.data_append]

/-- A text made of lines that hold no newline and no carriage return and are shorter
than the buffer of the scanner is scanned into these lines. -/
theorem goScanLines_lines : ∀ (lines : List String),
    (∀ l ∈ lines, '\n' ∉ l.data ∧ '\r' ∉ l.data ∧ l.length < MaxScanTokenSize) →
    goScanLines (writeAll (lines.map (fun l => l ++ "\n"))) = lines
  | [], _ => by decide
  | l :: rest, h => by
    obtain ⟨h1, h2, h3⟩ := h l (List.mem_cons_self _ _)
    have ih := goScanLines_lines rest (fun x hx => h x (List.mem_cons_of_mem _ hx))
    have h4 : ¬ (MaxScanTokenSize ≤ l.data.length) := Nat.not_le.2 h3
    unfold goScanLines at ih ⊢
    rw [writeAll_lines_data]
    simp only
    rw [splitNewlines_append _ _ h1, scanTokens_cons _ _ (splitNewlines_ne_nil _),
      if_neg h4, dropCR_of_not_mem _ h2, List.map_cons, ih]

/-! ## Recovery of saved records -/

theorem recoverLines_saved (L : Lib) (key : SqlStats → String)
    (hkey : ∀ s, key s = cacheKeyOf s.hostAddr s.schemaName s.userName s.digest) :
    ∀ (lines : List String) (vals : List SqlStats) (c : LRUCache String SqlStats),
      List.Forall₂ (fun line v => parseLine L line = some v) lines vals →
      recoverLines L lines c = vals.foldl (fun c v => c.Add (key v) v) c := by
  intro lines vals c h
  induction h generalizing c with
  | nil => rfl
  | cons h1 _ ih =>
    simp only [recoverLines, h1, List.foldl_cons, hkey]
    rw [ih]
    simp only [hkey]

theorem foldl_Add_entries {K V : Type} [DecidableEq K] :
    ∀ (kvs : List (K × V)) (c : LRUCache K V), c.WF → c.OnValueUpdate = none →
      (kvs.map Prod.fst).Nodup → (∀ p ∈ kvs, p.1 ∉ c.keys) →
      (c.MaxEntries = 0 ∨ ((c.entries.length + kvs.length : Nat) : Int) ≤ c.MaxEntries) →
      (kvs.foldl (fun c p => c.Add p.1 p.2) c).entries = kvs.reverse ++ c.entries
  | [], c, _, _, _, _, _ => by simp
  | p :: kvs, c, hwf, hu, hnd, hnew, hfit => by
    have hp : p.1 ∉ c.keys := hnew p (List.mem_cons_self _ _)
    have hent : (c.Add p.1 p.2).entries = p :: c.entries := by
      rw [LRUCache.Add_entries_of_not_mem hwf hu hp, if_neg]
      rintro ⟨h0, hgt⟩
      rcases hfit with h | h
      · exact h0 h
      · simp only [List.length_cons, Nat.cast_add, Nat.cast_one] at h
        omega
    rw [List.map_cons, List.nodup_cons] at hnd
    have ih := foldl_Add_entries kvs (c.Add p.1 p.2) (LRUCache.Add_WF hwf _ _)
      (by rw [LRUCache.Add_OnValueUpdate, hu]) hnd.2
      (by
        intro q hq
        rw [LRUCache.keys_eq_map_entries, hent, List.map_cons, List.mem_cons, not_or]
        refine ⟨?_, ?_⟩
        · intro he
          exact hnd.1 (he ▸ List.mem_map_of_mem _ hq)
        · rw [← LRUCache.keys_eq_map_entries]
          exact hnew q (List.mem_cons_of_mem _ hq))
      (by
        rw [LRUCache.Add_MaxEntries, hent]
        rcases hfit with h | h
        · exact Or.inl h
        · refine Or.inr ?_
          simp only [List.length_cons, Nat.cast_add, Nat.cast_one] at h ⊢
          omega)
    rw [List.foldl_cons, ih, hent]
    simp

/-- C15, amended. On a started monitor whose storage path is not empty and can be opened
for writing, whose storage file is absent, empty or not longer than the text to write,
and whose rolling cache holds records that are keyed by their own host, schema, user and
digest, fit in the capacity, have no tab, newline or carriage return in a field, give
lines shorter than the buffer of the line scanner, and have numbers that `ParseInt` and
`ParseFloat` read back from their rendering (`r t` being what is read back from the
`%.3f` rendering of the time `t`): `saveCacheToFile` followed by `recoverCacheFormFile`
into an empty cache of the same capacity gives the same keys in the same recency order,
with records equal field for field except that `sumTime`, `minTime` and `maxTime` are
replaced by `r` of them. -/
theorem C15_round_trip (L : Lib) (writable : String → Bool) (fs : String → Option String)
    (m : SqlMonitor) (c : LRUCache String SqlStats) (r : Float64 → Float64)
    (hs : m.status ≠ uninited) (hp : m.dataPath ≠ "") (hw : writable m.dataPath = true)
    (hold : ((fs m.dataPath).getD "").length ≤
      (writeAll (c.entries.reverse.map
        (fun p => joinTabs (savedFields L p.2) ++ "\n"))).length)
    (hc : m.sqlDigestCache = some c) (hwf : c.WF)
    (hkeys : ∀ p ∈ c.entries,
      p.1 = cacheKeyOf p.2.hostAddr p.2.schemaName p.2.userName p.2.digest)
    (hfit : c.MaxEntries = 0 ∨ (c.entries.length : Int) ≤ c.MaxEntries)
    (hclean : ∀ p ∈ c.entries, ∀ f ∈ savedFields L p.2,
      '\t' ∉ f.data ∧ '\n' ∉ f.data ∧ '\r' ∉ f.data)
    (hshort : ∀ p ∈ c.entries, (joinTabs (savedFields L p.2)).length < MaxScanTokenSize)
    (hscan : ∀ content, L.ScanLines content = goScanLines content)
    (hint : ∀ p ∈ c.entries, ∀ n ∈ p.2.ints, L.ParseInt (formatInt n) = some n)
    (hfloat : ∀ p ∈ c.entries, ∀ t ∈ [p.2.sumTime, p.2.minTime, p.2.maxTime],
      L.ParseFloat (L.FormatFloat t) = some (r t)) :
    ∃ fs1 m1 c1,
      SqlMonitor.saveCacheToFile L writable fs m = some fs1 ∧
      SqlMonitor.recoverCacheFormFile L fs1
        { m with sqlDigestCache := some (NewLRUCache String SqlStats c.MaxEntries) } = some m1 ∧
      m1.sqlDigestCache = some c1 ∧
      c1.entries = c.entries.map (fun p => (p.1, p.2.mapTimes r)) := by
  have hsave := saveCacheToFile_eq L writable fs m c hs hp hw hc hwf
  have hp2 : ¬ ("" = m.dataPath) := fun h => hp h.symm
  -- the lines of the file
  have htext : c.entries.reverse.map (fun p => joinTabs (savedFields L p.2) ++ "\n") =
      (c.entries.reverse.map (fun p => joinTabs (savedFields L p.2))).map
        (fun l => l ++ "\n") := by
    rw [List.map_map]
    rfl
  have hlines : L.ScanLines (writeAll (c.entries.reverse.map
      (fun p => joinTabs (savedFields L p.2) ++ "\n"))) =
      c.entries.reverse.map (fun p => joinTabs (savedFields L p.2)) := by
    rw [hscan, htext]
    apply goScanLines_lines
    intro l hl
    obtain ⟨p, hp1, rfl⟩ := List.mem_map.1 hl
    have hp3 : p ∈ c.entries := List.mem_reverse.1 hp1
    refine ⟨?_, ?_, hshort p hp3⟩
    · intro hm
      rcases mem_joinTabs _ _ hm with h | ⟨f, hf, h⟩
      · exact absurd h (by decide)
      · exact (hclean p hp3 f hf).2.1 h
    · intro hm
      rcases mem_joinTabs _ _ hm with h | ⟨f, hf, h⟩
      · exact absurd h (by decide)
      · exact (hclean p hp3 f hf).2.2 h
  -- what each line parses to
  have hparse : List.Forall₂ (fun line v => parseLine L line = some v)
      (c.entries.reverse.map (fun p => joinTabs (savedFields L p.2)))
      (c.entries.reverse.map (fun p => p.2.mapTimes r)) := by
    rw [List.forall₂_map_left_iff, List.forall₂_map_right_iff, List.forall₂_same]
    intro p hp1
    have hp3 : p ∈ c.entries := List.mem_reverse.1 hp1
    exact parseLine_saved L p.2 r (fun f hf => (hclean p hp3 f hf).1) (hint p hp3)
      (hfloat p hp3 _ (by simp)) (hfloat p hp3 _ (by simp)) (hfloat p hp3 _ (by simp))
  have hrec := recoverLines_saved L
    (fun s => cacheKeyOf s.hostAddr s.schemaName s.userName s.digest) (fun _ => rfl)
    _ _ (NewLRUCache String SqlStats c.MaxEntries) hparse
  -- the entries after the adds
  have hkv : (c.entries.reverse.map (fun p => p.2.mapTimes r)).foldl
      (fun c v => c.Add (cacheKeyOf v.hostAddr v.schemaName v.userName v.digest) v)
      (NewLRUCache String SqlStats c.MaxEntries) =
      (c.entries.reverse.map (fun p => (p.1, p.2.mapTimes r))).foldl
        (fun c p => c.Add p.1 p.2) (NewLRUCache String SqlStats c.MaxEntries) := by
    rw [List.foldl_map, List.foldl_map]
    apply List.foldl_ext
    intro a p hp1
    have hp3 : p ∈ c.entries := List.mem_reverse.1 hp1
    have hk := hkeys p hp3
    simp only [SqlStats.mapTimes]
    rw [← hk]
  have hent := foldl_Add_entries (c.entries.reverse.map (fun p => (p.1, p.2.mapTimes r)))
    (NewLRUCache String SqlStats c.MaxEntries) (LRUCache.NewLRUCache_WF _) rfl
    (by
      rw [List.map_map]
      have : (Prod.fst ∘ fun p : String × SqlStats => (p.1, p.2.mapTimes r)) = Prod.fst := rfl
      rw [this, List.map_reverse, List.nodup_reverse, ← LRUCache.keys_eq_map_entries]
      exact hwf.nodup_keys)
    (by simp [NewLRUCache, LRUCache.keys])
    (by
      have he : (NewLRUCache String SqlStats c.MaxEntries).entries = [] := by
        simp [NewLRUCache, LRUCache.entries]
      have hm : (NewLRUCache String SqlStats c.MaxEntries).MaxEntries = c.MaxEntries := rfl
      rw [he, hm]
      rcases hfit with h | h
      · exact Or.inl h
      · refine Or.inr ?_
        simpa using h)
  refine ⟨_,
    { m with
      sqlDigestCache :=
        some (recoverLines L
          (L.ScanLines (writeAll (c.entries.reverse.map
            (fun p => joinTabs (savedFields L p.2) ++ "\n"))))
          (NewLRUCache String SqlStats c.MaxEntries)) },
    _, hsave, ?_, rfl, ?_⟩
  · unfold SqlMonitor.recoverCacheFormFile
    simp only [if_neg hp2, if_true, writeFromStart_of_le _ _ hold]
  · rw [hlines, hrec, hkv, hent]
    have he : (NewLRUCache String SqlStats c.MaxEntries).entries = [] := by
      simp [NewLRUCache, LRUCache.entries]
    rw [he, List.append_nil, ← List.map_reverse, List.reverse_reverse]

set_option maxRecDepth 100000 in
/-- Witness of C15, amended: an inline monitor with the storage path `p`, three
records, no file yet. -/
theorem C15_round_trip_witness :
    ∃ m c,
      RecordAll decimalLib
        (Option.getD
          (SqlMonitor.Start decimalLib (fun _ => none) SqlMonitor.zero syncMode 10 10 "p" false)
          SqlMonitor.zero)
        [exampleEvent "a" true (Float64.fin 1) 1, exampleEvent "b" false (Float64.fin 20) 2,
         exampleEvent "c" true (Float64.fin 300) 3] = some (m, [true, true, true]) ∧
      m.status ≠ uninited ∧ m.dataPath ≠ "" ∧ (fun _ => true) m.dataPath = true ∧
      ((((fun _ => none) : String → Option String) m.dataPath).getD "").length ≤
        (writeAll (c.entries.reverse.map
          (fun p => joinTabs (savedFields decimalLib p.2) ++ "\n"))).length ∧
      m.sqlDigestCache = some c ∧ c.WF ∧
      (∀ p ∈ c.entries,
        p.1 = cacheKeyOf p.2.hostAddr p.2.schemaName p.2.userName p.2.digest) ∧
      (c.MaxEntries = 0 ∨ (c.entries.length : Int) ≤ c.MaxEntries) ∧
      (∀ p ∈ c.entries, ∀ f ∈ savedFields decimalLib p.2,
        '\t' ∉ f.data ∧ '\n' ∉ f.data ∧ '\r' ∉ f.data) ∧
      (∀ p ∈ c.entries, (joinTabs (savedFields decimalLib p.2)).length < MaxScanTokenSize) ∧
      (∀ content, decimalLib.ScanLines content = goScanLines content) ∧
      (∀ p ∈ c.entries, ∀ n ∈ p.2.ints, decimalLib.ParseInt (formatInt n) = some n) ∧
      (∀ p ∈ c.entries, ∀ t ∈ [p.2.sumTime, p.2.minTime, p.2.maxTime],
        decimalLib.ParseFloat (decimalLib.FormatFloat t) =
          some ((fun t => (parseDecimal (formatFixed3 t)).getD t) t)) ∧
      ∃ fs1 m1 c1,
        SqlMonitor.saveCacheToFile decimalLib (fun _ => true) (fun _ => none) m = some fs1 ∧
        SqlMonitor.recoverCacheFormFile decimalLib fs1
          { m with sqlDigestCache := some (NewLRUCache String SqlStats c.MaxEntries) } =
            some m1 ∧
        m1.sqlDigestCache = some c1 ∧
        c1.entries = c.entries.map
          (fun p => (p.1, p.2.mapTimes (fun t => (parseDecimal (formatFixed3 t)).getD t))) :=
  ⟨_, _, rfl, by decide, by decide, rfl, by decide, rfl, by decide, by decide, by decide,
    by decide, by decide, fun _ => rfl, by decide, by decide,
    C15_round_trip decimalLib (fun _ => true) (fun _ => none) _ _
      (fun t => (parseDecimal (formatFixed3 t)).getD t)
      (by decide) (by decide) rfl (by decide) rfl (by decide) (by decide) (by decide)
      (by decide) (by decide) (fun _ => rfl) (by decide) (by decide)⟩

set_option maxRecDepth 100000 in
/-- C15, as stated, fails: a record whose user name holds a tab is saved as a line of
nineteen fields, which recovery skips, so the record is lost although the storage path is
valid and there was no file before. -/
theorem C15_tab_counterexample :
    ∃ m fs1 m1,
      RecordAll decimalLib
        (Option.getD
          (SqlMonitor.Start decimalLib (fun _ => none) SqlMonitor.zero syncMode 10 10 "p" false)
          SqlMonitor.zero)
        [{ Sql := "q", SuccessExec := true, DBHost := "h", SchemaName := "s",
           UserName := "a\tb", ExecTime := Float64.fin 1, SeenTime := 1 }] = some (m, [true]) ∧
      m.sqlDigestCache.map (fun c => c.keys) = some ["h,s,a\tb,q"] ∧
      SqlMonitor.saveCacheToFile decimalLib (fun _ => true) (fun _ => none) m = some fs1 ∧
      fs1 "p" = some "h\ts\ta\tb\tq\t1\t0\t1\t1\t1.000\t1.000\t1.000\t1\t0\t0\t0\t0\t0\tq\n" ∧
      SqlMonitor.Start decimalLib fs1 SqlMonitor.zero syncMode 10 10 "p" false = some m1 ∧
      m1.sqlDigestCache.map (fun c => c.keys) = some [] :=
  ⟨_, _, _, rfl, by decide, rfl, by decide, rfl, by decide⟩

/-! ## Lines that recovery skips -/

/-- Among the lines the scanner yields, those that `parseLine` rejects change nothing:
the cache is the one obtained from the other lines alone. -/
theorem recoverLines_filter (L : Lib) : ∀ (lines : List String) (c : LRUCache String SqlStats),
    recoverLines L lines c =
      recoverLines L (lines.filter (fun line => (parseLine L line).isSome)) c
  | [], _ => rfl
  | line :: rest, c => by
    cases h : parseLine L line with
    | none =>
      rw [List.filter_cons_of_neg (by simp [h])]
      simp only [recoverLines, h]
      exact recoverLines_filter L rest c
    | some stats =>
      rw [List.filter_cons_of_pos (by simp [h])]
      simp only [recoverLines, h]
      exact recoverLines_filter L rest _

/-! ## Lines the scanner cannot hold -/

theorem goScanLines_overlong (l rest : List Char) (h1 : '\n' ∉ l)
    (h2 : MaxScanTokenSize ≤ l.length) :
    goScanLines (String.mk (l ++ '\n' :: rest)) = [] := by
  unfold goScanLines
  simp only
  rw [splitNewlines_append _ _ h1, scanTokens_cons _ _ (splitNewlines_ne_nil _), if_pos h2]
  rfl

/-- What `Start` recovers from a file. -/
theorem Start_recovered (L : Lib) (fs : String → Option String) (content : String)
    (hfs : fs "p" = some content) :
    (SqlMonitor.Start L fs SqlMonitor.zero syncMode 10 10 "p" false).bind
        (fun m => m.sqlDigestCache) =
      some (recoverLines L (L.ScanLines content) (NewLRUCache String SqlStats 10)) := by
  have h1 : ¬ ((if (0 : Int) = 10 then (4096 : Int) else 10) < 0) := by decide
  have h2 : ¬ (syncMode = fullAsyncMode) := by decide
  have h3 : ¬ (syncMode = asyncMode) := by decide
  have h4 : ¬ ("" = "p") := by decide
  have h5 : cacheCapacity 10 = 10 := by decide
  unfold SqlMonitor.Start
  simp only [h1, h2, h3, h5, if_false, if_true, SqlMonitor.recoverCacheFormFile, ne_eq,
    not_true_eq_false, h4, hfs, Option.bind]

theorem overlongLine_fields :
    '\n' ∉ overlongLine.data ∧ '\t' ∉ overlongLine.data ∧
    MaxScanTokenSize ≤ overlongLine.data.length := by
  unfold overlongLine
  refine ⟨?_, ?_, ?_⟩
  · intro h
    exact absurd (List.eq_of_mem_replicate h) (by decide)
  · intro h
    exact absurd (List.eq_of_mem_replicate h) (by decide)
  · simp only [List.length_replicate]
    exact Nat.le_refl _

theorem ScanLines_overlong_example :
    decimalLib.ScanLines (overlongLine ++ "\n" ++ savedLineExample ++ "\n") = [] := by
  obtain ⟨h1, _, h3⟩ := overlongLine_fields
  have hd : overlongLine ++ "\n" ++ savedLineExample ++ "\n" =
      String.mk (overlongLine.data ++ '\n' :: (savedLineExample ++ "\n").data) := by
    apply String.ext
    simp only [String.data_append, List.append_assoc]
    rfl
  have hl : ∀ content, decimalLib.ScanLines content = goScanLines content := fun _ => rfl
  rw [hl, hd]
  exact goScanLines_overlong overlongLine.data (savedLineExample ++ "\n").data h1 h3

theorem parseLine_overlongLine : parseLine decimalLib overlongLine = none := by
  obtain ⟨_, h2, _⟩ := overlongLine_fields
  unfold parseLine
  simp only [splitTabs_of_not_mem _ h2, List.map_cons, List.map_nil, List.length_singleton]
  rfl

theorem recovered_overlong_example :
    ((SqlMonitor.Start decimalLib
        (fun _ => some (overlongLine ++ "\n" ++ savedLineExample ++ "\n"))
        SqlMonitor.zero syncMode 10 10 "p" false).bind
      (fun m => m.sqlDigestCache)).map (fun c => c.keys) = some [] := by
  rw [Start_recovered decimalLib
    (fun _ => some (overlongLine ++ "\n" ++ savedLineExample ++ "\n")) _ rfl,
    ScanLines_overlong_example]
  rfl

set_option maxRecDepth 100000 in
theorem recovered_good_example :
    (parseLine decimalLib savedLineExample).map (fun s => s.digest) = some "a" ∧
    ((SqlMonitor.Start decimalLib (fun _ => some (savedLineExample ++ "\n"))
        SqlMonitor.zero syncMode 10 10 "p" false).bind
      (fun m => m.sqlDigestCache)).map (fun c => c.keys) = some ["h,s,u,a"] := by
  decide

/-- C16: a line of 65536 bytes ends the scan.  The file made of such a line (which has
one field, not eighteen) followed by a well-formed line recovers to an empty cache, while
the same file with the malformed line deleted recovers to the record of the well-formed
line. -/
theorem C16_overlong_line_ends_recovery :
    parseLine decimalLib overlongLine = none ∧
    (parseLine decimalLib savedLineExample).map (fun s => s.digest) = some "a" ∧
    ((SqlMonitor.Start decimalLib
        (fun _ => some (overlongLine ++ "\n" ++ savedLineExample ++ "\n"))
        SqlMonitor.zero syncMode 10 10 "p" false).bind
      (fun m => m.sqlDigestCache)).map (fun c => c.keys) = some [] ∧
    ((SqlMonitor.Start decimalLib (fun _ => some (savedLineExample ++ "\n"))
        SqlMonitor.zero syncMode 10 10 "p" false).bind
      (fun m => m.sqlDigestCache)).map (fun c => c.keys) = some ["h,s,u,a"] :=
  ⟨parseLine_overlongLine, recovered_good_example.1, recovered_overlong_example,
    recovered_good_example.2⟩

set_option maxRecDepth 100000 in
/-- Saving over a longer file: the file held the lines of the records `a` and `b`, the
cache holds the record `a` only; the line of `b` stays in the file after the save, and a
later `Start` recovers both records. -/
theorem saveCacheToFile_stale_tail_example :
    ((SqlMonitor.saveCacheToFile decimalLib (fun _ => true)
        (fun _ => some (savedLineExample ++ "\n" ++
          "h\ts\tu\tb\t1\t1\t2\t2\t20.000\t20.000\t20.000\t0\t0\t1\t0\t0\t0\tb\n"))
        (Option.getD
          (RecordAll decimalLib
            (Option.getD
              (SqlMonitor.Start decimalLib (fun _ => none) SqlMonitor.zero syncMode 10 10 "p"
                false)
              SqlMonitor.zero)
            [exampleEvent "a" true (Float64.fin 1) 1])
          (SqlMonitor.zero, [])).1).bind
      (fun fs1 =>
        ((SqlMonitor.Start decimalLib fs1 SqlMonitor.zero syncMode 10 10 "p" false).bind
          (fun m => m.sqlDigestCache)).map (fun c => c.keys))) = some ["h,s,u,b", "h,s,u,a"] := by
  decide

/-! ## The recency list and the index in every reachable state -/

section
variable {K V : Type} [DecidableEq K]

/-- What consistency of the list and the index gives. -/
theorem WF.list_and_index {c : LRUCache K V} (h : c.WF) :
    c.keys.Nodup ∧ (c.ll.map (fun e => e.id)).Nodup ∧
    List.Perm ((c.cache.getD []).map Prod.fst) c.keys ∧
    (∀ key id, mapGet (c.cache.getD []) key = some id ↔
      ∃ e ∈ c.ll, e.key = key ∧ e.id = id) ∧
    c.Len = (c.keys.length : Int) ∧ c.keys.dedup = c.keys ∧
    ∀ key, (c.Get key).isSome ↔ key ∈ c.keys := by
  have hnd := h.nodup_keys
  have hlen : c.Len = (c.keys.length : Int) := by
    rw [LRUCache.Len_eq_length h, LRUCache.keys_eq_map_entries, List.length_map]
  refine ⟨hnd, ?_, ?_, ?_, hlen, List.Nodup.dedup hnd, LRUCache.Get_isSome_iff h⟩
  · cases hc : c.cache with
    | none =>
      have h0 : c.ll = [] := by
        have h1 := h
        unfold LRUCache.WF at h1
        rw [hc] at h1
        exact List.length_eq_zero.1 h1
      rw [h0]
      exact List.nodup_nil
    | some m =>
      have h1 := h
      unfold LRUCache.WF at h1
      rw [hc] at h1
      exact h1.2.1
  · cases hc : c.cache with
    | none =>
      have h0 : c.ll = [] := by
        have h1 := h
        unfold LRUCache.WF at h1
        rw [hc] at h1
        exact List.length_eq_zero.1 h1
      simp [LRUCache.keys, h0]
    | some m => exact h.index_keys hc
  · intro key id
    cases hc : c.cache with
    | none =>
      have h0 : c.ll = [] := by
        have h1 := h
        unfold LRUCache.WF at h1
        rw [hc] at h1
        exact List.length_eq_zero.1 h1
      simp [h0, mapGet]
    | some m =>
      constructor
      · intro hg
        exact h.mem_of_mapGet hc hg
      · rintro ⟨e, he, rfl, rfl⟩
        exact h.mapGet_of_mem hc he

/-- C26. In every state reached from `NewLRUCache` by calls of `Add`, `Remove`,
`RemoveOldest`, `SetMaxEntries` and `Clear`: the keys of the elements of the recency list
are pairwise distinct, the elements are distinct, the index holds exactly these keys, and
the index maps a key to an element if and only if that element is in the list and has
that key; hence `Len()` is the number of keys, which are all distinct, and `Get(k)`
succeeds exactly when an element of the list has key `k`. -/
theorem C26_list_and_index (maxEntries : Int) (ops : List (CacheOp K V)) :
    (runCacheOps (NewLRUCache K V maxEntries) ops).keys.Nodup ∧
    ((runCacheOps (NewLRUCache K V maxEntries) ops).ll.map (fun e => e.id)).Nodup ∧
    List.Perm (((runCacheOps (NewLRUCache K V maxEntries) ops).cache.getD []).map Prod.fst)
      (runCacheOps (NewLRUCache K V maxEntries) ops).keys ∧
    (∀ key id,
      mapGet ((runCacheOps (NewLRUCache K V maxEntries) ops).cache.getD []) key = some id ↔
        ∃ e ∈ (runCacheOps (NewLRUCache K V maxEntries) ops).ll, e.key = key ∧ e.id = id) ∧
    (runCacheOps (NewLRUCache K V maxEntries) ops).Len =
      ((runCacheOps (NewLRUCache K V maxEntries) ops).keys.length : Int) ∧
    (runCacheOps (NewLRUCache K V maxEntries) ops).keys.dedup =
      (runCacheOps (NewLRUCache K V maxEntries) ops).keys ∧
    ∀ key, ((runCacheOps (NewLRUCache K V maxEntries) ops).Get key).isSome ↔
      key ∈ (runCacheOps (NewLRUCache K V maxEntries) ops).keys :=
  WF.list_and_index (runCacheOps_WF maxEntries ops)

/-! ## Resizing to zero -/

/-- C25 fails for the limit zero: `SetMaxEntries(0)` on a consistent cache sets the
limit to `0`, which `Add` reads as no limit, but it removes every entry, because the
number of removals is `Len() - 0`. -/
theorem C25_zero_evicts_all (c : LRUCache K V) (h : c.WF) :
    (c.SetMaxEntries 0).entries = [] ∧ (c.SetMaxEntries 0).MaxEntries = 0 ∧
    (c.SetMaxEntries 0).Len = 0 := by
  have he : (c.SetMaxEntries 0).entries = [] := by
    rw [LRUCache.SetMaxEntries_entries h]
    rfl
  refine ⟨he, LRUCache.SetMaxEntries_MaxEntries c 0, ?_⟩
  rw [LRUCache.Len_eq_length (LRUCache.SetMaxEntries_WF h 0), he]
  rfl

end

/-- Witness of C25: a cache of limit 5 with two entries. -/
theorem C25_zero_evicts_all_witness :
    (((NewLRUCache String Nat 5).Add "a" 1).Add "b" 2).WF ∧
    (((NewLRUCache String Nat 5).Add "a" 1).Add "b" 2).entries = [("b", 2), ("a", 1)] ∧
    ((((NewLRUCache String Nat 5).Add "a" 1).Add "b" 2).SetMaxEntries 0).entries = [] ∧
    ((((NewLRUCache String Nat 5).Add "a" 1).Add "b" 2).SetMaxEntries 0).MaxEntries = 0 ∧
    ((((NewLRUCache String Nat 5).Add "a" 1).Add "b" 2).SetMaxEntries 0).Len = 0 :=
  ⟨by decide, by decide,
    C25_zero_evicts_all (((NewLRUCache String Nat 5).Add "a" 1).Add "b" 2) (by decide)⟩

/-! ## The columns and the rows of the readers -/

/-- C23. On a started monitor with consistent caches and for all arguments,
`GetQueryStats` and `GetResetQueryStats` return, and return the same eighteen column
names `host_addr`, `schema_name`, `user_name`, `digest`, `digest_text`, `count_star`,
`count_err`, `first_seen`, `last_seen`, `sum_time`, `min_time`, `max_time`, `count_1ms`,
`count_10ms`, `count_100ms`, `count_1s`, `count_5s`, `count_others`; every row has
eighteen values and is made of the fields of one record of the cache read, the value at
each position being the field named by the column at that position (integers written
with `%d`, times with `%.3f`). -/
theorem C23_columns_and_rows (L : Lib) (m : SqlMonitor) (c1 c2 : LRUCache String SqlStats)
    (limit offset : Int) (hs : m.status ≠ uninited) (h1 : m.sqlDigestCache = some c1)
    (h2 : m.sqlDigestResetCache = some c2) (hw1 : c1.WF) (hw2 : c2.WF) :
    columnNames =
      ["host_addr", "schema_name", "user_name", "digest", "digest_text", "count_star",
       "count_err", "first_seen", "last_seen", "sum_time", "min_time", "max_time",
       "count_1ms", "count_10ms", "count_100ms", "count_1s", "count_5s", "count_others"] ∧
    columnNames.length = 18 ∧
    (∃ rows, SqlMonitor.GetQueryStats L m limit offset = some (columnNames, rows) ∧
      ∀ row ∈ rows, row.length = 18 ∧ ∃ p ∈ c1.entries,
        row = [p.2.hostAddr, p.2.schemaName, p.2.userName, p.2.digest, p.2.digestText,
               formatInt p.2.countStar, formatInt p.2.countError, formatInt p.2.firstSeen,
               formatInt p.2.lastSeen, L.FormatFloat p.2.sumTime, L.FormatFloat p.2.minTime,
               L.FormatFloat p.2.maxTime, formatInt p.2.count1ms, formatInt p.2.count10ms,
               formatInt p.2.count100ms, formatInt p.2.count1s, formatInt p.2.count5s,
               formatInt p.2.countOthers]) ∧
    (∃ rows m1, SqlMonitor.GetResetQueryStats L m limit = some ((columnNames, rows), m1) ∧
      ∀ row ∈ rows, row.length = 18 ∧ ∃ p ∈ c2.entries,
        row = [p.2.hostAddr, p.2.schemaName, p.2.userName, p.2.digest, p.2.digestText,
               formatInt p.2.countStar, formatInt p.2.countError, formatInt p.2.firstSeen,
               formatInt p.2.lastSeen, L.FormatFloat p.2.sumTime, L.FormatFloat p.2.minTime,
               L.FormatFloat p.2.maxTime, formatInt p.2.count1ms, formatInt p.2.count10ms,
               formatInt p.2.count100ms, formatInt p.2.count1s, formatInt p.2.count5s,
               formatInt p.2.countOthers]) := by
  refine ⟨rfl, rfl, ?_, ?_⟩
  · refine ⟨_, GetQueryStats_eq L m c1 limit offset hs h1 hw1, ?_⟩
    intro row hrow
    obtain ⟨p, hp, rfl⟩ := List.mem_map.1 hrow
    exact ⟨rfl, p, List.mem_of_mem_drop (List.mem_of_mem_take hp), rfl⟩
  · obtain ⟨c3, hr, _⟩ := GetResetQueryStats_eq L m c2 limit hs h2 hw2
    refine ⟨_, _, hr, ?_⟩
    intro row hrow
    obtain ⟨p, hp, rfl⟩ := List.mem_map.1 hrow
    exact ⟨rfl, p, List.mem_of_mem_drop (List.mem_reverse.1 hp), rfl⟩

/-- Witness of C23: an inline monitor with three records. -/
theorem C23_columns_and_rows_witness :
    ∃ m c1 c2,
      RecordAll exampleLib
        (Option.getD
          (SqlMonitor.Start exampleLib (fun _ => none) SqlMonitor.zero syncMode 10 10 "" false)
          SqlMonitor.zero)
        [exampleEvent "a" true (Float64.fin 1) 1, exampleEvent "b" true (Float64.fin 2) 2,
         exampleEvent "c" true (Float64.fin 3) 3] = some (m, [true, true, true]) ∧
      m.status ≠ uninited ∧ m.sqlDigestCache = some c1 ∧ m.sqlDigestResetCache = some c2 ∧
      c1.WF ∧ c2.WF ∧
      columnNames =
        ["host_addr", "schema_name", "user_name", "digest", "digest_text", "count_star",
         "count_err", "first_seen", "last_seen", "sum_time", "min_time", "max_time",
         "count_1ms", "count_10ms", "count_100ms", "count_1s", "count_5s", "count_others"] ∧
      columnNames.length = 18 ∧
      (∃ rows, SqlMonitor.GetQueryStats exampleLib m 2 1 = some (columnNames, rows) ∧
        ∀ row ∈ rows, row.length = 18 ∧ ∃ p ∈ c1.entries,
          row = [p.2.hostAddr, p.2.schemaName, p.2.userName, p.2.digest, p.2.digestText,
                 formatInt p.2.countStar, formatInt p.2.countError, formatInt p.2.firstSeen,
                 formatInt p.2.lastSeen, exampleLib.FormatFloat p.2.sumTime,
                 exampleLib.FormatFloat p.2.minTime, exampleLib.FormatFloat p.2.maxTime,
                 formatInt p.2.count1ms, formatInt p.2.count10ms, formatInt p.2.count100ms,
                 formatInt p.2.count1s, formatInt p.2.count5s, formatInt p.2.countOthers]) ∧
      (∃ rows m1,
        SqlMonitor.GetResetQueryStats exampleLib m 2 = some ((columnNames, rows), m1) ∧
        ∀ row ∈ rows, row.length = 18 ∧ ∃ p ∈ c2.entries,
          row = [p.2.hostAddr, p.2.schemaName, p.2.userName, p.2.digest, p.2.digestText,
                 formatInt p.2.countStar, formatInt p.2.countError, formatInt p.2.firstSeen,
                 formatInt p.2.lastSeen, exampleLib.FormatFloat p.2.sumTime,
                 exampleLib.FormatFloat p.2.minTime, exampleLib.FormatFloat p.2.maxTime,
                 formatInt p.2.count1ms, formatInt p.2.count10ms, formatInt p.2.count100ms,
                 formatInt p.2.count1s, formatInt p.2.count5s, formatInt p.2.countOthers]) :=
  ⟨_, _, _, rfl, by decide, rfl, rfl, by decide, by decide,
    C23_columns_and_rows exampleLib _ _ _ 2 1 (by decide) rfl rfl (by decide) (by decide)⟩

/-! ## A monitor before `Start` -/

/-- The state of a monitor on which `Start` has not been called. -/
theorem PreStartOp_apply_unstarted (L : Lib) (m m1 : SqlMonitor) (op : PreStartOp)
    (hr : op.apply L m = some m1)
    (h : m.status = uninited ∧ m.sqlExecInfoChan = none ∧ m.sqlDigestCache = none ∧
      m.sqlDigestResetCache = none ∧ m.mode = fullAsyncMode) :
    m1.status = uninited ∧ m1.sqlExecInfoChan = none ∧ m1.sqlDigestCache = none ∧
      m1.sqlDigestResetCache = none ∧ m1.mode = fullAsyncMode := by
  obtain ⟨hs, hch, hc1, hc2, hmode⟩ := h
  cases op with
  | setSuccessOnly b =>
    simp only [PreStartOp.apply, SqlMonitor.SetSuccessOnly, Option.some.injEq] at hr
    subst hr
    exact ⟨hs, hch, hc1, hc2, hmode⟩
  | setCachePath p =>
    simp only [PreStartOp.apply, SqlMonitor.SetCachePath, Option.some.injEq] at hr
    subst hr
    exact ⟨hs, hch, hc1, hc2, hmode⟩
  | record e =>
    have hrec : SqlMonitor.Record L m e = some (m, true) ∨
        SqlMonitor.Record L m e = some (m, false) := by
      unfold SqlMonitor.Record
      by_cases hf : (m.successOnly && !e.SuccessExec) = true
      · rw [if_pos hf]; exact Or.inl rfl
      · rw [if_neg hf, if_pos hmode, hch]; exact Or.inr rfl
    simp only [PreStartOp.apply] at hr
    rcases hrec with h | h <;> rw [h] at hr <;>
      simp only [Option.map_some', Option.some.injEq] at hr <;> subst hr <;>
      exact ⟨hs, hch, hc1, hc2, hmode⟩
  | getQueryStats l o =>
    simp only [PreStartOp.apply, Option.map_eq_some'] at hr
    obtain ⟨_, _, rfl⟩ := hr
    exact ⟨hs, hch, hc1, hc2, hmode⟩
  | getResetQueryStats l =>
    simp only [PreStartOp.apply, SqlMonitor.GetResetQueryStats, hs.symm, if_true,
      Option.map_some', Option.some.injEq] at hr
    subst hr
    exact ⟨hs, hch, hc1, hc2, hmode⟩
  | setCacheSize n =>
    simp only [PreStartOp.apply, SqlMonitor.SetCacheSize, hc1] at hr
    cases hr
  | stop writable fs =>
    simp only [PreStartOp.apply, SqlMonitor.Stop, hch, Option.map_none'] at hr
    cases hr

theorem runPreStartOps_unstarted (L : Lib) (ops : List PreStartOp) :
    ∀ (m m1 : SqlMonitor), runPreStartOps L m ops = some m1 →
      (m.status = uninited ∧ m.sqlExecInfoChan = none ∧ m.sqlDigestCache = none ∧
        m.sqlDigestResetCache = none ∧ m.mode = fullAsyncMode) →
      m1.status = uninited ∧ m1.sqlExecInfoChan = none ∧ m1.sqlDigestCache = none ∧
        m1.sqlDigestResetCache = none ∧ m1.mode = fullAsyncMode := by
  induction ops with
  | nil =>
    intro m m1 hr h
    simp only [runPreStartOps, Option.some.injEq] at hr
    subst hr
    exact h
  | cons op ops ih =>
    intro m m1 hr h
    simp only [runPreStartOps] at hr
    cases hm : op.apply L m with
    | none => rw [hm] at hr; cases hr
    | some m2 =>
      rw [hm] at hr
      exact ih m2 m1 hr (PreStartOp_apply_unstarted L m m2 op hm h)

/-- C22. On a monitor on which `Start` has not been called (the zero value, after any
calls of the other methods that returned), `GetQueryStats(limit, offset)` and
`GetResetQueryStats(limit)` return no column names and no rows for all arguments, and
`GetResetQueryStats` leaves the monitor as it was. -/
theorem C22_before_start (L : Lib) (ops : List PreStartOp) (m : SqlMonitor)
    (limit offset : Int) (hrun : runPreStartOps L SqlMonitor.zero ops = some m) :
    SqlMonitor.GetQueryStats L m limit offset = some ([], []) ∧
    SqlMonitor.GetResetQueryStats L m limit = some (([], []), m) := by
  obtain ⟨hs, _⟩ := runPreStartOps_unstarted L ops SqlMonitor.zero m hrun
    ⟨rfl, rfl, rfl, rfl, rfl⟩
  constructor
  · unfold SqlMonitor.GetQueryStats
    rw [if_pos hs.symm]
  · unfold SqlMonitor.GetResetQueryStats
    rw [if_pos hs.symm]

/-- Witness of C22: the zero value after `SetSuccessOnly`, two `Record` calls,
`SetCachePath` and a `GetResetQueryStats`. -/
theorem C22_before_start_witness :
    ∃ m,
      runPreStartOps exampleLib SqlMonitor.zero
        [PreStartOp.setSuccessOnly true,
         PreStartOp.record (exampleEvent "a" false (Float64.fin 1) 1),
         PreStartOp.record (exampleEvent "b" true (Float64.fin 2) 2),
         PreStartOp.setCachePath "p", PreStartOp.getResetQueryStats 3] = some m ∧
      SqlMonitor.GetQueryStats exampleLib m 2 1 = some ([], []) ∧
      SqlMonitor.GetResetQueryStats exampleLib m 2 = some (([], []), m) :=
  ⟨_, rfl,
    C22_before_start exampleLib
      [PreStartOp.setSuccessOnly true,
       PreStartOp.record (exampleEvent "a" false (Float64.fin 1) 1),
       PreStartOp.record (exampleEvent "b" true (Float64.fin 2) 2),
       PreStartOp.setCachePath "p", PreStartOp.getResetQueryStats 3] _ 2 1 rfl⟩

/-! ## After `Stop` -/

theorem statistics_frame (L : Lib) (m : SqlMonitor) (e : SqlExecInfo) :
    (SqlMonitor.statistics L m e).1.mode = m.mode ∧
    (SqlMonitor.statistics L m e).1.successOnly = m.successOnly ∧
    (SqlMonitor.statistics L m e).1.sqlExecInfoChan = m.sqlExecInfoChan := by
  unfold SqlMonitor.statistics
  cases m.sqlDigestCache with
  | none => exact ⟨rfl, rfl, rfl⟩
  | some c1 =>
    cases h2 : m.sqlDigestResetCache with
    | none => simp [h2]
    | some c2 => simp [h2]

theorem drainQueue_frame (L : Lib) : ∀ (events : List SqlExecInfo) (m m1 : SqlMonitor),
    SqlMonitor.drainQueue L events m = some m1 →
    m1.mode = m.mode ∧ m1.successOnly = m.successOnly ∧
      m1.sqlExecInfoChan = m.sqlExecInfoChan
  | [], m, m1, h => by
    simp only [SqlMonitor.drainQueue, Option.some.injEq] at h
    subst h
    exact ⟨rfl, rfl, rfl⟩
  | e :: rest, m, m1, h => by
    simp only [SqlMonitor.drainQueue] at h
    have hf := statistics_frame L m e
    revert h hf
    cases SqlMonitor.statistics L m e with
    | mk m2 ok =>
      cases ok with
      | false => intro h; cases h
      | true =>
        intro h hf
        obtain ⟨h1, h2, h3⟩ := drainQueue_frame L rest m2 m1 h
        exact ⟨h1.trans hf.1, h2.trans hf.2.1, h3.trans hf.2.2⟩

/-- The monitor `Stop` leaves behind: same mode, same filter, a closed queue, cleared
caches. -/
theorem Stop_some (L : Lib) (writable : String → Bool) (fs fs1 : String → Option String)
    (m m1 : SqlMonitor) (h : SqlMonitor.Stop L writable fs m = some (m1, fs1)) :
    m1.mode = m.mode ∧ m1.successOnly = m.successOnly ∧
    (∃ ch, m1.sqlExecInfoChan = some ch ∧ ch.closed = true) ∧
    ∃ c1 c2, m1.sqlDigestCache = some c1 ∧ m1.sqlDigestResetCache = some c2 ∧
      c1.entries = [] ∧ c2.entries = [] := by
  unfold SqlMonitor.Stop at h
  simp only at h
  cases hch : m.sqlExecInfoChan with
  | none => rw [hch] at h; cases h
  | some ch =>
    rw [hch] at h
    simp only at h
    by_cases hcl : ch.closed = true
    · rw [if_pos hcl] at h; cases h
    · rw [if_neg hcl] at h
      -- the monitor after the wait loop
      have key : ∀ (w : SqlMonitor), w.mode = m.mode → w.successOnly = m.successOnly →
          (∃ ch1, w.sqlExecInfoChan = some ch1 ∧ ch1.closed = true) →
          (match SqlMonitor.saveCacheToFile L writable fs w with
            | none => none
            | some fs2 =>
              match w.sqlDigestCache, w.sqlDigestResetCache with
              | some c1, some c2 =>
                some ({ w with sqlDigestCache := some c1.Clear,
                               sqlDigestResetCache := some c2.Clear }, fs2)
              | _, _ => none) = some (m1, fs1) →
          m1.mode = m.mode ∧ m1.successOnly = m.successOnly ∧
          (∃ ch, m1.sqlExecInfoChan = some ch ∧ ch.closed = true) ∧
          ∃ c1 c2, m1.sqlDigestCache = some c1 ∧ m1.sqlDigestResetCache = some c2 ∧
            c1.entries = [] ∧ c2.entries = [] := by
        intro w hw1 hw2 hw3 hw
        cases hsave : SqlMonitor.saveCacheToFile L writable fs w with
        | none => rw [hsave] at hw; cases hw
        | some fs2 =>
          rw [hsave] at hw
          simp only at hw
          cases hc1 : w.sqlDigestCache with
          | none => rw [hc1] at hw; cases hw
          | some c1 =>
            cases hc2 : w.sqlDigestResetCache with
            | none => rw [hc1, hc2] at hw; cases hw
            | some c2 =>
              rw [hc1, hc2] at hw
              simp only [Option.some.injEq, Prod.mk.injEq] at hw
              obtain ⟨hm, _⟩ := hw
              subst hm
              exact ⟨hw1, hw2, hw3, c1.Clear, c2.Clear, rfl, rfl, rfl, rfl⟩
      by_cases hmode : m.mode ≠ syncMode ∧ exited ≠ exiting
      · rw [if_pos hmode] at h
        by_cases hl : WorkerPc.looping ∈ m.workers
        · rw [if_pos hl] at h
          cases hd : SqlMonitor.drainQueue L ch.buf
              { m with status := exiting,
                       sqlExecInfoChan := some { ch with buf := [], closed := true } } with
          | none => rw [hd] at h; cases h
          | some w =>
            rw [hd] at h
            simp only at h
            obtain ⟨h1, h2, h3⟩ := drainQueue_frame L _ _ _ hd
            exact key { w with status := exited, workers := w.workers.erase WorkerPc.looping }
              h1 h2 ⟨_, h3, rfl⟩ h
        · rw [if_neg hl] at h; cases h
      · rw [if_neg hmode] at h
        exact key { m with status := exiting,
                           sqlExecInfoChan := some { ch with closed := true } }
          rfl rfl ⟨_, rfl, rfl⟩ h

theorem Record_unfiltered_closed (L : Lib) (m : SqlMonitor) (ch : Chan) (e : SqlExecInfo)
    (hf : ¬ (m.successOnly = true ∧ e.SuccessExec = false))
    (hmode : m.mode = fullAsyncMode ∨ m.mode = asyncMode)
    (hch : m.sqlExecInfoChan = some ch) (hcl : ch.closed = true) :
    SqlMonitor.Record L m e = some (m, false) := by
  have hc : (m.successOnly && !e.SuccessExec) = false := by
    cases h1 : m.successOnly <;> cases h2 : e.SuccessExec <;> simp_all
  have hne : ¬ (asyncMode = fullAsyncMode) := by decide
  unfold SqlMonitor.Record
  rcases hmode with h | h
  · simp only [hc, Bool.false_eq_true, if_false, h, if_true, hch, hcl]
  · simp only [hc, Bool.false_eq_true, if_false, h, hne, if_true, hch, hcl]

theorem Record_unfiltered_unstarted (L : Lib) (m : SqlMonitor) (e : SqlExecInfo)
    (hf : ¬ (m.successOnly = true ∧ e.SuccessExec = false))
    (hmode : m.mode = fullAsyncMode) (hch : m.sqlExecInfoChan = none) :
    SqlMonitor.Record L m e = some (m, false) := by
  have hc : (m.successOnly && !e.SuccessExec) = false := by
    cases h1 : m.successOnly <;> cases h2 : e.SuccessExec <;> simp_all
  unfold SqlMonitor.Record
  simp only [hc, Bool.false_eq_true, if_false, hmode, if_true, hch]

/-- C21, as stated, fails: with the success-only filter on, `Record` of a failed event
returns `true` on a monitor whose `Stop` has returned, and on a monitor that has not been
started. -/
theorem C21_filtered_returns_true :
    (∃ m m1 fs1,
      runMonitorOps exampleLib
        (Option.getD
          (SqlMonitor.Start exampleLib (fun _ => none) SqlMonitor.zero fullAsyncMode 10 10 ""
            true)
          SqlMonitor.zero)
        [MonitorOp.workerBegin] = some m ∧
      SqlMonitor.Stop exampleLib (fun _ => true) (fun _ => none) m = some (m1, fs1) ∧
      SqlMonitor.Record exampleLib m1 (exampleEvent "a" false (Float64.fin 1) 1) =
        some (m1, true)) ∧
    SqlMonitor.Record exampleLib (SqlMonitor.SetSuccessOnly SqlMonitor.zero true)
        (exampleEvent "a" false (Float64.fin 1) 1) =
      some (SqlMonitor.SetSuccessOnly SqlMonitor.zero true, true) :=
  ⟨⟨_, _, _, rfl, rfl, rfl⟩, rfl⟩

/-- C21, amended. For an event that the success-only filter does not reject, `Record`
returns `false` and leaves the monitor as it was, both on a monitor whose `Stop` has
returned in drop-on-full or blocking mode (the send on the closed queue panics and the
panic is recovered) and on a monitor that has not been started (the send on the nil
queue is never ready).  For an event that the filter rejects, `Record` returns `true` in
these states, the filter being applied first.  In no case does the call panic. -/
theorem C21_record_outside_run (L : Lib) (writable : String → Bool)
    (fs fs1 : String → Option String) (m m1 : SqlMonitor) (e : SqlExecInfo)
    (hstop : SqlMonitor.Stop L writable fs m = some (m1, fs1)) :
    ((m.successOnly = true ∧ e.SuccessExec = false) →
      SqlMonitor.Record L m1 e = some (m1, true)) ∧
    (¬ (m.successOnly = true ∧ e.SuccessExec = false) →
      (m.mode = fullAsyncMode ∨ m.mode = asyncMode) →
      SqlMonitor.Record L m1 e = some (m1, false)) ∧
    (∀ ops m0, runPreStartOps L SqlMonitor.zero ops = some m0 →
      ((m0.successOnly = true ∧ e.SuccessExec = false) →
        SqlMonitor.Record L m0 e = some (m0, true)) ∧
      (¬ (m0.successOnly = true ∧ e.SuccessExec = false) →
        SqlMonitor.Record L m0 e = some (m0, false))) := by
  obtain ⟨hmode, hso, ⟨ch, hch, hcl⟩, _⟩ := Stop_some L writable fs fs1 m m1 hstop
  refine ⟨?_, ?_, ?_⟩
  · rintro ⟨h1, h2⟩
    exact Record_filtered L m1 e (hso.trans h1) h2
  · intro hf hm
    exact Record_unfiltered_closed L m1 ch e (by rw [hso]; exact hf) (by rw [hmode]; exact hm)
      hch hcl
  · intro ops m0 hrun
    obtain ⟨_, h0ch, _, _, h0mode⟩ := runPreStartOps_unstarted L ops SqlMonitor.zero m0 hrun
      ⟨rfl, rfl, rfl, rfl, rfl⟩
    exact ⟨fun h => Record_filtered L m0 e h.1 h.2,
      fun hf => Record_unfiltered_unstarted L m0 e hf h0mode h0ch⟩

/-- Witness of C21, amended: a drop-on-full monitor whose worker runs, with two queued
events, is stopped. -/
theorem C21_record_outside_run_witness :
    ∃ m m1 fs1,
      runMonitorOps exampleLib
        (Option.getD
          (SqlMonitor.Start exampleLib (fun _ => none) SqlMonitor.zero fullAsyncMode 10 10 ""
            false)
          SqlMonitor.zero)
        [MonitorOp.record (exampleEvent "a" true (Float64.fin 1) 1), MonitorOp.workerBegin,
         MonitorOp.record (exampleEvent "b" true (Float64.fin 2) 2)] = some m ∧
      SqlMonitor.Stop exampleLib (fun _ => true) (fun _ => none) m = some (m1, fs1) ∧
      (((m.successOnly = true ∧ (exampleEvent "c" true (Float64.fin 3) 3).SuccessExec = false) →
        SqlMonitor.Record exampleLib m1 (exampleEvent "c" true (Float64.fin 3) 3) =
          some (m1, true)) ∧
      (¬ (m.successOnly = true ∧
          (exampleEvent "c" true (Float64.fin 3) 3).SuccessExec = false) →
        (m.mode = fullAsyncMode ∨ m.mode = asyncMode) →
        SqlMonitor.Record exampleLib m1 (exampleEvent "c" true (Float64.fin 3) 3) =
          some (m1, false)) ∧
      (∀ ops m0, runPreStartOps exampleLib SqlMonitor.zero ops = some m0 →
        ((m0.successOnly = true ∧
            (exampleEvent "c" true (Float64.fin 3) 3).SuccessExec = false) →
          SqlMonitor.Record exampleLib m0 (exampleEvent "c" true (Float64.fin 3) 3) =
            some (m0, true)) ∧
        (¬ (m0.successOnly = true ∧
            (exampleEvent "c" true (Float64.fin 3) 3).SuccessExec = false) →
          SqlMonitor.Record exampleLib m0 (exampleEvent "c" true (Float64.fin 3) 3) =
            some (m0, false)))) :=
  ⟨_, _, _, rfl, rfl,
    C21_record_outside_run exampleLib (fun _ => true) (fun _ => none) _ _ _
      (exampleEvent "c" true (Float64.fin 3) 3) rfl⟩

/-- Inline mode after `Stop`: `Record` returns `true`, and the event is aggregated into
the cleared caches, which `Add` allocates again. -/
theorem Record_sync_after_Stop_example :
    ∃ m1 fs1 m2,
      SqlMonitor.Stop exampleLib (fun _ => true) (fun _ => none)
        (Option.getD
          (SqlMonitor.Start exampleLib (fun _ => none) SqlMonitor.zero syncMode 10 10 "" false)
          SqlMonitor.zero) = some (m1, fs1) ∧
      SqlMonitor.Record exampleLib m1 (exampleEvent "a" true (Float64.fin 1) 1) =
        some (m2, true) ∧
      m2.sqlDigestCache.map (fun c => c.keys) = some ["h,s,u,a"] :=
  ⟨_, _, _, rfl, rfl, by decide⟩

/-! ## A saved line the scanner cannot hold -/

theorem length_le_joinTabs (f : String) : ∀ (fields : List String), f ∈ fields →
    f.data.length ≤ (joinTabs fields).data.length
  | [], h => absurd h (List.not_mem_nil _)
  | [a], h => by
    rw [List.mem_singleton.1 h]
    exact Nat.le_refl _
  | a :: b :: rest, h => by
    rw [joinTabs_cons_cons]
    have hd : (a ++ "\t" ++ joinTabs (b :: rest)).data =
        a.data ++ '\t' :: (joinTabs (b :: rest)).data := by
      simp [String.data_append]
    rw [hd, List.length_append, List.length_cons]
    rcases List.mem_cons.1 h with h1 | h1
    · rw [h1]
      omega
    · have := length_le_joinTabs f (b :: rest) h1
      omega

/-- The record of `overlongEvent`. -/
theorem overlongEvent_fields :
    ∀ f ∈ savedFields decimalLib
        (newStats overlongEvent (decimalLib.Id (decimalLib.Fingerprint overlongEvent.Sql))
          (decimalLib.Fingerprint overlongEvent.Sql)),
      '\t' ∉ f.data ∧ '\n' ∉ f.data := by
  intro f hf
  simp only [savedFields, List.mem_cons, List.mem_singleton, List.not_mem_nil, or_false] at hf
  rcases hf with h | h | h | h | h | h | h | h | h | h | h | h | h | h | h | h | h | h <;>
    rw [h] <;>
    first
      | exact ⟨overlongLine_fields.2.1, overlongLine_fields.1⟩
      | decide

theorem overlongEvent_line :
    '\n' ∉ (joinTabs (savedFields decimalLib
        (newStats overlongEvent (decimalLib.Id (decimalLib.Fingerprint overlongEvent.Sql))
          (decimalLib.Fingerprint overlongEvent.Sql)))).data ∧
    MaxScanTokenSize ≤ (joinTabs (savedFields decimalLib
        (newStats overlongEvent (decimalLib.Id (decimalLib.Fingerprint overlongEvent.Sql))
          (decimalLib.Fingerprint overlongEvent.Sql)))).data.length := by
  constructor
  · intro hm
    rcases mem_joinTabs _ _ hm with h | ⟨f, hf, h⟩
    · exact absurd h (by decide)
    · exact (overlongEvent_fields f hf).2 h
  · refine Nat.le_trans overlongLine_fields.2.2 ?_
    apply length_le_joinTabs
    simp only [savedFields, List.mem_cons, List.mem_singleton]
    right; right; right; left
    rfl

/-- The file saved for the record of `overlongEvent` is scanned into no line. -/
theorem overlongEvent_scan :
    decimalLib.ScanLines
      (writeAll ([(eventKey decimalLib overlongEvent,
          newStats overlongEvent (decimalLib.Id (decimalLib.Fingerprint overlongEvent.Sql))
            (decimalLib.Fingerprint overlongEvent.Sql))].reverse.map
        (fun p => joinTabs (savedFields decimalLib p.2) ++ "\n"))) = [] := by
  have hl : ∀ content, decimalLib.ScanLines content = goScanLines content := fun _ => rfl
  have hd : writeAll ([(eventKey decimalLib overlongEvent,
      newStats overlongEvent (decimalLib.Id (decimalLib.Fingerprint overlongEvent.Sql))
        (decimalLib.Fingerprint overlongEvent.Sql))].reverse.map
      (fun p => joinTabs (savedFields decimalLib p.2) ++ "\n")) =
      String.mk ((joinTabs (savedFields decimalLib
        (newStats overlongEvent (decimalLib.Id (decimalLib.Fingerprint overlongEvent.Sql))
          (decimalLib.Fingerprint overlongEvent.Sql)))).data ++ '\n' :: []) := by
    have h1 : ("\n" : String).data = ['\n'] := rfl
    have h2 : ("" : String).data = [] := rfl
    apply String.ext
    simp only [List.reverse_singleton, List.map_cons, List.map_nil, writeAll,
      String.data_append, h1, h2, List.append_nil, List.singleton_append]
  rw [hl, hd]
  exact goScanLines_overlong _ _ overlongEvent_line.1 overlongEvent_line.2

/-- C24: a record whose saved line is `MaxScanTokenSize` bytes or longer is not
recovered.  An inline monitor with the storage path `p` and no file records
`overlongEvent`, whose fields hold no tab and no newline; the rolling cache is saved;
a `Start` on the saved file, with capacity 10, recovers no record. -/
theorem C24_overlong_record_lost :
    ∃ m fs1,
      SqlMonitor.Record decimalLib
        (Option.getD
          (SqlMonitor.Start decimalLib (fun _ => none) SqlMonitor.zero syncMode 10 10 "p" false)
          SqlMonitor.zero)
        overlongEvent = some (m, true) ∧
      m.sqlDigestCache.map (fun c => c.keys) = some [eventKey decimalLib overlongEvent] ∧
      (∀ f ∈ savedFields decimalLib
          (newStats overlongEvent (decimalLib.Id (decimalLib.Fingerprint overlongEvent.Sql))
            (decimalLib.Fingerprint overlongEvent.Sql)),
        '\t' ∉ f.data ∧ '\n' ∉ f.data) ∧
      SqlMonitor.saveCacheToFile decimalLib (fun _ => true) (fun _ => none) m = some fs1 ∧
      ((SqlMonitor.Start decimalLib fs1 SqlMonitor.zero syncMode 10 10 "p" false).bind
        (fun m => m.sqlDigestCache)).map (fun c => c.keys) = some [] := by
  have hrec := Record_sync decimalLib
    (Option.getD
      (SqlMonitor.Start decimalLib (fun _ => none) SqlMonitor.zero syncMode 10 10 "p" false)
      SqlMonitor.zero)
    overlongEvent (NewLRUCache String SqlStats 10) (NewLRUCache String SqlStats 10)
    rfl rfl rfl rfl
  have hent := addToCache_fresh 10 (by decide) overlongEvent
    (decimalLib.Id (decimalLib.Fingerprint overlongEvent.Sql))
    (decimalLib.Fingerprint overlongEvent.Sql)
  have hwf := addToCache_WF (LRUCache.NewLRUCache_WF 10) overlongEvent
    (decimalLib.Id (decimalLib.Fingerprint overlongEvent.Sql))
    (decimalLib.Fingerprint overlongEvent.Sql)
  have hsave := saveCacheToFile_eq decimalLib (fun _ => true) (fun _ => none)
    { Option.getD
        (SqlMonitor.Start decimalLib (fun _ => none) SqlMonitor.zero syncMode 10 10 "p" false)
        SqlMonitor.zero with
      sqlDigestCache :=
        some (addToCache (NewLRUCache String SqlStats 10) overlongEvent
          (decimalLib.Id (decimalLib.Fingerprint overlongEvent.Sql))
          (decimalLib.Fingerprint overlongEvent.Sql))
      sqlDigestResetCache :=
        some (addToCache (NewLRUCache String SqlStats 10) overlongEvent
          (decimalLib.Id (decimalLib.Fingerprint overlongEvent.Sql))
          (decimalLib.Fingerprint overlongEvent.Sql)) }
    _ (by decide) (by decide) rfl rfl hwf
  rw [hent] at hsave
  refine ⟨_, _, hrec, ?_, overlongEvent_fields, hsave, ?_⟩
  · simp only [Option.map_some', LRUCache.keys_eq_map_entries, hent, List.map_cons,
      List.map_nil]
    rfl
  · rw [Start_recovered decimalLib _
      (writeAll ([(eventKey decimalLib overlongEvent,
          newStats overlongEvent (decimalLib.Id (decimalLib.Fingerprint overlongEvent.Sql))
            (decimalLib.Fingerprint overlongEvent.Sql))].reverse.map
        (fun p => joinTabs (savedFields decimalLib p.2) ++ "\n")))
      (by
        have hdp : "p" = (Option.getD
            (SqlMonitor.Start decimalLib (fun _ => none) SqlMonitor.zero syncMode 10 10 "p"
              false)
            SqlMonitor.zero).dataPath := rfl
        simp only
        rw [if_pos hdp, writeFromStart_of_le _ _ (Nat.zero_le _)]
        rfl),
      overlongEvent_scan]
    rfl
